import Mathlib

/-!
# Equation-system solve orchestration of the simulation runtime

A shallow embedding of the macros of
`SimulationRuntime/c/math-support/matrix.h`:

* `extraPolate`: linear prediction from two time-stamped samples;
* `solve_nonlinear_system` and `solve_nonlinear_system_analytic_jac`: the retry
  ladders wrapped around the root-finding kernels `_omc_hybrd_` / `_omc_hybrj_`;
* `mixed_equation_system` / `check_discrete_values`: the search over the table
  of discrete candidate assignments;
* `solve_linear_equation_system`: the wrapper around the dense solver;

and of the functions `evalfF` and `evalfDiffF` of
`SimulationRuntime/c/optimization/eval_all/EvalF.c`.

Conventions.  A C `double` is a rational number.  A C array is its index map
`Nat → _`; a loop `for (i = 0; i < n; i++) a[i] = e` rewrites the entries below
`n` and keeps the others.  The kernels and the code generated between the
macros are not part of the header: they are parameters of the embedding.
A `while` loop is run with a step budget and yields `none` when the budget is
used up before the loop condition fails.
-/

namespace OMC

/-! ## Extrapolation -/

/-- Division of two doubles; a zero divisor yields no number. -/
def fdiv (a b : ℚ) : Option ℚ :=
  if b = 0 then none else some (a / b)

/-- The macro `extraPolate(v,old1,old2)`.  The three time stamps it reads are
`t0 = data->localData[0]->timeValue`, `t1 = data->localData[1]->timeValue` and
`t2 = data->localData[2]->timeValue`.  The conditional operator evaluates only
the selected branch. -/
def extraPolate (t0 t1 t2 v old1 old2 : ℚ) : Option ℚ :=
  if t1 = t2 then some v
  else
    match fdiv (old1 - old2) (t1 - t2), fdiv (t1 * old2 - t2 * old1) (t1 - t2) with
    | some q1, some q2 => some (q1 * t0 + q2)
    | _, _ => none

/-! ## Nonlinear solve driver -/

/-- The variables declared by `start_nonlinear_system(size)` together with the
locals of `solve_nonlinear_system` and the two status variables the driver
writes (`data->found_solution` and the global `modelErrorCode`). -/
structure NlsState where
  /-- The dimension `n = size`. -/
  n : Nat
  nls_x : Nat → ℚ
  nls_xEx : Nat → ℚ
  nls_xold : Nat → ℚ
  nls_fvec : Nat → ℚ
  nls_diag : Nat → ℚ
  nls_diagSave : Nat → ℚ
  mode : Int
  info : Int
  nfev : Int
  njev : Int
  factor : ℚ
  initial_factor : ℚ
  giveUp : Bool
  retries : Nat
  retries2 : Nat
  retries3 : Nat
  found_solution : Int
  modelErrorCode : Int

/-- What a kernel call hands back: the iterate `x`, the residual `fvec`, the
scale vector `diag` (which the kernel computes itself when `mode = 1`), the
outcome code `info` and the evaluation counts.  `mode` and `factor` are passed
by address as well but are inputs of the kernel; the work arrays are not
modelled. -/
structure KernelOut where
  nls_x : Nat → ℚ
  nls_fvec : Nat → ℚ
  nls_diag : Nat → ℚ
  info : Int
  nfev : Int
  njev : Int

/-- A root-finding kernel (`_omc_hybrd_` or `_omc_hybrj_`, declared `extern` in
the header) together with the residual callback it drives.  Its answer may
depend on how many calls were made before in this solve and on everything the
driver hands in; it writes neither `data->found_solution` nor
`modelErrorCode`. -/
abbrev Kernel := Nat → NlsState → KernelOut

/-- The branch of the `if` / `else if` chain taken after a kernel call. -/
inductive Action where
  | tier1 | tier2 | tier3 | tier4 | tier5 | tier6 | tier7 | tier8
  | failed
  | stop
  deriving DecidableEq, Repr

/-- The variable block opened by `start_nonlinear_system(size)`: `nls_x` is
left uninitialised (here: given), the other arrays are zeroed, `mode = 1`,
`factor = initial_factor = 100.0`. -/
def start_nonlinear_system (size : Nat) (x0 : Nat → ℚ)
    (found_solution modelErrorCode : Int) : NlsState :=
  { n := size
    nls_x := x0
    nls_xEx := fun _ => 0
    nls_xold := fun _ => 0
    nls_fvec := fun _ => 0
    nls_diag := fun _ => 0
    nls_diagSave := fun _ => 0
    mode := 1
    info := 0
    nfev := 0
    njev := 0
    factor := 100
    initial_factor := 100
    giveUp := false
    retries := 0
    retries2 := 0
    retries3 := 0
    found_solution := found_solution
    modelErrorCode := modelErrorCode }

/-- One kernel invocation: the call number `c` and the current state go in,
the out-parameters are stored back. -/
def callKernel (kernel : Kernel) (c : Nat) (s : NlsState) : NlsState :=
  let o := kernel c s
  { s with
    nls_x := o.nls_x
    nls_fvec := o.nls_fvec
    nls_diag := o.nls_diag
    info := o.info
    nfev := o.nfev
    njev := o.njev }

/-- The test `info == 0` after `_omc_hybrd_` (lines 106-109). -/
def improperInput (s : NlsState) : NlsState :=
  if s.info = 0 then { s with found_solution := -1 } else s

/-- Lines 122-126: decrease `factor`, keep `x`. -/
def tier1 (s : NlsState) : NlsState :=
  { s with retries := s.retries + 1, giveUp := false, factor := s.factor / 10 }

/-- Lines 127-131: `nls_x[i] += 0.1` for `i < n`. -/
def tier2 (s : NlsState) : NlsState :=
  { s with
    nls_x := fun i => if i < s.n then s.nls_x i + 1 / 10 else s.nls_x i
    retries := s.retries + 1, giveUp := false }

/-- Lines 132-136: `nls_x[i] = nls_xEx[i]*1.01` for `i < n`. -/
def tier3 (s : NlsState) : NlsState :=
  { s with
    nls_x := fun i => if i < s.n then s.nls_xEx i * (101 / 100) else s.nls_x i
    retries := s.retries + 1, giveUp := false }

/-- Lines 137-141: `nls_x[i] = nls_xEx[i] * 0.99` for `i < n`. -/
def tier4 (s : NlsState) : NlsState :=
  { s with
    nls_x := fun i => if i < s.n then s.nls_xEx i * (99 / 100) else s.nls_x i
    retries := s.retries + 1, giveUp := false }

/-- Lines 142-146: restart from the old values `nls_xold`. -/
def tier5 (s : NlsState) : NlsState :=
  { s with
    factor := s.initial_factor, retries := 0, retries2 := s.retries2 + 1, giveUp := false
    nls_x := fun i => if i < s.n then s.nls_xold i else s.nls_x i }

/-- Lines 147-151: restore the saved scaling, `mode = 2`. -/
def tier6 (s : NlsState) : NlsState :=
  { s with
    nls_diag := fun i => if i < s.n then s.nls_diagSave i else s.nls_diag i
    factor := s.initial_factor, retries := 0, retries2 := 0, mode := 2
    retries3 := s.retries3 + 1, giveUp := false }

/-- Lines 152-156: `nls_x[i] = nls_xEx[i]; nls_diag[i] = fmax(1e-2,fabs(nls_xEx[i]))`,
`mode = 1`. -/
def tier7 (s : NlsState) : NlsState :=
  { s with
    nls_x := fun i => if i < s.n then s.nls_xEx i else s.nls_x i
    nls_diag := fun i => if i < s.n then max (1 / 100) |s.nls_xEx i| else s.nls_diag i
    factor := s.initial_factor, retries := 0, retries2 := 0, mode := 1
    retries3 := s.retries3 + 1, giveUp := false }

/-- Lines 157-161: `nls_x[i] = nls_xEx[i]; nls_diag[i] = 1.0`, `mode = 2`. -/
def tier8 (s : NlsState) : NlsState :=
  { s with
    nls_x := fun i => if i < s.n then s.nls_xEx i else s.nls_x i
    nls_diag := fun i => if i < s.n then 1 else s.nls_diag i
    factor := s.initial_factor, retries := 0, retries2 := 0
    retries3 := s.retries3 + 1, mode := 2, giveUp := false }

/-- Lines 162-171: the solve is marked as failed. -/
def failSolve (ERROR_NONLINSYS : Int) (s : NlsState) : NlsState :=
  { s with found_solution := -1, modelErrorCode := ERROR_NONLINSYS }

/-- The `if` / `else if` chain of `solve_nonlinear_system` (lines 122-171),
with the branch taken. -/
def ladder (ERROR_NONLINSYS : Int) (s : NlsState) : NlsState × Action :=
  if (s.info = 4 ∨ s.info = 5) ∧ s.retries < 3 then (tier1 s, .tier1)
  else if (s.info = 4 ∨ s.info = 5) ∧ s.retries < 5 then (tier2 s, .tier2)
  else if (s.info = 4 ∨ s.info = 5) ∧ s.retries < 7 then (tier3 s, .tier3)
  else if (s.info = 4 ∨ s.info = 5) ∧ s.retries < 9 then (tier4 s, .tier4)
  else if (s.info = 4 ∨ s.info = 5) ∧ s.retries2 < 1 then (tier5 s, .tier5)
  else if (s.info = 4 ∨ s.info = 5) ∧ s.retries3 < 1 then (tier6 s, .tier6)
  else if (s.info = 4 ∨ s.info = 5) ∧ s.retries3 < 2 then (tier7 s, .tier7)
  else if (s.info = 4 ∨ s.info = 5) ∧ s.retries3 < 3 then (tier8 s, .tier8)
  else if 2 ≤ s.info ∧ s.info ≤ 5 then (failSolve ERROR_NONLINSYS s, .failed)
  else (s, .stop)

/-- The record of one pass through a driver loop: the number of the kernel
call (counted from 0), the state handed to the kernel, the state at the end of
the pass and the branch taken. -/
structure Pass where
  call : Nat
  input : NlsState
  output : NlsState
  action : Action

/-- Lines 102-109: `giveUp = 1`, the kernel call numbered `c`, the test
`info == 0`. -/
def kernelPass (kernel : Kernel) (c : Nat) (s : NlsState) : NlsState :=
  improperInput (callKernel kernel c { s with giveUp := true })

/-- One pass through the body of `while(!giveUp)` in `solve_nonlinear_system`:
the kernel call numbered `c` followed by the ladder. -/
def solveBody (ERROR_NONLINSYS : Int) (kernel : Kernel) (c : Nat) (s : NlsState) : Pass :=
  { call := c
    input := { s with giveUp := true }
    output := (ladder ERROR_NONLINSYS (kernelPass kernel c s)).1
    action := (ladder ERROR_NONLINSYS (kernelPass kernel c s)).2 }

/-- The loop `while(!giveUp)` of `solve_nonlinear_system`.  The history `tr`
holds the passes made so far; its length numbers the next kernel call. -/
def solveLoop (ERROR_NONLINSYS : Int) (kernel : Kernel) :
    Nat → NlsState → List Pass → Option (NlsState × List Pass)
  | 0, _, _ => none
  | fuel + 1, s, tr =>
    if s.giveUp then some (s, tr)
    else
      solveLoop ERROR_NONLINSYS kernel fuel
        (solveBody ERROR_NONLINSYS kernel tr.length s).output
        (tr ++ [solveBody ERROR_NONLINSYS kernel tr.length s])

/-- Lines 92-97: the locals of `solve_nonlinear_system` are zeroed and
`nls_diag` is saved into `nls_diagSave`. -/
def solveEntry (s : NlsState) : NlsState :=
  { s with
    giveUp := false, retries := 0, retries2 := 0, retries3 := 0
    nls_diagSave := fun i => if i < s.n then s.nls_diag i else s.nls_diagSave i }

/-- The macro `solve_nonlinear_system(residual, no, userdata)`: the entry
block, then the loop. -/
def solve_nonlinear_system (ERROR_NONLINSYS : Int) (kernel : Kernel) (fuel : Nat)
    (s : NlsState) : Option (NlsState × List Pass) :=
  solveLoop ERROR_NONLINSYS kernel fuel (solveEntry s) []

/-- Lines 198-201 of `solve_nonlinear_system_analytic_jac`: only the error
code is set. -/
def failSolve_analytic_jac (ERROR_NONLINSYS : Int) (s : NlsState) : NlsState :=
  { s with modelErrorCode := ERROR_NONLINSYS }

/-- The `if` / `else if` chain of `solve_nonlinear_system_analytic_jac`
(lines 186-201); its first two branches are those of the derivative-free
driver. -/
def ladder_analytic_jac (ERROR_NONLINSYS : Int) (s : NlsState) : NlsState × Action :=
  if (s.info = 4 ∨ s.info = 5) ∧ s.retries < 3 then (tier1 s, .tier1)
  else if (s.info = 4 ∨ s.info = 5) ∧ s.retries < 5 then (tier2 s, .tier2)
  else if 2 ≤ s.info ∧ s.info ≤ 5 then (failSolve_analytic_jac ERROR_NONLINSYS s, .failed)
  else (s, .stop)

/-- One pass through the loop body of `solve_nonlinear_system_analytic_jac`:
`giveUp = 1`, the kernel call numbered `c` (the test `info == 0` only prints),
then the ladder. -/
def solveBody_analytic_jac (ERROR_NONLINSYS : Int) (kernel : Kernel) (c : Nat)
    (s : NlsState) : Pass :=
  { call := c
    input := { s with giveUp := true }
    output :=
      (ladder_analytic_jac ERROR_NONLINSYS (callKernel kernel c { s with giveUp := true })).1
    action :=
      (ladder_analytic_jac ERROR_NONLINSYS (callKernel kernel c { s with giveUp := true })).2 }

/-- The loop `while(!giveUp)` of `solve_nonlinear_system_analytic_jac`. -/
def solveLoop_analytic_jac (ERROR_NONLINSYS : Int) (kernel : Kernel) :
    Nat → NlsState → List Pass → Option (NlsState × List Pass)
  | 0, _, _ => none
  | fuel + 1, s, tr =>
    if s.giveUp then some (s, tr)
    else
      solveLoop_analytic_jac ERROR_NONLINSYS kernel fuel
        (solveBody_analytic_jac ERROR_NONLINSYS kernel tr.length s).output
        (tr ++ [solveBody_analytic_jac ERROR_NONLINSYS kernel tr.length s])

/-- Lines 176-177: the locals of `solve_nonlinear_system_analytic_jac`. -/
def solveEntry_analytic_jac (s : NlsState) : NlsState :=
  { s with giveUp := false, retries := 0 }

/-- The macro `solve_nonlinear_system_analytic_jac(residual, no, userdata)`. -/
def solve_nonlinear_system_analytic_jac (ERROR_NONLINSYS : Int) (kernel : Kernel)
    (fuel : Nat) (s : NlsState) : Option (NlsState × List Pass) :=
  solveLoop_analytic_jac ERROR_NONLINSYS kernel fuel (solveEntry_analytic_jac s) []

/-- A stub kernel that answers the outcome code `i` every time and leaves the
iterate, the residual and the scaling as they are. -/
def constKernel (i : Int) : Kernel := fun _ s =>
  { nls_x := s.nls_x, nls_fvec := s.nls_fvec, nls_diag := s.nls_diag
    info := i, nfev := s.nfev, njev := s.njev }

/-- A stub kernel that answers `NoProgress` (code 4) on its first `k` calls and
`Success` (code 1) afterwards. -/
def stubKernel (k : Nat) : Kernel := fun c s =>
  { nls_x := s.nls_x, nls_fvec := s.nls_fvec, nls_diag := s.nls_diag
    info := if c < k then 4 else 1, nfev := s.nfev, njev := s.njev }

/-- The state change belonging to a branch of the ladder of
`solve_nonlinear_system`. -/
def applyAction (ERROR_NONLINSYS : Int) : Action → NlsState → NlsState
  | .tier1, s => tier1 s
  | .tier2, s => tier2 s
  | .tier3, s => tier3 s
  | .tier4, s => tier4 s
  | .tier5, s => tier5 s
  | .tier6, s => tier6 s
  | .tier7, s => tier7 s
  | .tier8, s => tier8 s
  | .failed, s => failSolve ERROR_NONLINSYS s
  | .stop, s => s

/-- A ranking of the retry counters: every pass of `solve_nonlinear_system`
that asks for another kernel call lowers it. -/
def ladderRank (s : NlsState) : Nat :=
  (3 - s.retries3) * 20 + (1 - s.retries2) * 10 + (9 - s.retries)

/-! ## Mixed systems -/

/-- The variables the mixed-system macros work on.  `env` is whatever else the
code between the macros reaches through `data`; `vars i` is the discrete
variable `*loc_ptrs[i]`; `reads` lists the indices of `values` read so far. -/
structure MixedState (σ β : Type) where
  env : σ
  found_solution : Int
  cur_value_indx : Nat
  vars : Nat → β
  discrete_loc : Nat → ℚ
  discrete_loc2 : Nat → ℚ
  reads : List Nat

/-- What the code between `mixed_equation_system` and `check_discrete_values`
leaves behind in one pass: the continuous solve (which may set
`data->found_solution = -1`), the assumed discrete inputs `discrete_loc` and
the implied discrete outputs `discrete_loc2`. -/
structure BodyOut (σ β : Type) where
  env : σ
  found_solution : Int
  vars : Nat → β
  discrete_loc : Nat → ℚ
  discrete_loc2 : Nat → ℚ

/-- The generated code between the macros, run on the current environment and
discrete variables (on entry `data->found_solution` is 0 and both local arrays
are zero). -/
abbrev Body (σ β : Type) := σ → (Nat → β) → BodyOut σ β

/-- The comparison loop of `check_discrete_values` (lines 305-310), entered
with `data->found_solution = found`, at index `i`, with `m` indices to go; the
first component that differs by more than `1e-12` clears the flag and leaves
the loop. -/
def compareLoop (discrete_loc discrete_loc2 : Nat → ℚ) : Nat → Nat → Int → Int
  | 0, _, found => found
  | m + 1, i, found =>
    if |discrete_loc i - discrete_loc2 i| > 1 / 1000000000000 then 0
    else compareLoop discrete_loc discrete_loc2 m (i + 1) found

/-- The macro `check_discrete_values(size,numValues)` without its final
printing; `cast` is the conversion `(modelica_boolean)` and `values` the
candidate table. -/
def check_discrete_values {σ α β : Type} (cast : α → β) (values : Nat → α)
    (size numValues : Nat) (s : MixedState σ β) : MixedState σ β :=
  let s1 : MixedState σ β :=
    if s.found_solution = -1 then { s with found_solution := 0 }
    else { s with
           found_solution := compareLoop s.discrete_loc s.discrete_loc2 size 0 1 }
  if s1.found_solution = 0 then
    let s2 := { s1 with cur_value_indx := s1.cur_value_indx + 1 }
    if s2.cur_value_indx ≥ numValues / size then { s2 with found_solution := -1 }
    else
      { s2 with
        vars := fun i =>
          if i < size then cast (values (s2.cur_value_indx * size + i)) else s2.vars i
        reads := s2.reads ++ (List.range size).map (fun i => s2.cur_value_indx * size + i) }
  else s1

/-- One pass through the `do` body opened by `mixed_equation_system`: fresh
zeroed `discrete_loc` / `discrete_loc2`, the generated code, then
`check_discrete_values`. -/
def mixedBody {σ α β : Type} (body : Body σ β) (cast : α → β) (values : Nat → α)
    (size numValues : Nat) (s : MixedState σ β) : MixedState σ β :=
  let o := body s.env s.vars
  check_discrete_values cast values size numValues
    { s with
      env := o.env
      found_solution := o.found_solution
      vars := o.vars
      discrete_loc := o.discrete_loc
      discrete_loc2 := o.discrete_loc2 }

/-- The loop `do { ... } while (!data->found_solution)`.  The history `tr`
holds, for every pass made so far, the candidate index and the discrete
variables the generated code was run with. -/
def mixedLoop {σ α β : Type} (body : Body σ β) (cast : α → β) (values : Nat → α)
    (size numValues : Nat) :
    Nat → MixedState σ β → List (Nat × (Nat → β)) →
      Option (MixedState σ β × List (Nat × (Nat → β)))
  | 0, _, _ => none
  | fuel + 1, s, tr =>
    let s1 := mixedBody body cast values size numValues s
    let tr1 := tr ++ [(s.cur_value_indx, s.vars)]
    if s1.found_solution = 0 then mixedLoop body cast values size numValues fuel s1 tr1
    else some (s1, tr1)

/-- The macro pair `mixed_equation_system(size)` ... `mixed_equation_system_end(size)`
around the generated code and `check_discrete_values(size,numValues)`. -/
def mixed_equation_system {σ α β : Type} (body : Body σ β) (cast : α → β)
    (values : Nat → α) (size numValues fuel : Nat) (env : σ) (vars : Nat → β) :
    Option (MixedState σ β × List (Nat × (Nat → β))) :=
  mixedLoop body cast values size numValues fuel
    { env := env
      found_solution := 0
      cur_value_indx := 0
      vars := vars
      discrete_loc := fun _ => 0
      discrete_loc2 := fun _ => 0
      reads := [] } []

/-! ## Linear solve wrapper -/

/-- What the LU kernel hands back through its pointer arguments: the matrix
(factorised in place), the pivot indices, the right-hand side (overwritten
with the solution) and the outcome code. -/
structure DgesvOut where
  a : Nat → ℚ
  ipiv : Nat → Int
  b : Nat → ℚ
  info : Int

/-- The LU kernel `_omc_dgesv_(&n,&nrhs,a,&lda,ipiv,b,&ldb,&info)`, declared
`extern` in the header; the arguments are taken in this order. -/
abbrev Dgesv := Nat → Nat → (Nat → ℚ) → Nat → (Nat → Int) → (Nat → ℚ) → Nat → DgesvOut

/-- The variables `solve_linear_equation_system` works on: the matrix `A`, the
right-hand side `b` and `data->found_solution`. -/
structure LinState where
  A : Nat → ℚ
  b : Nat → ℚ
  found_solution : Int

/-- The state after `solve_linear_equation_system`, the outcome code the
kernel reported and the number of kernel calls made. -/
structure LinResult where
  state : LinState
  info : Int
  calls : Nat

/-- The macro `solve_linear_equation_system(A,b,size,id)`.  `ipivAllocated`
says whether `calloc` returned a block for the pivot indices; when it did not,
`assert(ipiv != 0)` stops the program and there is no result. -/
def solve_linear_equation_system (dgesv : Dgesv) (ipivAllocated : Bool) (size : Nat)
    (s : LinState) : Option LinResult :=
  let n := size
  let nrhs := 1
  let lda := n
  let ldb := n
  if ipivAllocated then
    let o := dgesv n nrhs s.A lda (fun _ => 0) s.b ldb
    let s1 : LinState := { s with A := o.a, b := o.b }
    if o.info < 0 then some { state := { s1 with found_solution := -1 }, info := o.info, calls := 1 }
    else if o.info > 0 then
      some { state := { s1 with found_solution := -1 }, info := o.info, calls := 1 }
    else some { state := s1, info := o.info, calls := 1 }
  else none

/-- A stub LU kernel that reports the outcome code `i` and leaves its
arguments as they are. -/
def constDgesv (i : Int) : Dgesv := fun _ _ a _ ipiv b _ =>
  { a := a, ipiv := ipiv, b := b, info := i }

/-! ## Dense linear solver

A matrix is a function of the row and the column index, a family of right-hand
sides a function of the row and the number of the right-hand side; doubles are
rationals, so a pivot is zero exactly when the exact one is. -/

/-- Partial pivoting: among the rows `k .. k + d`, the first one whose entry in
the column `col` is of largest absolute value. -/
def pivotRow (col : Nat → ℚ) (k : Nat) : Nat → Nat
  | 0 => k
  | d + 1 =>
    if |col (pivotRow col k d)| < |col (k + d + 1)| then k + d + 1 else pivotRow col k d

/-- Interchange of the rows `k` and `p`. -/
def swapRows (m : Nat → Nat → ℚ) (k p : Nat) : Nat → Nat → ℚ :=
  fun i j => if i = k then m p j else if i = p then m k j else m i j

/-- One elimination step with pivot `m k k`: from every row `i` of `c` with
`k < i < n`, the multiple `m i k / m k k` of row `k` is subtracted.  With
`c = m` this is the step on the matrix itself. -/
def elimRows (n k : Nat) (m c : Nat → Nat → ℚ) : Nat → Nat → ℚ :=
  fun i j => if k < i ∧ i < n then c i j - m i k / m k k * c k j else c i j

/-- State of the factorization: the upper factor `u` being formed, the
multipliers `l`, the right-hand sides `c`, the pivot rows (numbered from 1)
and the status. -/
structure LUState where
  u : Nat → Nat → ℚ
  l : Nat → Nat → ℚ
  c : Nat → Nat → ℚ
  ipiv : Nat → Int
  info : Int

/-- Factorization with partial pivoting, columns `k, k + 1, ...`, `d` of them:
choose the pivot row, interchange, stop with `info = k + 1` when the pivot is
zero, else eliminate below the pivot. -/
def forwardElim (n : Nat) : Nat → Nat → LUState → LUState
  | 0, _, s => s
  | d + 1, k, s =>
    if swapRows s.u k (pivotRow (fun i => s.u i k) k (n - 1 - k)) k k = 0 then
      { u := swapRows s.u k (pivotRow (fun i => s.u i k) k (n - 1 - k))
        l := swapRows s.l k (pivotRow (fun i => s.u i k) k (n - 1 - k))
        c := swapRows s.c k (pivotRow (fun i => s.u i k) k (n - 1 - k))
        ipiv := fun i =>
          if i = k then (pivotRow (fun i => s.u i k) k (n - 1 - k) : Int) + 1 else s.ipiv i
        info := (k : Int) + 1 }
    else
      forwardElim n d (k + 1)
        { u := elimRows n k (swapRows s.u k (pivotRow (fun i => s.u i k) k (n - 1 - k)))
                 (swapRows s.u k (pivotRow (fun i => s.u i k) k (n - 1 - k)))
          l := fun i j =>
            if k < i ∧ i < n ∧ j = k then
              swapRows s.u k (pivotRow (fun i => s.u i k) k (n - 1 - k)) i k /
                swapRows s.u k (pivotRow (fun i => s.u i k) k (n - 1 - k)) k k
            else swapRows s.l k (pivotRow (fun i => s.u i k) k (n - 1 - k)) i j
          c := elimRows n k (swapRows s.u k (pivotRow (fun i => s.u i k) k (n - 1 - k)))
                 (swapRows s.c k (pivotRow (fun i => s.u i k) k (n - 1 - k)))
          ipiv := fun i =>
            if i = k then (pivotRow (fun i => s.u i k) k (n - 1 - k) : Int) + 1 else s.ipiv i
          info := s.info }

/-- Back substitution in place, rows `i - 1, ..., 0`: `x` holds the right-hand
side in the rows not yet treated and the solution in the others. -/
def backSubst (n : Nat) (u : Nat → Nat → ℚ) : Nat → (Nat → ℚ) → Nat → ℚ
  | 0, x => x
  | i + 1, x =>
    backSubst n u i (fun t =>
      if t = i then
        (x i - Finset.sum (Finset.range n) (fun j => if i < j then u i j * x j else 0)) / u i i
      else x t)

/-- The state on entry of the factorization: the matrix and the right-hand
sides as stored column-major in `a` and `b`, no multipliers yet. -/
def luInit (a : Nat → ℚ) (lda : Nat) (ipiv : Nat → Int) (b : Nat → ℚ) (ldb : Nat) :
    LUState :=
  { u := fun i j => a (i + lda * j), l := fun _ _ => 0,
    c := fun i r => b (i + ldb * r), ipiv := ipiv, info := 0 }

/-- Modelled from the spec: `_omc_dgesv_`, the dense solver behind
`solve_linear_equation_system`, of which src/ has the declaration only (lines
45-47).  By the spec's contract it computes `x`, overwriting `b`, by LU
factorization with partial pivoting of the column-major matrix `a`; a
factorization argument out of range gives a negative status (minus the
position of the argument in the declaration), a pivot that is zero gives the
positive status `Singular` and leaves `b` partially transformed.  On return
`a` holds the factors, `ipiv` the pivot rows. -/
def omc_dgesv : Dgesv := fun n nrhs a lda ipiv b ldb =>
  if lda < n then { a := a, ipiv := ipiv, b := b, info := -4 }
  else if ldb < n then { a := a, ipiv := ipiv, b := b, info := -7 }
  else
    let o := forwardElim n n 0 (luInit a lda ipiv b ldb)
    { a := fun t =>
        if t % lda < n ∧ t / lda < n then
          if t / lda < t % lda then o.l (t % lda) (t / lda) else o.u (t % lda) (t / lda)
        else a t
      ipiv := o.ipiv
      b := fun t =>
        if t % ldb < n ∧ t / ldb < nrhs then
          if o.info = 0 then backSubst n o.u n (fun i => o.c i (t / ldb)) (t % ldb)
          else o.c (t % ldb) (t / ldb)
        else b t
      info := o.info }

/-- The vector `x` solves the `n` equations with matrix `m` and right-hand
side `c`. -/
def Solves (n : Nat) (m : Nat → Nat → ℚ) (c x : Nat → ℚ) : Prop :=
  ∀ i, i < n → Finset.sum (Finset.range n) (fun j => m i j * x j) = c i

/-- Zero below the diagonal in the columns before `k` (rows before `n`). -/
def UpperTri (n k : Nat) (m : Nat → Nat → ℚ) : Prop :=
  ∀ i j, j < k → j < i → i < n → m i j = 0

/-- Nonzero diagonal in the rows before `k`. -/
def DiagNZ (k : Nat) (m : Nat → Nat → ℚ) : Prop :=
  ∀ i, i < k → m i i ≠ 0

/-- The `n`-by-`n` matrix stored column-major in `A`. -/
def matOf (n : Nat) (A : Nat → ℚ) : Matrix (Fin n) (Fin n) ℚ :=
  Matrix.of (fun i j => A (i.val + n * j.val))

/-! ## Diagnostics

The drivers and `check_discrete_values` once more, now with the verbosity
flags they test and the diagnostic lines they write.  The loop counter `i` that
the logging loops of `solve_nonlinear_system` share with its other loops is set
to 0 at the head of every loop and is not part of the state. -/

/-- The verbosity flags the macros test: `DEBUG_FLAG(LOG_NONLIN_SYS)`,
`DEBUG_FLAG(LOG_DEBUG)` and `sim_verbose`. -/
structure Flags where
  LOG_NONLIN_SYS : Bool
  LOG_DEBUG : Bool
  sim_verbose : Bool

/-- A diagnostic line, by the place that writes it. -/
inductive LogLine where
  /-- Line 99. -/
  | start
  /-- `printErrorEqSyst(IMPROPER_INPUT, ...)`, lines 107 and 184. -/
  | improperInput
  /-- Lines 112-114. -/
  | solved (retries retries2 : Nat) (info nfev : Int)
  /-- Lines 117 and 168: scale factor, residual and iterate of one variable. -/
  | perVariable (i : Nat) (diag fvec x : ℚ)
  /-- The message of a ladder branch, with the current `factor`. -/
  | noProgress (a : Action) (factor : ℚ)
  /-- `printErrorEqSyst` of the failure branch, lines 165 and 200. -/
  | errorAtTime
  /-- Lines 326-331: one discrete variable of a mixed system. -/
  | mixedResult (i : Nat)

/-- The loop `for (i = 0; i < n; i++) INFO_AL7(...)` of lines 116-118 and
167-169. -/
def perVariableLog (s : NlsState) : List LogLine :=
  (List.range s.n).map (fun i => LogLine.perVariable i (s.nls_diag i) (s.nls_fvec i) (s.nls_x i))

/-- Lines 106-109 with the line written. -/
def improperInput_logged (s : NlsState) : NlsState × List LogLine :=
  if s.info = 0 then ({ s with found_solution := -1 }, [LogLine.improperInput]) else (s, [])

/-- Lines 110-121: the block for `info == 1` only writes. -/
def solvedLog (fl : Flags) (s : NlsState) : List LogLine :=
  if s.info = 1 then
    if fl.LOG_NONLIN_SYS then
      [LogLine.solved s.retries s.retries2 s.info s.nfev] ++
        (if fl.LOG_DEBUG then perVariableLog s else [])
    else []
  else []

/-- The `if` / `else if` chain of `solve_nonlinear_system` (lines 122-171) with
the flag tests and the lines written in each branch. -/
def ladder_logged (fl : Flags) (ERROR_NONLINSYS : Int) (s : NlsState) :
    NlsState × Action × List LogLine :=
  if (s.info = 4 ∨ s.info = 5) ∧ s.retries < 3 then
    (tier1 s, .tier1,
      if fl.LOG_NONLIN_SYS then [LogLine.noProgress .tier1 (tier1 s).factor] else [])
  else if (s.info = 4 ∨ s.info = 5) ∧ s.retries < 5 then
    (tier2 s, .tier2,
      if fl.LOG_NONLIN_SYS then [LogLine.noProgress .tier2 (tier2 s).factor] else [])
  else if (s.info = 4 ∨ s.info = 5) ∧ s.retries < 7 then
    (tier3 s, .tier3,
      if fl.LOG_NONLIN_SYS then [LogLine.noProgress .tier3 (tier3 s).factor] else [])
  else if (s.info = 4 ∨ s.info = 5) ∧ s.retries < 9 then
    (tier4 s, .tier4,
      if fl.LOG_NONLIN_SYS then [LogLine.noProgress .tier4 (tier4 s).factor] else [])
  else if (s.info = 4 ∨ s.info = 5) ∧ s.retries2 < 1 then
    (tier5 s, .tier5,
      if fl.LOG_NONLIN_SYS then [LogLine.noProgress .tier5 (tier5 s).factor] else [])
  else if (s.info = 4 ∨ s.info = 5) ∧ s.retries3 < 1 then
    (tier6 s, .tier6,
      if fl.LOG_NONLIN_SYS then [LogLine.noProgress .tier6 (tier6 s).factor] else [])
  else if (s.info = 4 ∨ s.info = 5) ∧ s.retries3 < 2 then
    (tier7 s, .tier7,
      if fl.LOG_NONLIN_SYS then [LogLine.noProgress .tier7 (tier7 s).factor] else [])
  else if (s.info = 4 ∨ s.info = 5) ∧ s.retries3 < 3 then
    (tier8 s, .tier8,
      if fl.LOG_NONLIN_SYS then [LogLine.noProgress .tier8 (tier8 s).factor] else [])
  else if 2 ≤ s.info ∧ s.info ≤ 5 then
    (failSolve ERROR_NONLINSYS s, .failed,
      [LogLine.errorAtTime] ++
        (if fl.LOG_DEBUG then perVariableLog (failSolve ERROR_NONLINSYS s) else []))
  else (s, .stop, [])

/-- One pass through the body of `while(!giveUp)` in `solve_nonlinear_system`,
with the lines it writes. -/
def solveBody_logged (fl : Flags) (ERROR_NONLINSYS : Int) (kernel : Kernel) (c : Nat)
    (s : NlsState) : Pass × List LogLine :=
  let k := improperInput_logged (callKernel kernel c { s with giveUp := true })
  let l := ladder_logged fl ERROR_NONLINSYS k.1
  ({ call := c, input := { s with giveUp := true }, output := l.1, action := l.2.1 },
    k.2 ++ solvedLog fl k.1 ++ l.2.2)

/-- The loop `while(!giveUp)` of `solve_nonlinear_system` with the lines
written so far. -/
def solveLoop_logged (fl : Flags) (ERROR_NONLINSYS : Int) (kernel : Kernel) :
    Nat → NlsState → List Pass → List LogLine → Option (NlsState × List Pass × List LogLine)
  | 0, _, _, _ => none
  | fuel + 1, s, tr, log =>
    if s.giveUp then some (s, tr, log)
    else
      solveLoop_logged fl ERROR_NONLINSYS kernel fuel
        (solveBody_logged fl ERROR_NONLINSYS kernel tr.length s).1.output
        (tr ++ [(solveBody_logged fl ERROR_NONLINSYS kernel tr.length s).1])
        (log ++ (solveBody_logged fl ERROR_NONLINSYS kernel tr.length s).2)

/-- The macro `solve_nonlinear_system` with its diagnostics: the entry block,
the start line under `LOG_NONLIN_SYS` (lines 98-100), the loop. -/
def solve_nonlinear_system_logged (fl : Flags) (ERROR_NONLINSYS : Int) (kernel : Kernel)
    (fuel : Nat) (s : NlsState) : Option (NlsState × List Pass × List LogLine) :=
  solveLoop_logged fl ERROR_NONLINSYS kernel fuel (solveEntry s) []
    (if fl.LOG_NONLIN_SYS then [LogLine.start] else [])

/-- The `if` / `else if` chain of `solve_nonlinear_system_analytic_jac` (lines
186-201) with the tests of `sim_verbose` and the lines written. -/
def ladder_analytic_jac_logged (fl : Flags) (ERROR_NONLINSYS : Int) (s : NlsState) :
    NlsState × Action × List LogLine :=
  if (s.info = 4 ∨ s.info = 5) ∧ s.retries < 3 then
    (tier1 s, .tier1,
      if fl.sim_verbose then [LogLine.noProgress .tier1 (tier1 s).factor] else [])
  else if (s.info = 4 ∨ s.info = 5) ∧ s.retries < 5 then
    (tier2 s, .tier2,
      if fl.sim_verbose then [LogLine.noProgress .tier2 (tier2 s).factor] else [])
  else if 2 ≤ s.info ∧ s.info ≤ 5 then
    (failSolve_analytic_jac ERROR_NONLINSYS s, .failed, [LogLine.errorAtTime])
  else (s, .stop, [])

/-- One pass through the loop body of `solve_nonlinear_system_analytic_jac`,
with the lines it writes. -/
def solveBody_analytic_jac_logged (fl : Flags) (ERROR_NONLINSYS : Int) (kernel : Kernel)
    (c : Nat) (s : NlsState) : Pass × List LogLine :=
  let k := callKernel kernel c { s with giveUp := true }
  let l := ladder_analytic_jac_logged fl ERROR_NONLINSYS k
  ({ call := c, input := { s with giveUp := true }, output := l.1, action := l.2.1 },
    (if k.info = 0 then [LogLine.improperInput] else []) ++ l.2.2)

/-- The loop `while(!giveUp)` of `solve_nonlinear_system_analytic_jac` with the
lines written so far. -/
def solveLoop_analytic_jac_logged (fl : Flags) (ERROR_NONLINSYS : Int) (kernel : Kernel) :
    Nat → NlsState → List Pass → List LogLine → Option (NlsState × List Pass × List LogLine)
  | 0, _, _, _ => none
  | fuel + 1, s, tr, log =>
    if s.giveUp then some (s, tr, log)
    else
      solveLoop_analytic_jac_logged fl ERROR_NONLINSYS kernel fuel
        (solveBody_analytic_jac_logged fl ERROR_NONLINSYS kernel tr.length s).1.output
        (tr ++ [(solveBody_analytic_jac_logged fl ERROR_NONLINSYS kernel tr.length s).1])
        (log ++ (solveBody_analytic_jac_logged fl ERROR_NONLINSYS kernel tr.length s).2)

/-- The macro `solve_nonlinear_system_analytic_jac` with its diagnostics. -/
def solve_nonlinear_system_analytic_jac_logged (fl : Flags) (ERROR_NONLINSYS : Int)
    (kernel : Kernel) (fuel : Nat) (s : NlsState) :
    Option (NlsState × List Pass × List LogLine) :=
  solveLoop_analytic_jac_logged fl ERROR_NONLINSYS kernel fuel (solveEntry_analytic_jac s) [] []

/-- The macro `check_discrete_values(size,numValues)` with its final block
(lines 324-333), which writes one line per discrete variable when
`data->found_solution` is not 0 and `LOG_NONLIN_SYS` is set. -/
def check_discrete_values_logged {σ α β : Type} (fl : Flags) (cast : α → β)
    (values : Nat → α) (size numValues : Nat) (s : MixedState σ β) :
    MixedState σ β × List LogLine :=
  let s1 : MixedState σ β :=
    if s.found_solution = -1 then { s with found_solution := 0 }
    else { s with
           found_solution := compareLoop s.discrete_loc s.discrete_loc2 size 0 1 }
  let s3 : MixedState σ β :=
    if s1.found_solution = 0 then
      let s2 := { s1 with cur_value_indx := s1.cur_value_indx + 1 }
      if s2.cur_value_indx ≥ numValues / size then { s2 with found_solution := -1 }
      else
        { s2 with
          vars := fun i =>
            if i < size then cast (values (s2.cur_value_indx * size + i)) else s2.vars i
          reads := s2.reads ++ (List.range size).map (fun i => s2.cur_value_indx * size + i) }
    else s1
  if s3.found_solution ≠ 0 ∧ fl.LOG_NONLIN_SYS = true then
    (s3, (List.range size).map LogLine.mixedResult)
  else (s3, [])

/-! ## Counter view of the ladder -/

/-- The branches of the ladder of `solve_nonlinear_system` when every kernel
call answers `NoProgress`, by the three counters alone: the first `m` branches
of the run that starts with the counters `r`, `r2`, `r3`, up to and including
the failure branch. -/
def noProgressActions : Nat → Nat → Nat → Nat → List Action
  | 0, _, _, _ => []
  | m + 1, r, r2, r3 =>
    if r < 3 then Action.tier1 :: noProgressActions m (r + 1) r2 r3
    else if r < 5 then Action.tier2 :: noProgressActions m (r + 1) r2 r3
    else if r < 7 then Action.tier3 :: noProgressActions m (r + 1) r2 r3
    else if r < 9 then Action.tier4 :: noProgressActions m (r + 1) r2 r3
    else if r2 < 1 then Action.tier5 :: noProgressActions m 0 (r2 + 1) r3
    else if r3 < 1 then Action.tier6 :: noProgressActions m 0 0 (r3 + 1)
    else if r3 < 2 then Action.tier7 :: noProgressActions m 0 0 (r3 + 1)
    else if r3 < 3 then Action.tier8 :: noProgressActions m 0 0 (r3 + 1)
    else [Action.failed]

/-- The nine branches taken while `retries` runs from 0 to 9: tier 1 three
times, then tiers 2, 3 and 4 twice each. -/
def ladderBlock : List Action :=
  [.tier1, .tier1, .tier1, .tier2, .tier2, .tier3, .tier3, .tier4, .tier4]

/-! ## Objective of the optimizer

The two functions of `SimulationRuntime/c/optimization/eval_all/EvalF.c`.  The
arrays reached through `optData` are index maps on the integers, so that the
index expressions `nsi - 1`, `np - 1` and `n - nv` are the ones of the source;
the dimensions are C `int`s that are not negative. -/

/-- The fields of `OptData` that `evalfF` and `evalfDiffF` read: the switches
`s.lagrange` and `s.mayer`, the dimensions `dim.nsi`, `dim.np`, `dim.nv`, the
indices `dim.index_lagrange`, `dim.index_mayer` and `s.derIndex`, the weights
`rk.b`, the step sizes `time.dt`, the values `v` and the derivative rows
`J`. -/
structure OptData where
  lagrange : Bool
  mayer : Bool
  nsi : Nat
  np : Nat
  nv : Nat
  index_lagrange : Int
  index_mayer : Int
  derIndex : Int → Int
  b : Int → ℚ
  dt : Int → ℚ
  v : Int → Int → Int → ℚ
  J : Int → Int → Int → Int → ℚ

/-- The function `optData2ModelData(optData, vopt, index)`, declared in
`OptimizerLocalFunction.h`: it may rewrite everything reached through
`optData`. -/
abbrev ModelUpdate := OptData → (Int → ℚ) → Int → OptData

/-- The function `evalfF(n, vopt, new_x, objValue, useData)`: the value
returned, the value written to `*objValue` and the data left behind.  The
switches are read before the call of `optData2ModelData`, everything else
after it. -/
def evalfF (optData2ModelData : ModelUpdate) (n : Int) (vopt : Int → ℚ) (new_x : Bool)
    (optData : OptData) : Bool × ℚ × OptData :=
  let la := optData.lagrange
  let ma := optData.mayer
  let d := if new_x then optData2ModelData optData vopt 1 else optData
  let lagrange : ℚ :=
    if la then
      let nsi := d.nsi
      let np := d.np
      let il := d.index_lagrange
      let erg0a : Nat → ℚ := fun j => if j < np then d.v 0 j il else 0
      let erg0 : Nat → ℚ :=
        (List.range' 1 (nsi - 2)).foldl
          (fun (e : Nat → ℚ) (i : Nat) => fun j => if j < np then e j + d.v i j il else e j) erg0a
      let erg : ℚ := (List.range np).foldl (fun (acc : ℚ) (j : Nat) => acc + d.b j * erg0 j) 0
      let i : Int := (nsi : Int) - 1
      let erg1 : ℚ := (List.range np).foldl (fun (acc : ℚ) (j : Nat) => acc + d.b j * d.v i j il) 0
      erg * d.dt 0 + erg1 * d.dt 1
    else 0
  let mayer : ℚ :=
    if ma then d.v ((d.nsi : Int) - 1) ((d.np : Int) - 1) d.index_mayer else 0
  (true, lagrange + mayer, d)

/-- The call `memcpy(gradF + ii, row, nv*sizeof(modelica_real))`. -/
def copyRow (nv : Nat) (gradF : Int → ℚ) (ii : Int) (row : Int → ℚ) : Int → ℚ :=
  fun t => if ii ≤ t ∧ t < ii + nv then row (t - ii) else gradF t

/-- The loop `for(j = 0; j < np; ++j, ii += nv) memcpy(gradF + ii, row j, ...)`
on the pair of `gradF` and `ii`. -/
def copyRows (nv : Nat) (row : Nat → Int → ℚ) (np : Nat) (st : (Int → ℚ) × Int) :
    (Int → ℚ) × Int :=
  (List.range np).foldl (fun st (j : Nat) => (copyRow nv st.1 st.2 (row j), st.2 + nv)) st

/-- The function `evalfDiffF(n, vopt, new_x, gradF, useData)`: the value
returned, the array `gradF` and the data left behind.  The dimensions and the
switches are read before the call of `optData2ModelData`, `s.derIndex` and `J`
after it; after the first loop nest `i` is `nsi - 1` (0 when `nsi` is 0). -/
def evalfDiffF (optData2ModelData : ModelUpdate) (n : Int) (vopt : Int → ℚ) (new_x : Bool)
    (gradF : Int → ℚ) (optData : OptData) : Bool × (Int → ℚ) × OptData :=
  let nv := optData.nv
  let nsi := optData.nsi
  let np := optData.np
  let la := optData.lagrange
  let ma := optData.mayer
  let d := if new_x then optData2ModelData optData vopt 1 else optData
  let g1 : Int → ℚ :=
    if la then
      let k := d.derIndex 1
      let st1 := (List.range (nsi - 1)).foldl
        (fun st (i : Nat) => copyRows nv (fun j => d.J i j k) np st) (gradF, 0)
      let i : Nat := nsi - 1
      let st2 := copyRows nv
        (fun j => if j + 1 = np then d.J i j (d.derIndex 2) else d.J i j k) np st1
      st2.1
    else fun t => if 0 ≤ t ∧ t < n then 0 else gradF t
  let g2 : Int → ℚ :=
    if ma then
      let k := d.derIndex 0
      let gradM := d.J ((nsi : Int) - 1) ((np : Int) - 1) k
      if la then
        fun t => if n - nv ≤ t ∧ t < n - nv + nv then g1 t + gradM (t - (n - nv)) else g1 t
      else copyRow nv g1 (n - nv) gradM
    else g1
  (true, g2, d)

/-! ## Stubs and predicates used in the statements -/

/-- A discrete (boolean) value stored in a `double`. -/
def toReal (b : Bool) : ℚ := if b then 1 else 0

/-- A stub for the generated code of a mixed system over boolean variables:
the continuous solve fails (`data->found_solution = -1`) where `fails` says
so, the discrete equations assign the values `implied` to the discrete
variables, `discrete_loc` holds the assumed and `discrete_loc2` the implied
values. -/
def stubBody (fails : (Nat → Bool) → Bool) (implied : (Nat → Bool) → Nat → Bool) :
    Body Unit Bool := fun e v =>
  { env := e
    found_solution := if fails v then -1 else 0
    vars := implied v
    discrete_loc := fun i => toReal (v i)
    discrete_loc2 := fun i => toReal (implied v i) }

/-- A candidate table given by the list of its entries. -/
def tableOf (l : List Bool) : Nat → Bool := fun i => l.getD i false

/-- An array of doubles given by the list of its entries. -/
def arrayOf (l : List ℚ) : Nat → ℚ := fun i => l.getD i 0

/-- Sample optimizer data: three intervals, two collocation points, two
variables, both terms of the objective enabled. -/
def sampleOptData : OptData :=
  { lagrange := true, mayer := true, nsi := 3, np := 2, nv := 2,
    index_lagrange := 5, index_mayer := 6, derIndex := fun t => t + 10,
    b := fun j => j + 1, dt := fun t => t + 2,
    v := fun i j k => 100 * i + 10 * j + k,
    J := fun i j k q => 1000 * i + 100 * j + k + q / 10 }

/-- The discrete assignment `v` makes the pass of the generated code
self-consistent: assumed and implied discrete values agree within `1e-12` in
every component below `size`. -/
def selfConsistent {σ β : Type} (body : Body σ β) (size : Nat) (e : σ) (v : Nat → β) : Prop :=
  ∀ i < size, |(body e v).discrete_loc i - (body e v).discrete_loc2 i| ≤ 1 / 1000000000000

/-- The discrete assignment `v` is row `j` of the candidate table. -/
def isRow {α β : Type} (cast : α → β) (values : Nat → α) (size j : Nat) (v : Nat → β) : Prop :=
  ∀ i < size, v i = cast (values (j * size + i))

/-! ## Extrapolation: properties -/

/-- C5: when the two stored sample times are equal, `extraPolate` returns the
current value `v` itself, whatever `old1`, `old2` and the current time are; the
quotient by `t1 - t2`, which has no value there, is not taken. -/
theorem extraPolate_degenerate (t0 t1 t2 v old1 old2 : ℚ) (h : t1 = t2) :
    extraPolate t0 t1 t2 v old1 old2 = some v ∧
      fdiv (old1 - old2) (t1 - t2) = none ∧
      fdiv (t1 * old2 - t2 * old1) (t1 - t2) = none := by
  subst h
  simp [extraPolate, fdiv]

theorem extraPolate_degenerate_witness :
    extraPolate 5 3 3 7 1 2 = some 7 ∧
      fdiv (1 - 2) (3 - 3) = none ∧ fdiv (3 * 2 - 3 * 1) (3 - 3) = none :=
  extraPolate_degenerate 5 3 3 7 1 2 rfl

/-- C6: for distinct sample times `extraPolate` returns the linear
extrapolation `((old1-old2)/(t1-t2))*t0 + (t1*old2 - t2*old1)/(t1-t2)`, the
same for every `v`; on `old1=1, old2=3, t1=2, t2=1, t0=4, v=99` it is `-3`. -/
theorem extraPolate_formula (t0 t1 t2 v old1 old2 : ℚ) (h : t1 ≠ t2) :
    extraPolate t0 t1 t2 v old1 old2 =
        some ((old1 - old2) / (t1 - t2) * t0 + (t1 * old2 - t2 * old1) / (t1 - t2)) ∧
      (∀ v2 : ℚ, extraPolate t0 t1 t2 v2 old1 old2 = extraPolate t0 t1 t2 v old1 old2) ∧
      extraPolate 4 2 1 99 1 3 = some (-3) := by
  have hne : t1 - t2 ≠ 0 := sub_ne_zero.mpr h
  refine ⟨by simp [extraPolate, fdiv, h, hne], fun v2 => by simp [extraPolate, h], ?_⟩
  simp [extraPolate, fdiv]
  norm_num

theorem extraPolate_formula_witness :
    extraPolate 4 2 1 99 1 3 = some ((1 - 3) / (2 - 1) * 4 + (2 * 3 - 1 * 1) / (2 - 1)) :=
  (extraPolate_formula 4 2 1 99 1 3 (by norm_num)).1

/-! ## Nonlinear driver: the ladder -/

/-- Case analysis on the branch taken by the ladder. -/
theorem ladder_elim (E : Int) (s : NlsState) (P : NlsState × Action → Prop)
    (h1 : (s.info = 4 ∨ s.info = 5) → s.retries < 3 → P (tier1 s, .tier1))
    (h2 : (s.info = 4 ∨ s.info = 5) → 3 ≤ s.retries → s.retries < 5 → P (tier2 s, .tier2))
    (h3 : (s.info = 4 ∨ s.info = 5) → 5 ≤ s.retries → s.retries < 7 → P (tier3 s, .tier3))
    (h4 : (s.info = 4 ∨ s.info = 5) → 7 ≤ s.retries → s.retries < 9 → P (tier4 s, .tier4))
    (h5 : (s.info = 4 ∨ s.info = 5) → 9 ≤ s.retries → s.retries2 < 1 → P (tier5 s, .tier5))
    (h6 : (s.info = 4 ∨ s.info = 5) → 9 ≤ s.retries → 1 ≤ s.retries2 → s.retries3 < 1 →
      P (tier6 s, .tier6))
    (h7 : (s.info = 4 ∨ s.info = 5) → 9 ≤ s.retries → 1 ≤ s.retries2 → s.retries3 = 1 →
      P (tier7 s, .tier7))
    (h8 : (s.info = 4 ∨ s.info = 5) → 9 ≤ s.retries → 1 ≤ s.retries2 → s.retries3 = 2 →
      P (tier8 s, .tier8))
    (h9 : 2 ≤ s.info → s.info ≤ 5 →
      ((s.info = 4 ∨ s.info = 5) → 9 ≤ s.retries ∧ 1 ≤ s.retries2 ∧ 3 ≤ s.retries3) →
      P (failSolve E s, .failed))
    (h10 : (s.info < 2 ∨ 5 < s.info) → P (s, .stop)) :
    P (ladder E s) := by
  unfold ladder
  split_ifs with c1 c2 c3 c4 c5 c6 c7 c8 c9
  · exact h1 c1.1 c1.2
  · exact h2 c2.1 (by omega) c2.2
  · exact h3 c3.1 (by omega) c3.2
  · exact h4 c4.1 (by omega) c4.2
  · exact h5 c5.1 (by omega) c5.2
  · exact h6 c6.1 (by omega) (by omega) c6.2
  · exact h7 c7.1 (by omega) (by omega) (by omega)
  · exact h8 c8.1 (by omega) (by omega) (by omega)
  · exact h9 c9.1 c9.2 (by omega)
  · exact h10 (by omega)

/-- The ladder never touches the dimension, the outcome code, the initial
factor, the residual or the three reference vectors. -/
theorem ladder_frame (E : Int) (s : NlsState) :
    (ladder E s).1.n = s.n ∧ (ladder E s).1.info = s.info ∧
      (ladder E s).1.initial_factor = s.initial_factor ∧
      (ladder E s).1.nls_xEx = s.nls_xEx ∧ (ladder E s).1.nls_xold = s.nls_xold ∧
      (ladder E s).1.nls_diagSave = s.nls_diagSave ∧ (ladder E s).1.nls_fvec = s.nls_fvec := by
  refine ladder_elim E s (fun r => r.1.n = s.n ∧ r.1.info = s.info ∧
      r.1.initial_factor = s.initial_factor ∧
      r.1.nls_xEx = s.nls_xEx ∧ r.1.nls_xold = s.nls_xold ∧
      r.1.nls_diagSave = s.nls_diagSave ∧ r.1.nls_fvec = s.nls_fvec) ?_ ?_ ?_ ?_ ?_ ?_ ?_ ?_ ?_ ?_
  all_goals intros; exact ⟨rfl, rfl, rfl, rfl, rfl, rfl, rfl⟩

/-- A pass that asks for another kernel call was a `NoProgress` pass; it lowers
the rank and leaves the status variables alone. -/
theorem ladder_continue (E : Int) (s : NlsState) (hg : s.giveUp = true) :
    (ladder E s).1.giveUp = false →
    (s.info = 4 ∨ s.info = 5) ∧ ladderRank (ladder E s).1 < ladderRank s ∧
      (ladder E s).1.found_solution = s.found_solution ∧
      (ladder E s).1.modelErrorCode = s.modelErrorCode := by
  refine ladder_elim E s (fun r => r.1.giveUp = false →
    (s.info = 4 ∨ s.info = 5) ∧ ladderRank r.1 < ladderRank s ∧
      r.1.found_solution = s.found_solution ∧
      r.1.modelErrorCode = s.modelErrorCode) ?_ ?_ ?_ ?_ ?_ ?_ ?_ ?_ ?_ ?_
  · intro h _ _; refine ⟨h, ?_, rfl, rfl⟩; simp only [ladderRank, tier1]; omega
  · intro h _ _ _; refine ⟨h, ?_, rfl, rfl⟩; simp only [ladderRank, tier2]; omega
  · intro h _ _ _; refine ⟨h, ?_, rfl, rfl⟩; simp only [ladderRank, tier3]; omega
  · intro h _ _ _; refine ⟨h, ?_, rfl, rfl⟩; simp only [ladderRank, tier4]; omega
  · intro h _ _ _; refine ⟨h, ?_, rfl, rfl⟩; simp only [ladderRank, tier5]; omega
  · intro h _ _ _ _; refine ⟨h, ?_, rfl, rfl⟩; simp only [ladderRank, tier6]; omega
  · intro h _ _ _ _; refine ⟨h, ?_, rfl, rfl⟩; simp only [ladderRank, tier7]; omega
  · intro h _ _ _ _; refine ⟨h, ?_, rfl, rfl⟩; simp only [ladderRank, tier8]; omega
  · intro _ _ _ h; exact absurd (show s.giveUp = false from h) (by simp [hg])
  · intro _ h; exact absurd (show s.giveUp = false from h) (by simp [hg])

/-- A pass that ends the loop: the outcome is not `NoProgress` or the ladder is
exhausted; only the two status variables may have been written. -/
theorem ladder_stop (E : Int) (s : NlsState) :
    (ladder E s).1.giveUp = true →
    (2 ≤ s.info ∧ s.info ≤ 5 → ladder E s = (failSolve E s, Action.failed)) ∧
      (¬ (2 ≤ s.info ∧ s.info ≤ 5) → ladder E s = (s, Action.stop)) ∧
      ((s.info = 4 ∨ s.info = 5) → 9 ≤ s.retries ∧ 1 ≤ s.retries2 ∧ 3 ≤ s.retries3) := by
  refine ladder_elim E s (fun r => r.1.giveUp = true →
    (2 ≤ s.info ∧ s.info ≤ 5 → r = (failSolve E s, Action.failed)) ∧
      (¬ (2 ≤ s.info ∧ s.info ≤ 5) → r = (s, Action.stop)) ∧
      ((s.info = 4 ∨ s.info = 5) → 9 ≤ s.retries ∧ 1 ≤ s.retries2 ∧ 3 ≤ s.retries3))
      ?_ ?_ ?_ ?_ ?_ ?_ ?_ ?_ ?_ ?_
  · intro _ _ h; exact absurd (show false = true from h) (by simp)
  · intro _ _ _ h; exact absurd (show false = true from h) (by simp)
  · intro _ _ _ h; exact absurd (show false = true from h) (by simp)
  · intro _ _ _ h; exact absurd (show false = true from h) (by simp)
  · intro _ _ _ h; exact absurd (show false = true from h) (by simp)
  · intro _ _ _ _ h; exact absurd (show false = true from h) (by simp)
  · intro _ _ _ _ h; exact absurd (show false = true from h) (by simp)
  · intro _ _ _ _ h; exact absurd (show false = true from h) (by simp)
  · intro a b c _; exact ⟨fun _ => rfl, fun h => absurd ⟨a, b⟩ h, c⟩
  · intro a _; exact ⟨fun h => by omega, fun _ => rfl, fun h => by omega⟩

/-- What the kernel call and the `info == 0` test leave as they were, and what
they set. -/
theorem kernelPass_frame (kernel : Kernel) (c : Nat) (s : NlsState) :
    (kernelPass kernel c s).giveUp = true ∧
      (kernelPass kernel c s).retries = s.retries ∧
      (kernelPass kernel c s).retries2 = s.retries2 ∧
      (kernelPass kernel c s).retries3 = s.retries3 ∧
      (kernelPass kernel c s).factor = s.factor ∧
      (kernelPass kernel c s).initial_factor = s.initial_factor ∧
      (kernelPass kernel c s).mode = s.mode ∧
      (kernelPass kernel c s).n = s.n ∧
      (kernelPass kernel c s).modelErrorCode = s.modelErrorCode ∧
      (kernelPass kernel c s).info = (kernel c { s with giveUp := true }).info ∧
      (kernelPass kernel c s).nls_x = (kernel c { s with giveUp := true }).nls_x ∧
      (kernelPass kernel c s).nls_diag = (kernel c { s with giveUp := true }).nls_diag := by
  unfold kernelPass improperInput
  split <;> exact ⟨rfl, rfl, rfl, rfl, rfl, rfl, rfl, rfl, rfl, rfl, rfl, rfl⟩

theorem kernelPass_found (kernel : Kernel) (c : Nat) (s : NlsState) :
    ((kernel c { s with giveUp := true }).info = 0 →
        (kernelPass kernel c s).found_solution = -1) ∧
      ((kernel c { s with giveUp := true }).info ≠ 0 →
        (kernelPass kernel c s).found_solution = s.found_solution) := by
  unfold kernelPass improperInput
  constructor
  · intro h
    rw [if_pos (show (callKernel kernel c { s with giveUp := true }).info = 0 from h)]
  · intro h
    rw [if_neg (show ¬ (callKernel kernel c { s with giveUp := true }).info = 0 from h)]
    rfl

theorem ladderRank_kernelPass (kernel : Kernel) (c : Nat) (s : NlsState) :
    ladderRank (kernelPass kernel c s) = ladderRank s := by
  obtain ⟨_, h1, h2, h3, _⟩ := kernelPass_frame kernel c s
  simp only [ladderRank, h1, h2, h3]

/-! ## Nonlinear driver: the loop -/

theorem solveLoop_giveUp (E : Int) (kernel : Kernel) (fuel : Nat) (s : NlsState)
    (tr : List Pass) (h : s.giveUp = true) :
    solveLoop E kernel (fuel + 1) s tr = some (s, tr) := by
  simp [solveLoop, h]

theorem solveLoop_pass (E : Int) (kernel : Kernel) (fuel : Nat) (s : NlsState)
    (tr : List Pass) (h : s.giveUp = false) :
    solveLoop E kernel (fuel + 1) s tr =
      solveLoop E kernel fuel (solveBody E kernel tr.length s).output
        (tr ++ [solveBody E kernel tr.length s]) := by
  simp [solveLoop, h]

/-- The loop of `solve_nonlinear_system` ends for every kernel: a budget of the
rank plus two is enough, and at most rank plus one kernel calls are made. -/
theorem solveLoop_terminates (E : Int) (kernel : Kernel) :
    ∀ (fuel : Nat) (s : NlsState) (tr : List Pass), ladderRank s + 2 ≤ fuel →
      ∃ r tr2, solveLoop E kernel fuel s tr = some (r, tr ++ tr2) ∧ r.giveUp = true ∧
        tr2.length ≤ ladderRank s + 1 := by
  intro fuel
  induction fuel with
  | zero => intro s tr h; omega
  | succ fuel ih =>
    intro s tr h
    by_cases hg : s.giveUp = true
    · exact ⟨s, [], by simp [solveLoop_giveUp E kernel fuel s tr hg], hg, by simp⟩
    · have hg : s.giveUp = false := by simpa using hg
      rw [solveLoop_pass E kernel fuel s tr hg]
      have hk := kernelPass_frame kernel tr.length s
      by_cases hc : (solveBody E kernel tr.length s).output.giveUp = true
      · obtain ⟨f, rfl⟩ : ∃ f, fuel = f + 1 := ⟨fuel - 1, by omega⟩
        exact ⟨_, [solveBody E kernel tr.length s],
          by rw [solveLoop_giveUp E kernel f _ _ hc], hc, by simp⟩
      · have hc : (solveBody E kernel tr.length s).output.giveUp = false := by simpa using hc
        have hl := ladder_continue E (kernelPass kernel tr.length s) hk.1 hc
        have hr : ladderRank (solveBody E kernel tr.length s).output < ladderRank s := by
          rw [← ladderRank_kernelPass kernel tr.length s]; exact hl.2.1
        obtain ⟨r, tr2, h1, h2, h3⟩ :=
          ih (solveBody E kernel tr.length s).output (tr ++ [solveBody E kernel tr.length s])
            (by omega)
        exact ⟨r, solveBody E kernel tr.length s :: tr2, by simpa using h1, h2,
          by simp; omega⟩

/-- Every run of the loop that starts with `giveUp = 0` consists of passes
through the loop body; all of them but the last ask for another kernel call and
keep an invariant `P` that the loop body preserves; the last one produces the
final state. -/
theorem solveLoop_trace (E : Int) (kernel : Kernel) (P : NlsState → Prop)
    (hP : ∀ c s, P s → s.giveUp = false → (solveBody E kernel c s).output.giveUp = false →
      P (solveBody E kernel c s).output) :
    ∀ (fuel : Nat) (s : NlsState) (tr : List Pass) (r : NlsState) (tr1 : List Pass),
      solveLoop E kernel fuel s tr = some (r, tr1) → P s → s.giveUp = false →
      ∃ tr2 t, tr1 = tr ++ tr2 ++ [solveBody E kernel (tr ++ tr2).length t] ∧
        P t ∧ t.giveUp = false ∧ r = (solveBody E kernel (tr ++ tr2).length t).output ∧
        r.giveUp = true ∧
        ∀ p ∈ tr2, ∃ u, P u ∧ u.giveUp = false ∧ p = solveBody E kernel p.call u ∧
          p.output.giveUp = false := by
  intro fuel
  induction fuel with
  | zero => intro s tr r tr1 h; simp [solveLoop] at h
  | succ fuel ih =>
    intro s tr r tr1 h hPs hg
    rw [solveLoop_pass E kernel fuel s tr hg] at h
    by_cases hc : (solveBody E kernel tr.length s).output.giveUp = true
    · cases fuel with
      | zero => simp [solveLoop] at h
      | succ f =>
        rw [solveLoop_giveUp E kernel f _ _ hc] at h
        simp only [Option.some.injEq, Prod.mk.injEq] at h
        refine ⟨[], s, ?_, hPs, hg, ?_, ?_, ?_⟩
        · simpa using h.2.symm
        · simpa using h.1.symm
        · rw [← h.1]; exact hc
        · intro p hp; simp at hp
    · have hc : (solveBody E kernel tr.length s).output.giveUp = false := by simpa using hc
      obtain ⟨tr2, t, h1, h2, h3, h4, h5, h6⟩ :=
        ih _ _ r tr1 h (hP tr.length s hPs hg hc) hc
      refine ⟨solveBody E kernel tr.length s :: tr2, t, ?_, h2, h3, ?_, h5, ?_⟩
      · simpa using h1
      · simpa using h4
      · intro p hp
        rcases List.mem_cons.mp hp with rfl | hp
        · exact ⟨s, hPs, hg, rfl, hc⟩
        · exact h6 p hp

/-- A `NoProgress` pass with `retries < 3` is a tier-1 pass. -/
theorem solveBody_tier1 (E : Int) (kernel : Kernel) (c : Nat) (s : NlsState)
    (hi : (kernel c { s with giveUp := true }).info = 4 ∨
      (kernel c { s with giveUp := true }).info = 5)
    (hr : s.retries < 3) :
    solveBody E kernel c s =
      { call := c
        input := { s with giveUp := true }
        output := tier1 (callKernel kernel c { s with giveUp := true })
        action := Action.tier1 } := by
  have h0 : ¬ (callKernel kernel c { s with giveUp := true }).info = 0 := by
    show ¬ (kernel c { s with giveUp := true }).info = 0
    omega
  have hl : ladder E (callKernel kernel c { s with giveUp := true }) =
      (tier1 (callKernel kernel c { s with giveUp := true }), Action.tier1) := by
    unfold ladder
    rw [if_pos]
    exact ⟨hi, hr⟩
  simp only [solveBody, kernelPass, improperInput, if_neg h0, hl]

/-- A `Success` pass ends the loop with the state as the kernel left it. -/
theorem solveBody_success (E : Int) (kernel : Kernel) (c : Nat) (s : NlsState)
    (hi : (kernel c { s with giveUp := true }).info = 1) :
    solveBody E kernel c s =
      { call := c
        input := { s with giveUp := true }
        output := callKernel kernel c { s with giveUp := true }
        action := Action.stop } := by
  have hi1 : (callKernel kernel c { s with giveUp := true }).info = 1 := hi
  have h0 : ¬ (callKernel kernel c { s with giveUp := true }).info = 0 := by omega
  have hl : ladder E (callKernel kernel c { s with giveUp := true }) =
      (callKernel kernel c { s with giveUp := true }, Action.stop) := by
    refine ladder_elim E _ (fun r => r = (callKernel kernel c { s with giveUp := true },
      Action.stop)) ?_ ?_ ?_ ?_ ?_ ?_ ?_ ?_ ?_ ?_
    all_goals first
      | (intro h; omega)
      | (intro _; rfl)
  simp only [solveBody, kernelPass, improperInput, if_neg h0, hl]

/-- A run of `k` `NoProgress` answers followed by `Success`, started with room
for `k` more tier-1 steps, consists of `k` tier-1 passes and a final pass. -/
theorem tier1_run (E : Int) (kernel : Kernel) (fuel : Nat) :
    ∀ (k : Nat) (s : NlsState) (tr : List Pass), s.giveUp = false → s.retries + k ≤ 3 →
      (∀ j < k, ∀ w, (kernel (tr.length + j) w).info = 4 ∨ (kernel (tr.length + j) w).info = 5) →
      (∀ w, (kernel (tr.length + k) w).info = 1) →
      ∃ r tr2, solveLoop E kernel (fuel + k + 2) s tr = some (r, tr ++ tr2) ∧
        tr2.map Pass.action = List.replicate k Action.tier1 ++ [Action.stop] ∧
        tr2.map (fun p => p.input.factor) = (List.range (k + 1)).map (fun j => s.factor / 10 ^ j) ∧
        (∀ p ∈ tr2, p.input.mode = s.mode ∧ p.output.mode = s.mode ∧
          p.output.nls_x = (kernel p.call p.input).nls_x ∧
          p.output.nls_diag = (kernel p.call p.input).nls_diag ∧
          p.output.retries2 = s.retries2 ∧ p.output.retries3 = s.retries3 ∧
          p.output.found_solution = s.found_solution ∧
          p.output.modelErrorCode = s.modelErrorCode) ∧
        (tr2.map Pass.output).getLast? = some r ∧
        r.info = 1 ∧ r.retries = s.retries + k ∧ r.factor = s.factor / 10 ^ k := by
  intro k
  induction k with
  | zero =>
    intro s tr hg _ _ hs
    have hb := solveBody_success E kernel tr.length s (hs _)
    refine ⟨callKernel kernel tr.length { s with giveUp := true },
      [solveBody E kernel tr.length s], ?_, ?_, ?_, ?_, ?_, hs _, rfl, ?_⟩
    · rw [solveLoop_pass E kernel _ s tr hg, solveLoop_giveUp E kernel fuel _ _ (by rw [hb]; rfl)]
      rw [hb]
    · rw [hb]; rfl
    · rw [hb]; simp [List.range_succ]
    · intro p hp
      rw [List.mem_singleton] at hp
      subst hp
      rw [hb]
      exact ⟨rfl, rfl, rfl, rfl, rfl, rfl, rfl, rfl⟩
    · rw [hb]; rfl
    · show s.factor = s.factor / 10 ^ 0
      simp
  | succ k ih =>
    intro s tr hg hr hnp hs
    have hi := hnp 0 (by omega) { s with giveUp := true }
    have hb := solveBody_tier1 E kernel tr.length s hi (by omega)
    have ho : (solveBody E kernel tr.length s).output =
        tier1 (callKernel kernel tr.length { s with giveUp := true }) := by rw [hb]
    obtain ⟨r, tr2, h1, h2, h3, h4, h5, h6, h7, h8⟩ :=
      ih (tier1 (callKernel kernel tr.length { s with giveUp := true }))
        (tr ++ [solveBody E kernel tr.length s]) rfl
        (by show s.retries + 1 + k ≤ 3; omega)
        (by
          intro j hj w
          have := hnp (j + 1) (by omega) w
          simpa [Nat.add_assoc, Nat.add_comm 1 j] using this)
        (by
          intro w
          have := hs w
          simpa [Nat.add_assoc, Nat.add_comm 1 k] using this)
    refine ⟨r, solveBody E kernel tr.length s :: tr2, ?_, ?_, ?_, ?_, ?_, h6, ?_, ?_⟩
    · rw [show fuel + (k + 1) + 2 = (fuel + k + 2) + 1 by omega,
        solveLoop_pass E kernel _ s tr hg, ho, h1]
      simp
    · rw [List.map_cons, h2, hb]; rfl
    · rw [List.map_cons, h3, hb]
      conv_rhs => rw [List.range_succ_eq_map, List.map_cons, List.map_map]
      refine congrArg₂ List.cons (by show s.factor = s.factor / 10 ^ 0; simp)
        (List.map_congr_left ?_)
      intro j _
      show s.factor / 10 / 10 ^ j = s.factor / 10 ^ (j + 1)
      rw [pow_succ, div_div, mul_comm]
    · intro p hp
      rcases List.mem_cons.mp hp with rfl | hp
      · rw [hb]; exact ⟨rfl, rfl, rfl, rfl, rfl, rfl, rfl, rfl⟩
      · exact h4 p hp
    · rw [List.map_cons, List.getLast?_cons, h5]
      rfl
    · rw [h7]; show s.retries + 1 + k = s.retries + (k + 1); omega
    · rw [h8]
      show s.factor / 10 / 10 ^ k = s.factor / 10 ^ (k + 1)
      rw [pow_succ, div_div, mul_comm]

/-- A pass whose outcome is `Success` or a code outside `0..5` ends the loop
with the state as the kernel left it. -/
theorem solveBody_stop (E : Int) (kernel : Kernel) (c : Nat) (s : NlsState)
    (hi : (kernel c { s with giveUp := true }).info = 1 ∨
      (kernel c { s with giveUp := true }).info < 0 ∨
      5 < (kernel c { s with giveUp := true }).info) :
    solveBody E kernel c s =
      { call := c
        input := { s with giveUp := true }
        output := callKernel kernel c { s with giveUp := true }
        action := Action.stop } := by
  have hi1 : (callKernel kernel c { s with giveUp := true }).info = 1 ∨
      (callKernel kernel c { s with giveUp := true }).info < 0 ∨
      5 < (callKernel kernel c { s with giveUp := true }).info := hi
  have h0 : ¬ (callKernel kernel c { s with giveUp := true }).info = 0 := by omega
  have hl : ladder E (callKernel kernel c { s with giveUp := true }) =
      (callKernel kernel c { s with giveUp := true }, Action.stop) := by
    refine ladder_elim E _ (fun r => r = (callKernel kernel c { s with giveUp := true },
      Action.stop)) ?_ ?_ ?_ ?_ ?_ ?_ ?_ ?_ ?_ ?_
    all_goals first
      | (intro h; omega)
      | (intro _; rfl)
  simp only [solveBody, kernelPass, improperInput, if_neg h0, hl]

/-- An `ImproperInput` pass sets the failure flag and takes no ladder branch. -/
theorem solveBody_improper (E : Int) (kernel : Kernel) (c : Nat) (s : NlsState)
    (hi : (kernel c { s with giveUp := true }).info = 0) :
    solveBody E kernel c s =
      { call := c
        input := { s with giveUp := true }
        output := { callKernel kernel c { s with giveUp := true } with found_solution := -1 }
        action := Action.stop } := by
  have h0 : (callKernel kernel c { s with giveUp := true }).info = 0 := hi
  have hl : ladder E { callKernel kernel c { s with giveUp := true } with found_solution := -1 } =
      ({ callKernel kernel c { s with giveUp := true } with found_solution := -1 },
        Action.stop) := by
    refine ladder_elim E _ (fun r => r =
      ({ callKernel kernel c { s with giveUp := true } with found_solution := -1 },
        Action.stop)) ?_ ?_ ?_ ?_ ?_ ?_ ?_ ?_ ?_ ?_
    all_goals first
      | (intro h; exact absurd h (by rw [show
            ({ callKernel kernel c { s with giveUp := true } with
              found_solution := -1 } : NlsState).info = 0 from h0]; decide))
      | (intro _; rfl)
  simp only [solveBody, kernelPass, improperInput, if_pos h0, hl]

/-- A pass whose outcome is `ExceededEvaluations` (2) or code 3 marks the solve
as failed, whatever the retry counters are. -/
theorem solveBody_failed (E : Int) (kernel : Kernel) (c : Nat) (s : NlsState)
    (hi : (kernel c { s with giveUp := true }).info = 2 ∨
      (kernel c { s with giveUp := true }).info = 3) :
    solveBody E kernel c s =
      { call := c
        input := { s with giveUp := true }
        output := failSolve E (callKernel kernel c { s with giveUp := true })
        action := Action.failed } := by
  have hi1 : (callKernel kernel c { s with giveUp := true }).info = 2 ∨
      (callKernel kernel c { s with giveUp := true }).info = 3 := hi
  have h0 : ¬ (callKernel kernel c { s with giveUp := true }).info = 0 := by omega
  have hl : ladder E (callKernel kernel c { s with giveUp := true }) =
      (failSolve E (callKernel kernel c { s with giveUp := true }), Action.failed) := by
    refine ladder_elim E _ (fun r => r =
      (failSolve E (callKernel kernel c { s with giveUp := true }), Action.failed))
      ?_ ?_ ?_ ?_ ?_ ?_ ?_ ?_ ?_ ?_
    all_goals first
      | (intro h; omega)
      | (intro _ _ _; rfl)
  simp only [solveBody, kernelPass, improperInput, if_neg h0, hl]

/-- A pass that leaves `giveUp` set is the last one. -/
theorem solveLoop_last (E : Int) (kernel : Kernel) (fuel : Nat) (s : NlsState)
    (tr : List Pass) (hg : s.giveUp = false)
    (hc : (solveBody E kernel tr.length s).output.giveUp = true) :
    solveLoop E kernel (fuel + 2) s tr =
      some ((solveBody E kernel tr.length s).output, tr ++ [solveBody E kernel tr.length s]) := by
  rw [solveLoop_pass E kernel _ s tr hg, solveLoop_giveUp E kernel fuel _ _ hc]

/-! ## Nonlinear driver: claims -/

/-- C3: a kernel that answers `NoProgress` exactly `k ≤ 3` times and then
`Success` is called exactly `k + 1` times; the driver takes `k` tier-1 steps and
no other, so call `j` receives `initial_factor / 10 ^ j`; the driver writes
neither `x` nor `diag` nor `mode`, leaves `retries2 = retries3 = 0`, and ends
with `info = 1` and both status variables as they were on entry. -/
theorem retry_ladder_determinism (E : Int) (kernel : Kernel) (s : NlsState) (k fuel : Nat)
    (hk : k ≤ 3) (hfuel : k + 2 ≤ fuel) (hf : s.factor = s.initial_factor)
    (hnp : ∀ j < k, ∀ w, (kernel j w).info = 4 ∨ (kernel j w).info = 5)
    (hs : ∀ w, (kernel k w).info = 1) :
    ∃ r tr, solve_nonlinear_system E kernel fuel s = some (r, tr) ∧
      tr.length = k + 1 ∧
      tr.map Pass.action = List.replicate k Action.tier1 ++ [Action.stop] ∧
      tr.map (fun p => p.input.factor) =
        (List.range (k + 1)).map (fun j => s.initial_factor / 10 ^ j) ∧
      (∀ p ∈ tr, p.input.mode = s.mode ∧ p.output.mode = s.mode ∧
        p.output.nls_x = (kernel p.call p.input).nls_x ∧
        p.output.nls_diag = (kernel p.call p.input).nls_diag) ∧
      (tr.map Pass.output).getLast? = some r ∧
      r.info = 1 ∧ r.retries = k ∧ r.retries2 = 0 ∧ r.retries3 = 0 ∧
      r.factor = s.initial_factor / 10 ^ k ∧
      r.found_solution = s.found_solution ∧ r.modelErrorCode = s.modelErrorCode := by
  obtain ⟨f, rfl⟩ : ∃ f, fuel = f + k + 2 := ⟨fuel - (k + 2), by omega⟩
  obtain ⟨r, tr, h1, h2, h3, h4, h5, h6, h7, h8⟩ :=
    tier1_run E kernel f k (solveEntry s) []
      rfl (by show 0 + k ≤ 3; omega) (by simpa using hnp) (by simpa using hs)
  obtain ⟨q, hq, hqr⟩ := List.mem_map.mp (List.mem_of_getLast?_eq_some h5)
  have hq4 := h4 q hq
  refine ⟨r, tr, by simpa [solve_nonlinear_system] using h1, ?_, h2, ?_, ?_, h5, h6, ?_, ?_, ?_,
    ?_, ?_, ?_⟩
  · have := congrArg List.length h2
    simpa using this
  · rw [h3, ← hf]; rfl
  · intro p hp
    have := h4 p hp
    exact ⟨this.1, this.2.1, this.2.2.1, this.2.2.2.1⟩
  · rw [h7]; show 0 + k = k; omega
  · rw [← hqr]; exact hq4.2.2.2.2.1
  · rw [← hqr]; exact hq4.2.2.2.2.2.1
  · rw [h8, ← hf]; rfl
  · rw [← hqr]; exact hq4.2.2.2.2.2.2.1
  · rw [← hqr]; exact hq4.2.2.2.2.2.2.2

theorem retry_ladder_determinism_witness :
    ∃ r tr, solve_nonlinear_system 7 (stubKernel 2) 4
        (start_nonlinear_system 1 (fun _ => 0) 0 0) = some (r, tr) ∧
      tr.length = 2 + 1 ∧
      tr.map Pass.action = List.replicate 2 Action.tier1 ++ [Action.stop] ∧
      tr.map (fun p => p.input.factor) =
        (List.range (2 + 1)).map
          (fun j => (start_nonlinear_system 1 (fun _ => 0) 0 0).initial_factor / 10 ^ j) ∧
      (∀ p ∈ tr, p.input.mode = (start_nonlinear_system 1 (fun _ => 0) 0 0).mode ∧
        p.output.mode = (start_nonlinear_system 1 (fun _ => 0) 0 0).mode ∧
        p.output.nls_x = (stubKernel 2 p.call p.input).nls_x ∧
        p.output.nls_diag = (stubKernel 2 p.call p.input).nls_diag) ∧
      (tr.map Pass.output).getLast? = some r ∧
      r.info = 1 ∧ r.retries = 2 ∧ r.retries2 = 0 ∧ r.retries3 = 0 ∧
      r.factor = (start_nonlinear_system 1 (fun _ => 0) 0 0).initial_factor / 10 ^ 2 ∧
      r.found_solution = (start_nonlinear_system 1 (fun _ => 0) 0 0).found_solution ∧
      r.modelErrorCode = (start_nonlinear_system 1 (fun _ => 0) 0 0).modelErrorCode :=
  retry_ladder_determinism 7 (stubKernel 2) (start_nonlinear_system 1 (fun _ => 0) 0 0) 2 4
    (by decide) (by decide) rfl
    (fun j hj _ => Or.inl (by simp [stubKernel, hj]))
    (fun _ => by simp [stubKernel])

/-- C4: for a kernel that answers `NoProgress` on every call the driver ends
(any budget of at least 81 passes is enough), after at most 80 kernel calls,
with the solve marked as failed (`found_solution = -1`,
`modelErrorCode = ERROR_NONLINSYS`) and a last outcome that is not `Success`. -/
theorem ladder_exhaustion (E : Int) (kernel : Kernel) (s : NlsState) (fuel : Nat)
    (hk : ∀ c w, (kernel c w).info = 4 ∨ (kernel c w).info = 5) :
    ∃ r tr, solve_nonlinear_system E kernel (fuel + 81) s = some (r, tr) ∧
      tr.length ≤ 80 ∧ r.found_solution = -1 ∧ r.modelErrorCode = E ∧ r.info ≠ 1 ∧
      tr.getLast?.map Pass.action = some Action.failed := by
  obtain ⟨r, tr, h1, _, h3⟩ :=
    solveLoop_terminates E kernel (fuel + 81) (solveEntry s) []
      (by show 79 + 2 ≤ fuel + 81; omega)
  obtain ⟨tr2, t, e1, _, _, e4, e5, _⟩ :=
    solveLoop_trace E kernel (fun _ => True) (fun _ _ _ _ _ => trivial) _ _ _ _ _ h1
      trivial rfl
  simp only [List.nil_append] at e1 e4
  have hkf := kernelPass_frame kernel tr2.length t
  have hi : (kernelPass kernel tr2.length t).info = 4 ∨
      (kernelPass kernel tr2.length t).info = 5 := by
    rw [hkf.2.2.2.2.2.2.2.2.2.1]; exact hk _ _
  have hst := ladder_stop E (kernelPass kernel tr2.length t) (by rw [e4] at e5; exact e5)
  have hl := hst.1 (by omega)
  have hr : r = failSolve E (kernelPass kernel tr2.length t) := by
    rw [e4]; show (ladder E _).1 = _; rw [hl]
  refine ⟨r, tr, by simpa [solve_nonlinear_system] using h1, ?_, ?_, ?_, ?_, ?_⟩
  · have : ladderRank (solveEntry s) = 79 := rfl
    omega
  · rw [hr]; rfl
  · rw [hr]; rfl
  · have h : (kernelPass kernel tr2.length t).info ≠ 1 := by omega
    rw [hr]; exact h
  · rw [e1, List.getLast?_concat]
    show some (ladder E _).2 = _
    rw [hl]

theorem ladder_exhaustion_witness :
    ∃ r tr, solve_nonlinear_system 7 (constKernel 4) (0 + 81)
        (start_nonlinear_system 1 (fun _ => 0) 0 0) = some (r, tr) ∧
      tr.length ≤ 80 ∧ r.found_solution = -1 ∧ r.modelErrorCode = 7 ∧ r.info ≠ 1 ∧
      tr.getLast?.map Pass.action = some Action.failed :=
  ladder_exhaustion 7 (constKernel 4) (start_nonlinear_system 1 (fun _ => 0) 0 0) 0
    (fun _ _ => Or.inl rfl)

/-- C7: at any pass of the loop (first or later, whatever the counters are), an
`ImproperInput` answer (`info = 0`) ends the run at once: the final state is the
state the kernel left, with only `found_solution` set to `-1`, so no ladder
action is taken, and the history grows by this one kernel call. -/
theorem improper_input_aborts (E : Int) (kernel : Kernel) (s : NlsState) (tr : List Pass)
    (fuel : Nat) (hg : s.giveUp = false)
    (h0 : (kernel tr.length { s with giveUp := true }).info = 0) :
    solveLoop E kernel (fuel + 2) s tr =
      some ({ callKernel kernel tr.length { s with giveUp := true } with found_solution := -1 },
        tr ++ [{ call := tr.length
                 input := { s with giveUp := true }
                 output := { callKernel kernel tr.length { s with giveUp := true } with
                             found_solution := -1 }
                 action := Action.stop }]) := by
  have hb := solveBody_improper E kernel tr.length s h0
  rw [solveLoop_last E kernel fuel s tr hg (by rw [hb]; rfl), hb]

theorem improper_input_aborts_witness :
    solveLoop 7 (constKernel 0) (0 + 2) (solveEntry (start_nonlinear_system 1 (fun _ => 0) 0 0)) [] =
      some ({ callKernel (constKernel 0) 0
                { solveEntry (start_nonlinear_system 1 (fun _ => 0) 0 0) with giveUp := true } with
              found_solution := -1 },
        [] ++ [{ call := 0
                 input := { solveEntry (start_nonlinear_system 1 (fun _ => 0) 0 0) with
                            giveUp := true }
                 output := { callKernel (constKernel 0) 0
                               { solveEntry (start_nonlinear_system 1 (fun _ => 0) 0 0) with
                                 giveUp := true } with
                             found_solution := -1 }
                 action := Action.stop }]) :=
  improper_input_aborts 7 (constKernel 0) (solveEntry (start_nonlinear_system 1 (fun _ => 0) 0 0))
    [] 0 rfl rfl

/-- C9: at any pass of the loop, for every value of the three retry counters,
an `ExceededEvaluations` answer (`info = 2`) ends the run at once with the solve
marked as failed: the final state is the state the kernel left with
`found_solution = -1` and `modelErrorCode = ERROR_NONLINSYS`, and the history
grows by this one kernel call. -/
theorem exceeded_evaluations_fails (E : Int) (kernel : Kernel) (s : NlsState)
    (tr : List Pass) (fuel : Nat) (hg : s.giveUp = false)
    (h2 : (kernel tr.length { s with giveUp := true }).info = 2) :
    solveLoop E kernel (fuel + 2) s tr =
      some ({ callKernel kernel tr.length { s with giveUp := true } with
              found_solution := -1, modelErrorCode := E },
        tr ++ [{ call := tr.length
                 input := { s with giveUp := true }
                 output := { callKernel kernel tr.length { s with giveUp := true } with
                             found_solution := -1, modelErrorCode := E }
                 action := Action.failed }]) := by
  have hb := solveBody_failed E kernel tr.length s (Or.inl h2)
  rw [solveLoop_last E kernel fuel s tr hg (by rw [hb]; rfl), hb]
  rfl

theorem exceeded_evaluations_fails_witness :
    solveLoop 7 (constKernel 2) (0 + 2)
        { start_nonlinear_system 1 (fun _ => 0) 0 0 with
          retries := 1, retries2 := 0, retries3 := 2 } [] =
      some ({ callKernel (constKernel 2) 0
                { start_nonlinear_system 1 (fun _ => 0) 0 0 with
                  retries := 1, retries2 := 0, retries3 := 2, giveUp := true } with
              found_solution := -1, modelErrorCode := 7 },
        [] ++ [{ call := 0
                 input := { start_nonlinear_system 1 (fun _ => 0) 0 0 with
                            retries := 1, retries2 := 0, retries3 := 2, giveUp := true }
                 output := { callKernel (constKernel 2) 0
                               { start_nonlinear_system 1 (fun _ => 0) 0 0 with
                                 retries := 1, retries2 := 0, retries3 := 2, giveUp := true } with
                             found_solution := -1, modelErrorCode := 7 }
                 action := Action.failed }]) :=
  exceeded_evaluations_fails 7 (constKernel 2)
    { start_nonlinear_system 1 (fun _ => 0) 0 0 with retries := 1, retries2 := 0, retries3 := 2 }
    [] 0 rfl rfl

/-- C8, the claim as stated fails: a kernel that answers the code `-1` (outside
`0..5`, not `Success`) ends the driver without the failure status set. -/
theorem failure_reported_counterexample :
    ∃ r tr, solve_nonlinear_system 7 (constKernel (-1)) 2
        (start_nonlinear_system 1 (fun _ => 0) 0 0) = some (r, tr) ∧
      r.info = -1 ∧ r.info ≠ 1 ∧ r.found_solution = 0 ∧ r.found_solution ≠ -1 := by
  have hb := solveBody_stop 7 (constKernel (-1)) 0
    (solveEntry (start_nonlinear_system 1 (fun _ => 0) 0 0)) (Or.inr (Or.inl (by decide)))
  refine ⟨(solveBody 7 (constKernel (-1)) 0
      (solveEntry (start_nonlinear_system 1 (fun _ => 0) 0 0))).output,
    [solveBody 7 (constKernel (-1)) 0 (solveEntry (start_nonlinear_system 1 (fun _ => 0) 0 0))],
    ?_, ?_⟩
  · have hg : (solveBody 7 (constKernel (-1)) 0
        (solveEntry (start_nonlinear_system 1 (fun _ => 0) 0 0))).output.giveUp = true := by
      rw [hb]; rfl
    exact solveLoop_last 7 (constKernel (-1)) 0 _ [] rfl hg
  · rw [hb]
    exact ⟨rfl, by decide, rfl, by decide⟩

/-- C8 (amended): the driver always ends; when the last kernel outcome is one
of the codes `0, 2, 3, 4, 5` it ends with `found_solution = -1`; when the last
outcome is `Success` or a code outside `0..5` it leaves `found_solution` as it
was on entry. -/
theorem failure_reported (E : Int) (kernel : Kernel) (s : NlsState) (fuel : Nat) :
    ∃ r tr, solve_nonlinear_system E kernel (fuel + 81) s = some (r, tr) ∧
      tr.getLast?.map (fun p => (kernel p.call p.input).info) = some r.info ∧
      ((r.info = 0 ∨ (2 ≤ r.info ∧ r.info ≤ 5)) → r.found_solution = -1) ∧
      ((r.info = 1 ∨ r.info < 0 ∨ 5 < r.info) → r.found_solution = s.found_solution) := by
  obtain ⟨r, tr, h1, _, _⟩ :=
    solveLoop_terminates E kernel (fuel + 81) (solveEntry s) []
      (by show 79 + 2 ≤ fuel + 81; omega)
  obtain ⟨tr2, t, e1, e2, _, e4, e5, _⟩ :=
    solveLoop_trace E kernel (fun t => t.found_solution = s.found_solution)
      (by
        intro c t ht _ hc
        have hl := ladder_continue E (kernelPass kernel c t) (kernelPass_frame kernel c t).1 hc
        have hi := (kernelPass_frame kernel c t).2.2.2.2.2.2.2.2.2.1
        have hf := (kernelPass_found kernel c t).2 (by rw [← hi]; omega)
        show (ladder E (kernelPass kernel c t)).1.found_solution = s.found_solution
        rw [hl.2.2.1, hf, ht])
      _ _ _ _ _ h1 rfl rfl
  simp only [List.nil_append] at e1 e4
  have hkf := kernelPass_frame kernel tr2.length t
  have hfound := kernelPass_found kernel tr2.length t
  have hi := hkf.2.2.2.2.2.2.2.2.2.1
  have hst := ladder_stop E (kernelPass kernel tr2.length t) (by rw [e4] at e5; exact e5)
  have hri : r.info = (kernelPass kernel tr2.length t).info := by
    rw [e4]; exact (ladder_frame E _).2.1
  refine ⟨r, tr, by simpa [solve_nonlinear_system] using h1, ?_, ?_, ?_⟩
  · rw [e1, List.getLast?_concat, hri, hi]; rfl
  · intro h
    by_cases h25 : 2 ≤ (kernelPass kernel tr2.length t).info ∧
        (kernelPass kernel tr2.length t).info ≤ 5
    · rw [e4]; show (ladder E _).1.found_solution = -1
      rw [hst.1 h25]; rfl
    · rw [e4]; show (ladder E _).1.found_solution = -1
      rw [hst.2.1 h25]
      exact hfound.1 (by rw [← hi]; omega)
  · intro h
    have h25 : ¬ (2 ≤ (kernelPass kernel tr2.length t).info ∧
        (kernelPass kernel tr2.length t).info ≤ 5) := by omega
    rw [e4]; show (ladder E _).1.found_solution = s.found_solution
    rw [hst.2.1 h25, hfound.2 (by rw [← hi]; omega), e2]

/-! ## Analytic-Jacobian driver -/

theorem solveLoop_analytic_jac_giveUp (E : Int) (kernel : Kernel) (fuel : Nat) (s : NlsState)
    (tr : List Pass) (h : s.giveUp = true) :
    solveLoop_analytic_jac E kernel (fuel + 1) s tr = some (s, tr) := by
  simp [solveLoop_analytic_jac, h]

theorem solveLoop_analytic_jac_pass (E : Int) (kernel : Kernel) (fuel : Nat) (s : NlsState)
    (tr : List Pass) (h : s.giveUp = false) :
    solveLoop_analytic_jac E kernel (fuel + 1) s tr =
      solveLoop_analytic_jac E kernel fuel (solveBody_analytic_jac E kernel tr.length s).output
        (tr ++ [solveBody_analytic_jac E kernel tr.length s]) := by
  simp [solveLoop_analytic_jac, h]

/-- One pass of the analytic-Jacobian loop, with the pass named. -/
theorem solveLoop_analytic_jac_step (E : Int) (kernel : Kernel) (fuel : Nat) (s : NlsState)
    (tr : List Pass) (c : Nat) (p : Pass) (hc : tr.length = c) (h : s.giveUp = false)
    (hp : solveBody_analytic_jac E kernel c s = p) :
    solveLoop_analytic_jac E kernel (fuel + 1) s tr =
      solveLoop_analytic_jac E kernel fuel p.output (tr ++ [p]) := by
  subst hc hp
  exact solveLoop_analytic_jac_pass E kernel fuel s tr h

/-- The pass of the analytic-Jacobian driver on a `NoProgress` answer, by the
value of `retries`. -/
theorem solveBody_analytic_jac_noProgress (E : Int) (kernel : Kernel) (c : Nat) (s : NlsState)
    (hi : (kernel c { s with giveUp := true }).info = 4 ∨
      (kernel c { s with giveUp := true }).info = 5) :
    (s.retries < 3 →
        solveBody_analytic_jac E kernel c s =
          { call := c, input := { s with giveUp := true }
            output := tier1 (callKernel kernel c { s with giveUp := true })
            action := Action.tier1 }) ∧
      (3 ≤ s.retries → s.retries < 5 →
        solveBody_analytic_jac E kernel c s =
          { call := c, input := { s with giveUp := true }
            output := tier2 (callKernel kernel c { s with giveUp := true })
            action := Action.tier2 }) ∧
      (5 ≤ s.retries →
        solveBody_analytic_jac E kernel c s =
          { call := c, input := { s with giveUp := true }
            output := failSolve_analytic_jac E (callKernel kernel c { s with giveUp := true })
            action := Action.failed }) := by
  have hi1 : (callKernel kernel c { s with giveUp := true }).info = 4 ∨
      (callKernel kernel c { s with giveUp := true }).info = 5 := hi
  have hr : (callKernel kernel c { s with giveUp := true }).retries = s.retries := rfl
  refine ⟨fun h => ?_, fun h3 h5 => ?_, fun h => ?_⟩
  · have hl : ladder_analytic_jac E (callKernel kernel c { s with giveUp := true }) =
        (tier1 (callKernel kernel c { s with giveUp := true }), Action.tier1) := by
      unfold ladder_analytic_jac
      rw [if_pos ⟨hi1, by omega⟩]
    simp only [solveBody_analytic_jac, hl]
  · have hl : ladder_analytic_jac E (callKernel kernel c { s with giveUp := true }) =
        (tier2 (callKernel kernel c { s with giveUp := true }), Action.tier2) := by
      unfold ladder_analytic_jac
      rw [if_neg (by omega), if_pos ⟨hi1, by omega⟩]
    simp only [solveBody_analytic_jac, hl]
  · have hl : ladder_analytic_jac E (callKernel kernel c { s with giveUp := true }) =
        (failSolve_analytic_jac E (callKernel kernel c { s with giveUp := true }),
          Action.failed) := by
      unfold ladder_analytic_jac
      rw [if_neg (by omega), if_neg (by omega), if_pos (by omega)]
    simp only [solveBody_analytic_jac, hl]

/-- C10: for a kernel that answers `NoProgress` on every call, the
analytic-Jacobian driver makes exactly 6 kernel calls: three passes that divide
`factor` by 10 and keep `x`, then two passes that add `0.1` to every component
of `x` and keep `factor`, then a pass that sets
`modelErrorCode = ERROR_NONLINSYS` and ends the loop; no pass writes `diag` or
`mode`. -/
theorem analytic_jac_two_tiers (E : Int) (kernel : Kernel) (s : NlsState) (fuel : Nat)
    (hk : ∀ c w, (kernel c w).info = 4 ∨ (kernel c w).info = 5) :
    ∃ r tr, solve_nonlinear_system_analytic_jac E kernel (fuel + 7) s = some (r, tr) ∧
      tr.length = 6 ∧
      tr.map Pass.action = [Action.tier1, Action.tier1, Action.tier1, Action.tier2,
        Action.tier2, Action.failed] ∧
      tr.map Pass.call = [0, 1, 2, 3, 4, 5] ∧
      (∀ p ∈ tr,
        (p.action = Action.tier1 → p.output.factor = p.input.factor / 10 ∧
          p.output.nls_x = (kernel p.call p.input).nls_x) ∧
        (p.action = Action.tier2 → p.output.factor = p.input.factor ∧
          ∀ i, i < s.n → p.output.nls_x i = (kernel p.call p.input).nls_x i + 1 / 10) ∧
        (p.action = Action.failed → p.output.factor = p.input.factor ∧
          p.output.nls_x = (kernel p.call p.input).nls_x) ∧
        p.output.nls_diag = (kernel p.call p.input).nls_diag ∧
        p.output.mode = s.mode) ∧
      (tr.map Pass.output).getLast? = some r ∧
      r.giveUp = true ∧ r.retries = 5 ∧ r.factor = s.factor / 10 / 10 / 10 ∧
      r.modelErrorCode = E := by
  let s0 := solveEntry_analytic_jac s
  let p0 : Pass := ⟨0, { s0 with giveUp := true },
    tier1 (callKernel kernel 0 { s0 with giveUp := true }), Action.tier1⟩
  have b0 : solveBody_analytic_jac E kernel 0 s0 = p0 :=
    (solveBody_analytic_jac_noProgress E kernel 0 s0 (hk _ _)).1 (by show (0 : ℕ) < 3; decide)
  let s1 := p0.output
  let p1 : Pass := ⟨1, { s1 with giveUp := true },
    tier1 (callKernel kernel 1 { s1 with giveUp := true }), Action.tier1⟩
  have b1 : solveBody_analytic_jac E kernel 1 s1 = p1 :=
    (solveBody_analytic_jac_noProgress E kernel 1 s1 (hk _ _)).1
      (by show (0 : ℕ) + 1 < 3; decide)
  let s2 := p1.output
  let p2 : Pass := ⟨2, { s2 with giveUp := true },
    tier1 (callKernel kernel 2 { s2 with giveUp := true }), Action.tier1⟩
  have b2 : solveBody_analytic_jac E kernel 2 s2 = p2 :=
    (solveBody_analytic_jac_noProgress E kernel 2 s2 (hk _ _)).1
      (by show (0 : ℕ) + 1 + 1 < 3; decide)
  let s3 := p2.output
  let p3 : Pass := ⟨3, { s3 with giveUp := true },
    tier2 (callKernel kernel 3 { s3 with giveUp := true }), Action.tier2⟩
  have b3 : solveBody_analytic_jac E kernel 3 s3 = p3 :=
    (solveBody_analytic_jac_noProgress E kernel 3 s3 (hk _ _)).2.1
      (by show 3 ≤ (0 : ℕ) + 1 + 1 + 1; decide) (by show (0 : ℕ) + 1 + 1 + 1 < 5; decide)
  let s4 := p3.output
  let p4 : Pass := ⟨4, { s4 with giveUp := true },
    tier2 (callKernel kernel 4 { s4 with giveUp := true }), Action.tier2⟩
  have b4 : solveBody_analytic_jac E kernel 4 s4 = p4 :=
    (solveBody_analytic_jac_noProgress E kernel 4 s4 (hk _ _)).2.1
      (by show 3 ≤ (0 : ℕ) + 1 + 1 + 1 + 1; decide)
      (by show (0 : ℕ) + 1 + 1 + 1 + 1 < 5; decide)
  let s5 := p4.output
  let p5 : Pass := ⟨5, { s5 with giveUp := true },
    failSolve_analytic_jac E (callKernel kernel 5 { s5 with giveUp := true }), Action.failed⟩
  have b5 : solveBody_analytic_jac E kernel 5 s5 = p5 :=
    (solveBody_analytic_jac_noProgress E kernel 5 s5 (hk _ _)).2.2
      (by show 5 ≤ (0 : ℕ) + 1 + 1 + 1 + 1 + 1; decide)
  have key : solve_nonlinear_system_analytic_jac E kernel (fuel + 7) s =
      some (p5.output, [p0, p1, p2, p3, p4, p5]) :=
    (solveLoop_analytic_jac_step E kernel (fuel + 6) s0 [] 0 p0 rfl rfl b0).trans <|
    (solveLoop_analytic_jac_step E kernel (fuel + 5) s1 [p0] 1 p1 rfl rfl b1).trans <|
    (solveLoop_analytic_jac_step E kernel (fuel + 4) s2 [p0, p1] 2 p2 rfl rfl b2).trans <|
    (solveLoop_analytic_jac_step E kernel (fuel + 3) s3 [p0, p1, p2] 3 p3 rfl rfl b3).trans <|
    (solveLoop_analytic_jac_step E kernel (fuel + 2) s4 [p0, p1, p2, p3] 4 p4 rfl rfl b4).trans <|
    (solveLoop_analytic_jac_step E kernel (fuel + 1) s5 [p0, p1, p2, p3, p4] 5 p5 rfl rfl b5).trans <|
    solveLoop_analytic_jac_giveUp E kernel fuel p5.output [p0, p1, p2, p3, p4, p5] rfl
  refine ⟨p5.output, [p0, p1, p2, p3, p4, p5], key, rfl, rfl, rfl, ?_, rfl, rfl, rfl, rfl, rfl⟩
  intro p hp
  simp only [List.mem_cons, List.mem_singleton, List.not_mem_nil, or_false] at hp
  rcases hp with rfl | rfl | rfl | rfl | rfl | rfl
  · exact ⟨fun _ => ⟨rfl, rfl⟩, (fun h => by cases h), (fun h => by cases h), rfl, rfl⟩
  · exact ⟨fun _ => ⟨rfl, rfl⟩, (fun h => by cases h), (fun h => by cases h), rfl, rfl⟩
  · exact ⟨fun _ => ⟨rfl, rfl⟩, (fun h => by cases h), (fun h => by cases h), rfl, rfl⟩
  · refine ⟨(fun h => by cases h), fun _ => ⟨rfl, fun i hi => ?_⟩, (fun h => by cases h), rfl, rfl⟩
    show (if i < s.n then _ else _) = _
    rw [if_pos hi]
    rfl
  · refine ⟨(fun h => by cases h), fun _ => ⟨rfl, fun i hi => ?_⟩, (fun h => by cases h), rfl, rfl⟩
    show (if i < s.n then _ else _) = _
    rw [if_pos hi]
    rfl
  · exact ⟨(fun h => by cases h), (fun h => by cases h), fun _ => ⟨rfl, rfl⟩, rfl, rfl⟩

theorem analytic_jac_two_tiers_witness :
    ∃ r tr, solve_nonlinear_system_analytic_jac 7 (constKernel 4) (0 + 7)
        (start_nonlinear_system 2 (fun _ => 0) 0 0) = some (r, tr) ∧
      tr.length = 6 ∧ r.modelErrorCode = 7 := by
  obtain ⟨r, tr, h1, h2, _, _, _, _, _, _, _, h3⟩ :=
    analytic_jac_two_tiers 7 (constKernel 4) (start_nonlinear_system 2 (fun _ => 0) 0 0) 0
      (fun _ _ => Or.inl rfl)
  exact ⟨r, tr, h1, h2, h3⟩


/-! ## Mixed systems: one pass -/

/-- The comparison loop started with the flag set returns 1 when all remaining
components agree within the tolerance and 0 otherwise. -/
theorem compareLoop_eq (loc loc2 : Nat → ℚ) :
    ∀ (m i : Nat), compareLoop loc loc2 m i 1 =
      if ∀ j, i ≤ j → j < i + m → |loc j - loc2 j| ≤ 1 / 1000000000000 then 1 else 0 := by
  intro m
  induction m with
  | zero =>
    intro i
    rw [if_pos (fun j h1 h2 => absurd h2 (by omega))]
    rfl
  | succ m ih =>
    intro i
    unfold compareLoop
    by_cases h : |loc i - loc2 i| > 1 / 1000000000000
    · rw [if_pos h, if_neg]
      intro hall
      exact absurd (hall i (le_refl i) (by omega)) (not_le.mpr h)
    · rw [if_neg h, ih (i + 1)]
      have h' : |loc i - loc2 i| ≤ 1 / 1000000000000 := not_lt.mp h
      by_cases hall : ∀ j, i + 1 ≤ j → j < i + 1 + m → |loc j - loc2 j| ≤ 1 / 1000000000000
      · rw [if_pos hall, if_pos]
        intro j h1 h2
        rcases Nat.eq_or_lt_of_le h1 with rfl | h3
        · exact h'
        · exact hall j h3 (by omega)
      · rw [if_neg hall, if_neg]
        intro hall2
        exact hall (fun j h1 h2 => hall2 j (by omega) (by omega))

/-- The flag after the first half of `check_discrete_values` (lines 300-311). -/
theorem compareLoop_zero_iff (loc loc2 : Nat → ℚ) (size : Nat) :
    (compareLoop loc loc2 size 0 1 = 1 ↔
        ∀ i < size, |loc i - loc2 i| ≤ 1 / 1000000000000) ∧
      (compareLoop loc loc2 size 0 1 = 0 ↔
        ¬ ∀ i < size, |loc i - loc2 i| ≤ 1 / 1000000000000) := by
  rw [compareLoop_eq loc loc2 size 0]
  by_cases h : ∀ i < size, |loc i - loc2 i| ≤ 1 / 1000000000000
  · rw [if_pos (fun j _ h2 => h j (by omega))]
    exact ⟨⟨fun _ => h, fun _ => rfl⟩, ⟨fun h0 => absurd h0 (by decide), fun hn => absurd h hn⟩⟩
  · rw [if_neg (fun hall => h (fun i hi => hall i (Nat.zero_le i) (by omega)))]
    exact ⟨⟨fun h1 => absurd h1 (by decide), fun hh => absurd hh h⟩, ⟨fun _ => h, fun _ => rfl⟩⟩

/-- A failed continuous solve or a mismatch, with a further row left: the index
advances and the next row is substituted. -/
theorem check_advance {σ α β : Type} (cast : α → β) (values : Nat → α) (size numValues : Nat)
    (s : MixedState σ β)
    (h : s.found_solution = -1 ∨
      ¬ ∀ i < size, |s.discrete_loc i - s.discrete_loc2 i| ≤ 1 / 1000000000000)
    (hlt : s.cur_value_indx + 1 < numValues / size) :
    check_discrete_values cast values size numValues s =
      { s with
        found_solution := 0
        cur_value_indx := s.cur_value_indx + 1
        vars := fun i =>
          if i < size then cast (values ((s.cur_value_indx + 1) * size + i)) else s.vars i
        reads := s.reads ++
          (List.range size).map (fun i => (s.cur_value_indx + 1) * size + i) } := by
  unfold check_discrete_values
  by_cases hf : s.found_solution = -1
  · simp only [if_pos hf, ite_true, ge_iff_le, if_neg (not_le.mpr hlt)]
  · have hc : compareLoop s.discrete_loc s.discrete_loc2 size 0 1 = 0 :=
      (compareLoop_zero_iff _ _ size).2.mpr (h.resolve_left hf)
    simp only [if_neg hf, hc, ite_true, ge_iff_le, if_neg (not_le.mpr hlt)]

/-- A failed continuous solve or a mismatch on the last row: the resolution
fails. -/
theorem check_exhaust {σ α β : Type} (cast : α → β) (values : Nat → α) (size numValues : Nat)
    (s : MixedState σ β)
    (h : s.found_solution = -1 ∨
      ¬ ∀ i < size, |s.discrete_loc i - s.discrete_loc2 i| ≤ 1 / 1000000000000)
    (hge : numValues / size ≤ s.cur_value_indx + 1) :
    check_discrete_values cast values size numValues s =
      { s with found_solution := -1, cur_value_indx := s.cur_value_indx + 1 } := by
  unfold check_discrete_values
  by_cases hf : s.found_solution = -1
  · simp only [if_pos hf, ite_true, ge_iff_le, if_pos hge]
  · have hc : compareLoop s.discrete_loc s.discrete_loc2 size 0 1 = 0 :=
      (compareLoop_zero_iff _ _ size).2.mpr (h.resolve_left hf)
    simp only [if_neg hf, hc, ite_true, ge_iff_le, if_pos hge]

/-- A continuous solve that did not fail and whose discrete outputs agree with
the assumed inputs: the candidate is accepted, nothing else changes. -/
theorem check_accept {σ α β : Type} (cast : α → β) (values : Nat → α) (size numValues : Nat)
    (s : MixedState σ β) (hf : s.found_solution ≠ -1)
    (h : ∀ i < size, |s.discrete_loc i - s.discrete_loc2 i| ≤ 1 / 1000000000000) :
    check_discrete_values cast values size numValues s = { s with found_solution := 1 } := by
  unfold check_discrete_values
  have hc : compareLoop s.discrete_loc s.discrete_loc2 size 0 1 = 1 :=
    (compareLoop_zero_iff _ _ size).1.mpr h
  simp only [if_neg hf, hc, one_ne_zero, ite_false]

/-- The state handed to `check_discrete_values` in a pass. -/
theorem mixedBody_eq {σ α β : Type} (body : Body σ β) (cast : α → β) (values : Nat → α)
    (size numValues : Nat) (s : MixedState σ β) :
    mixedBody body cast values size numValues s =
      check_discrete_values cast values size numValues
        { s with
          env := (body s.env s.vars).env
          found_solution := (body s.env s.vars).found_solution
          vars := (body s.env s.vars).vars
          discrete_loc := (body s.env s.vars).discrete_loc
          discrete_loc2 := (body s.env s.vars).discrete_loc2 } := rfl

/-- A pass whose continuous solve failed or whose discrete values mismatch,
with a further row left. -/
theorem mixedBody_advance {σ α β : Type} (body : Body σ β) (cast : α → β) (values : Nat → α)
    (size numValues : Nat) (s : MixedState σ β)
    (h : (body s.env s.vars).found_solution = -1 ∨ ¬ selfConsistent body size s.env s.vars)
    (hlt : s.cur_value_indx + 1 < numValues / size) :
    mixedBody body cast values size numValues s =
      { env := (body s.env s.vars).env
        found_solution := 0
        cur_value_indx := s.cur_value_indx + 1
        vars := fun i =>
          if i < size then cast (values ((s.cur_value_indx + 1) * size + i))
          else (body s.env s.vars).vars i
        discrete_loc := (body s.env s.vars).discrete_loc
        discrete_loc2 := (body s.env s.vars).discrete_loc2
        reads := s.reads ++
          (List.range size).map (fun i => (s.cur_value_indx + 1) * size + i) } := by
  exact check_advance cast values size numValues
    ({ s with
      env := (body s.env s.vars).env
      found_solution := (body s.env s.vars).found_solution
      vars := (body s.env s.vars).vars
      discrete_loc := (body s.env s.vars).discrete_loc
      discrete_loc2 := (body s.env s.vars).discrete_loc2 } : MixedState σ β) h hlt

/-- A pass whose continuous solve failed or whose discrete values mismatch, on
the last row. -/
theorem mixedBody_exhaust {σ α β : Type} (body : Body σ β) (cast : α → β) (values : Nat → α)
    (size numValues : Nat) (s : MixedState σ β)
    (h : (body s.env s.vars).found_solution = -1 ∨ ¬ selfConsistent body size s.env s.vars)
    (hge : numValues / size ≤ s.cur_value_indx + 1) :
    mixedBody body cast values size numValues s =
      { env := (body s.env s.vars).env
        found_solution := -1
        cur_value_indx := s.cur_value_indx + 1
        vars := (body s.env s.vars).vars
        discrete_loc := (body s.env s.vars).discrete_loc
        discrete_loc2 := (body s.env s.vars).discrete_loc2
        reads := s.reads } := by
  exact check_exhaust cast values size numValues
    ({ s with
      env := (body s.env s.vars).env
      found_solution := (body s.env s.vars).found_solution
      vars := (body s.env s.vars).vars
      discrete_loc := (body s.env s.vars).discrete_loc
      discrete_loc2 := (body s.env s.vars).discrete_loc2 } : MixedState σ β) h hge

/-- A pass whose continuous solve did not fail and whose discrete values
agree. -/
theorem mixedBody_accept {σ α β : Type} (body : Body σ β) (cast : α → β) (values : Nat → α)
    (size numValues : Nat) (s : MixedState σ β)
    (hf : (body s.env s.vars).found_solution ≠ -1)
    (h : selfConsistent body size s.env s.vars) :
    mixedBody body cast values size numValues s =
      { env := (body s.env s.vars).env
        found_solution := 1
        cur_value_indx := s.cur_value_indx
        vars := (body s.env s.vars).vars
        discrete_loc := (body s.env s.vars).discrete_loc
        discrete_loc2 := (body s.env s.vars).discrete_loc2
        reads := s.reads } := by
  exact check_accept cast values size numValues
    ({ s with
      env := (body s.env s.vars).env
      found_solution := (body s.env s.vars).found_solution
      vars := (body s.env s.vars).vars
      discrete_loc := (body s.env s.vars).discrete_loc
      discrete_loc2 := (body s.env s.vars).discrete_loc2 } : MixedState σ β) hf h

/-! ## Mixed systems: the loop -/

theorem mixedLoop_continue {σ α β : Type} (body : Body σ β) (cast : α → β) (values : Nat → α)
    (size numValues fuel : Nat) (s : MixedState σ β) (tr : List (Nat × (Nat → β)))
    (h : (mixedBody body cast values size numValues s).found_solution = 0) :
    mixedLoop body cast values size numValues (fuel + 1) s tr =
      mixedLoop body cast values size numValues fuel
        (mixedBody body cast values size numValues s) (tr ++ [(s.cur_value_indx, s.vars)]) := by
  simp only [mixedLoop, if_pos h]

theorem mixedLoop_exit {σ α β : Type} (body : Body σ β) (cast : α → β) (values : Nat → α)
    (size numValues fuel : Nat) (s : MixedState σ β) (tr : List (Nat × (Nat → β)))
    (h : (mixedBody body cast values size numValues s).found_solution ≠ 0) :
    mixedLoop body cast values size numValues (fuel + 1) s tr =
      some (mixedBody body cast values size numValues s, tr ++ [(s.cur_value_indx, s.vars)]) := by
  simp only [mixedLoop, if_neg h]

/-- C1 (amended): a failed continuous solve is treated as a mismatch.  The
candidate index advances by one; if rows are left, the next row is
substituted, the flag is 0 and the loop makes another pass; if none is left,
the flag is `-1` and the loop ends. -/
theorem failed_solve_advances {σ α β : Type} (body : Body σ β) (cast : α → β)
    (values : Nat → α) (size numValues fuel : Nat) (s : MixedState σ β)
    (tr : List (Nat × (Nat → β))) (hf : (body s.env s.vars).found_solution = -1) :
    (mixedBody body cast values size numValues s).cur_value_indx = s.cur_value_indx + 1 ∧
      (s.cur_value_indx + 1 < numValues / size →
        (mixedBody body cast values size numValues s).found_solution = 0 ∧
        isRow cast values size (s.cur_value_indx + 1)
          (mixedBody body cast values size numValues s).vars ∧
        mixedLoop body cast values size numValues (fuel + 1) s tr =
          mixedLoop body cast values size numValues fuel
            (mixedBody body cast values size numValues s)
            (tr ++ [(s.cur_value_indx, s.vars)])) ∧
      (numValues / size ≤ s.cur_value_indx + 1 →
        (mixedBody body cast values size numValues s).found_solution = -1 ∧
        (mixedBody body cast values size numValues s).vars = (body s.env s.vars).vars ∧
        mixedLoop body cast values size numValues (fuel + 1) s tr =
          some (mixedBody body cast values size numValues s,
            tr ++ [(s.cur_value_indx, s.vars)])) := by
  by_cases hlt : s.cur_value_indx + 1 < numValues / size
  · have hb := mixedBody_advance body cast values size numValues s (Or.inl hf) hlt
    have h0 : (mixedBody body cast values size numValues s).found_solution = 0 := by rw [hb]
    refine ⟨by rw [hb], fun _ => ⟨h0, ?_, mixedLoop_continue body cast values size numValues
      fuel s tr h0⟩, fun hge => absurd hlt (by omega)⟩
    intro i hi
    rw [hb]
    show (if i < size then _ else _) = _
    rw [if_pos hi]
  · have hge : numValues / size ≤ s.cur_value_indx + 1 := by omega
    have hb := mixedBody_exhaust body cast values size numValues s (Or.inl hf) hge
    have h1 : (mixedBody body cast values size numValues s).found_solution = -1 := by rw [hb]
    refine ⟨by rw [hb], fun h => absurd h hlt, fun _ => ⟨h1, by rw [hb], ?_⟩⟩
    exact mixedLoop_exit body cast values size numValues fuel s tr (by rw [h1]; decide)

theorem failed_solve_advances_witness :
    (mixedBody (stubBody (fun v => !(v 0)) (fun _ _ => true)) id (tableOf [false, true]) 1 2
        (⟨(), 0, 0, fun _ => false, fun _ => 0, fun _ => 0, []⟩ :
          MixedState Unit Bool)).cur_value_indx = 0 + 1 :=
  (failed_solve_advances (stubBody (fun v => !(v 0)) (fun _ _ => true)) id
    (tableOf [false, true]) 1 2 0
    (⟨(), 0, 0, fun _ => false, fun _ => 0, fun _ => 0, []⟩ : MixedState Unit Bool) [] rfl).1

/-- C1, the claim as stated fails: with the two rows `[false]`, `[true]` and a
continuous solve that fails while the discrete variable is `false`, the solve
of the first pass fails, yet the resolver advances to index 1, substitutes row
1, runs a second pass and ends with success. -/
theorem failed_solve_aborts_counterexample :
    (stubBody (fun v => !(v 0)) (fun _ _ => true) () (fun _ => false)).found_solution = -1 ∧
      ∃ st tr, mixed_equation_system (stubBody (fun v => !(v 0)) (fun _ _ => true)) id
          (tableOf [false, true]) 1 2 2 () (fun _ => false) = some (st, tr) ∧
        st.found_solution = 1 ∧ st.cur_value_indx = 1 ∧ st.vars 0 = true ∧ tr.length = 2 := by
  refine ⟨rfl, ?_⟩
  obtain ⟨s1, hs1, hv, hc1, hf1⟩ : ∃ s1 : MixedState Unit Bool,
      mixedBody (stubBody (fun v => !(v 0)) (fun _ _ => true)) id (tableOf [false, true]) 1 2
        ⟨(), 0, 0, fun _ => false, fun _ => 0, fun _ => 0, []⟩ = s1 ∧
      s1.vars 0 = true ∧ s1.cur_value_indx = 1 ∧ s1.found_solution = 0 :=
    ⟨_, mixedBody_advance (stubBody (fun v => !(v 0)) (fun _ _ => true)) id
      (tableOf [false, true]) 1 2 ⟨(), 0, 0, fun _ => false, fun _ => 0, fun _ => 0, []⟩
      (Or.inl rfl) (by decide), rfl, rfl, rfl⟩
  have hc : selfConsistent (stubBody (fun v => !(v 0)) (fun _ _ => true)) 1 s1.env s1.vars := by
    intro i hi
    obtain rfl : i = 0 := by omega
    show |toReal (s1.vars 0) - toReal true| ≤ 1 / 1000000000000
    rw [hv]
    norm_num [toReal]
  have hf : (stubBody (fun v => !(v 0)) (fun _ _ => true) s1.env s1.vars).found_solution ≠ -1 := by
    show (if (!(s1.vars 0)) = true then (-1 : ℤ) else 0) ≠ -1
    rw [hv]
    decide
  have b1 := mixedBody_accept (stubBody (fun v => !(v 0)) (fun _ _ => true)) id
    (tableOf [false, true]) 1 2 s1 hf hc
  refine ⟨mixedBody (stubBody (fun v => !(v 0)) (fun _ _ => true)) id (tableOf [false, true])
    1 2 s1, [(0, fun _ => false), (s1.cur_value_indx, s1.vars)], ?_, ?_, ?_, ?_, rfl⟩
  · show mixedLoop _ id (tableOf [false, true]) 1 2 (1 + 1)
      ⟨(), 0, 0, fun _ => false, fun _ => 0, fun _ => 0, []⟩ [] = _
    rw [mixedLoop_continue _ id (tableOf [false, true]) 1 2 1 _ [] (by rw [hs1]; exact hf1),
      hs1, mixedLoop_exit _ id (tableOf [false, true]) 1 2 0 s1 _ (by rw [b1]; exact one_ne_zero)]
    rfl
  · rw [b1]
  · rw [b1]; exact hc1
  · rw [b1]; rfl

/-- From a pass at index `k - d` whose assignment is row `k` when `d = 0` and
is not self-consistent otherwise, the resolver walks through the rows up to
row `k` and accepts there. -/
theorem mixedLoop_reaches_row {σ α β : Type} (body : Body σ β) (cast : α → β)
    (values : Nat → α) (size numValues k : Nat) (hk : k < numValues / size)
    (hsolve : ∀ e v, (body e v).found_solution ≠ -1)
    (hrow : ∀ e v, isRow cast values size k v →
      selfConsistent body size e v ∧ ∀ i < size, (body e v).vars i = v i)
    (hother : ∀ e v j, j < numValues / size → j ≠ k → isRow cast values size j v →
      ¬ selfConsistent body size e v) :
    ∀ (d : Nat) (s : MixedState σ β) (tr : List (Nat × (Nat → β))) (fuel : Nat),
      s.cur_value_indx + d = k →
      (d = 0 → isRow cast values size k s.vars) →
      (d ≠ 0 → ¬ selfConsistent body size s.env s.vars) →
      ∃ st tr2, mixedLoop body cast values size numValues (fuel + d + 1) s tr =
          some (st, tr ++ tr2) ∧
        st.found_solution = 1 ∧ st.cur_value_indx = k ∧ isRow cast values size k st.vars ∧
        tr2.map Prod.fst = List.range' s.cur_value_indx (d + 1) ∧
        ∀ e, tr2.getLast? = some e → isRow cast values size k e.2 := by
  intro d
  induction d with
  | zero =>
    intro s tr fuel hc h0 _
    have hr := hrow s.env s.vars (h0 rfl)
    have hb := mixedBody_accept body cast values size numValues s (hsolve _ _) hr.1
    refine ⟨mixedBody body cast values size numValues s, [(s.cur_value_indx, s.vars)],
      mixedLoop_exit body cast values size numValues fuel s tr (by rw [hb]; exact one_ne_zero),
      by rw [hb], by rw [hb]; exact hc, ?_, rfl, ?_⟩
    · intro i hi
      rw [hb]
      exact (hr.2 i hi).trans (h0 rfl i hi)
    · intro e he
      simp only [List.getLast?_singleton, Option.some.injEq] at he
      subst he
      exact h0 rfl
  | succ d ih =>
    intro s tr fuel hc _ hn
    have hlt : s.cur_value_indx + 1 < numValues / size := by omega
    have hb := mixedBody_advance body cast values size numValues s
      (Or.inr (hn (Nat.succ_ne_zero d))) hlt
    have hcur : (mixedBody body cast values size numValues s).cur_value_indx =
        s.cur_value_indx + 1 := by rw [hb]
    have hisrow : isRow cast values size (s.cur_value_indx + 1)
        (mixedBody body cast values size numValues s).vars := by
      intro i hi
      rw [hb]
      show (if i < size then _ else _) = _
      rw [if_pos hi]
    obtain ⟨st, tr2, h1, h2, h3, h4, h5, h6⟩ :=
      ih (mixedBody body cast values size numValues s) (tr ++ [(s.cur_value_indx, s.vars)]) fuel
        (by rw [hcur]; omega)
        (by
          intro hd
          have : s.cur_value_indx + 1 = k := by omega
          rw [← this]; exact hisrow)
        (by
          intro hd
          exact hother _ _ (s.cur_value_indx + 1) hlt (by omega) hisrow)
    refine ⟨st, (s.cur_value_indx, s.vars) :: tr2, ?_, h2, h3, h4, ?_, ?_⟩
    · rw [show fuel + (d + 1) + 1 = (fuel + d + 1) + 1 by omega,
        mixedLoop_continue body cast values size numValues _ s tr (by rw [hb]), h1]
      simp
    · rw [List.map_cons, h5, hcur]
      rfl
    · intro e he
      cases tr2 with
      | nil => simp at h5
      | cons a l =>
        rw [List.getLast?_cons_cons] at he
        exact h6 e he

/-- For the stub whose implied discrete value is always `true`, an assignment
with `true` in component 0 is self-consistent (size 1). -/
theorem stubBody_consistent (e : Unit) (v : Nat → Bool) (hv : v 0 = true) :
    selfConsistent (stubBody (fun _ => false) (fun _ _ => true)) 1 e v := by
  intro i hi
  obtain rfl : i = 0 := by omega
  show |toReal (v 0) - toReal true| ≤ 1 / 1000000000000
  rw [hv]
  norm_num [toReal]

/-- For the same stub an assignment with `false` in component 0 is not
self-consistent. -/
theorem stubBody_inconsistent (e : Unit) (v : Nat → Bool) (hv : v 0 = false) :
    ¬ selfConsistent (stubBody (fun _ => false) (fun _ _ => true)) 1 e v := by
  intro h
  have := h 0 (by decide)
  change |toReal (v 0) - toReal true| ≤ 1 / 1000000000000 at this
  rw [hv] at this
  norm_num [toReal] at this

/-- C2, the claim as stated fails.  (a) With the rows `[false]`, `[false]`,
`[true]`, where only the assignment `[true]` of row 2 is self-consistent, and
the discrete variable `true` on entry, the resolver accepts at index 0, not 2.
(b) With the rows `[true]`, `[false]`, where only the assignment `[true]` of
row 0 is self-consistent, and the discrete variable `false` on entry, row 0 is
never tried and the resolution fails. -/
theorem mixed_fixed_point_counterexample :
    (∃ st tr, mixed_equation_system (stubBody (fun _ => false) (fun _ _ => true)) id
        (tableOf [false, false, true]) 1 3 1 () (fun _ => true) = some (st, tr) ∧
      st.found_solution = 1 ∧ st.cur_value_indx = 0 ∧ tr.length = 1) ∧
    (∃ st tr, mixed_equation_system (stubBody (fun _ => false) (fun _ _ => true)) id
        (tableOf [true, false]) 1 2 2 () (fun _ => false) = some (st, tr) ∧
      st.found_solution = -1 ∧ st.cur_value_indx = 2 ∧ tr.length = 2) := by
  constructor
  · have b0 := mixedBody_accept (stubBody (fun _ => false) (fun _ _ => true)) id
      (tableOf [false, false, true]) 1 3 ⟨(), 0, 0, fun _ => true, fun _ => 0, fun _ => 0, []⟩
      (by decide) (stubBody_consistent _ _ rfl)
    refine ⟨_, _, mixedLoop_exit (stubBody (fun _ => false) (fun _ _ => true)) id
      (tableOf [false, false, true]) 1 3 0
      ⟨(), 0, 0, fun _ => true, fun _ => 0, fun _ => 0, []⟩ []
      (by rw [b0]; exact one_ne_zero), by rw [b0], by rw [b0], rfl⟩
  · obtain ⟨s1, hs1, hv, hc1, hf1⟩ : ∃ s1 : MixedState Unit Bool,
        mixedBody (stubBody (fun _ => false) (fun _ _ => true)) id (tableOf [true, false]) 1 2
          ⟨(), 0, 0, fun _ => false, fun _ => 0, fun _ => 0, []⟩ = s1 ∧
        s1.vars 0 = false ∧ s1.cur_value_indx = 1 ∧ s1.found_solution = 0 :=
      ⟨_, mixedBody_advance (stubBody (fun _ => false) (fun _ _ => true)) id
        (tableOf [true, false]) 1 2 ⟨(), 0, 0, fun _ => false, fun _ => 0, fun _ => 0, []⟩
        (Or.inr (stubBody_inconsistent _ _ rfl)) (by decide), rfl, rfl, rfl⟩
    have b1 := mixedBody_exhaust (stubBody (fun _ => false) (fun _ _ => true)) id
      (tableOf [true, false]) 1 2 s1 (Or.inr (stubBody_inconsistent _ _ hv)) (by rw [hc1])
    refine ⟨mixedBody (stubBody (fun _ => false) (fun _ _ => true)) id (tableOf [true, false])
      1 2 s1, [(0, fun _ => false), (s1.cur_value_indx, s1.vars)], ?_, by rw [b1], ?_, rfl⟩
    · show mixedLoop _ id (tableOf [true, false]) 1 2 (1 + 1)
        ⟨(), 0, 0, fun _ => false, fun _ => 0, fun _ => 0, []⟩ [] = _
      rw [mixedLoop_continue _ id (tableOf [true, false]) 1 2 1 _ [] (by rw [hs1]; exact hf1),
        hs1, mixedLoop_exit _ id (tableOf [true, false]) 1 2 0 s1 _
          (by rw [b1]; exact (by decide : (-1 : ℤ) ≠ 0))]
      rfl
    · rw [b1]
      show s1.cur_value_indx + 1 = 2
      rw [hc1]

/-- C2 (amended): let `1 ≤ k < numValues/size`, let the continuous solve never
fail, let the discrete values on entry (with which the pass at index 0 is run)
not be self-consistent, and let row `k` be the only self-consistent row, a
pass on it leaving the discrete variables as assumed.  Then the resolver ends
with success (`found_solution = 1`) at candidate index `k`, after one pass at
each index `0..k`, with the discrete variables equal to row `k`. -/
theorem mixed_fixed_point {σ α β : Type} (body : Body σ β) (cast : α → β)
    (values : Nat → α) (size numValues k fuel : Nat) (env : σ) (vars : Nat → β)
    (hk1 : 1 ≤ k) (hk : k < numValues / size)
    (hsolve : ∀ e v, (body e v).found_solution ≠ -1)
    (hinit : ¬ selfConsistent body size env vars)
    (hrow : ∀ e v, isRow cast values size k v →
      selfConsistent body size e v ∧ ∀ i < size, (body e v).vars i = v i)
    (hother : ∀ e v j, j < numValues / size → j ≠ k → isRow cast values size j v →
      ¬ selfConsistent body size e v) :
    ∃ st tr, mixed_equation_system body cast values size numValues (fuel + k + 1) env vars =
        some (st, tr) ∧
      st.found_solution = 1 ∧ st.cur_value_indx = k ∧ isRow cast values size k st.vars ∧
      tr.map Prod.fst = List.range (k + 1) ∧
      ∀ e, tr.getLast? = some e → isRow cast values size k e.2 := by
  obtain ⟨st, tr, h1, h2, h3, h4, h5, h6⟩ :=
    mixedLoop_reaches_row body cast values size numValues k hk hsolve hrow hother k
      { env := env, found_solution := 0, cur_value_indx := 0, vars := vars
        discrete_loc := fun _ => 0, discrete_loc2 := fun _ => 0, reads := [] } [] fuel
      (by show 0 + k = k; omega) (fun h => absurd h (by omega)) (fun _ => hinit)
  refine ⟨st, tr, by simpa [mixed_equation_system] using h1, h2, h3, h4, ?_, h6⟩
  rw [h5]
  exact (List.range_eq_range' (k + 1)).symm

theorem mixed_fixed_point_witness :
    ∃ st tr, mixed_equation_system (stubBody (fun _ => false) (fun _ _ => true)) id
        (tableOf [false, false, true]) 1 3 (0 + 2 + 1) () (fun _ => false) = some (st, tr) ∧
      st.found_solution = 1 ∧ st.cur_value_indx = 2 ∧
      isRow id (tableOf [false, false, true]) 1 2 st.vars ∧
      tr.map Prod.fst = List.range (2 + 1) ∧
      ∀ e, tr.getLast? = some e → isRow id (tableOf [false, false, true]) 1 2 e.2 :=
  mixed_fixed_point (stubBody (fun _ => false) (fun _ _ => true)) id
    (tableOf [false, false, true]) 1 3 2 0 () (fun _ => false)
    (by decide) (by decide) (fun _ _ => (by decide : (0 : ℤ) ≠ -1))
    (stubBody_inconsistent _ _ rfl)
    (fun e v h => ⟨stubBody_consistent e v (h 0 (by decide)), fun i _ => by
      obtain rfl : i = 0 := by omega
      exact (h 0 (by decide)).symm⟩)
    (fun e v j hj hjk h => stubBody_inconsistent e v (by
      have hj3 : j < 3 := hj
      have h0 := h 0 (by decide)
      interval_cases j
      · exact h0
      · exact h0
      · exact absurd rfl hjk))


/-! ## Analytic-Jacobian driver: improper input -/

/-- An `ImproperInput` pass of the analytic-Jacobian driver ends the loop with
the state exactly as the kernel left it: no status variable is written. -/
theorem solveBody_analytic_jac_improper (E : Int) (kernel : Kernel) (c : Nat) (s : NlsState)
    (hi : (kernel c { s with giveUp := true }).info = 0) :
    solveBody_analytic_jac E kernel c s =
      { call := c
        input := { s with giveUp := true }
        output := callKernel kernel c { s with giveUp := true }
        action := Action.stop } := by
  have h0 : (callKernel kernel c { s with giveUp := true }).info = 0 := hi
  have hl : ladder_analytic_jac E (callKernel kernel c { s with giveUp := true }) =
      (callKernel kernel c { s with giveUp := true }, Action.stop) := by
    unfold ladder_analytic_jac
    rw [if_neg (by omega), if_neg (by omega), if_neg (by omega)]
  simp only [solveBody_analytic_jac, hl]

/-- C11: the code at the failing input.  With a kernel that answers
`ImproperInput` (`info = 0`) and both status variables 0 on entry, the
analytic-Jacobian driver ends after one kernel call with `found_solution` and
`modelErrorCode` still 0, so the caller sees no failed status; the
derivative-free driver on the same input ends with `found_solution = -1`. -/
theorem analytic_jac_improper_input_unreported :
    (∃ r tr, solve_nonlinear_system_analytic_jac 7 (constKernel 0) 2
        (start_nonlinear_system 1 (fun _ => 0) 0 0) = some (r, tr) ∧
      tr.length = 1 ∧ r.info = 0 ∧ r.found_solution = 0 ∧ r.modelErrorCode = 0) ∧
    (∃ r tr, solve_nonlinear_system 7 (constKernel 0) 2
        (start_nonlinear_system 1 (fun _ => 0) 0 0) = some (r, tr) ∧
      tr.length = 1 ∧ r.info = 0 ∧ r.found_solution = -1) := by
  constructor
  · have hb := solveBody_analytic_jac_improper 7 (constKernel 0) 0
      (solveEntry_analytic_jac (start_nonlinear_system 1 (fun _ => 0) 0 0)) rfl
    refine ⟨(solveBody_analytic_jac 7 (constKernel 0) 0
        (solveEntry_analytic_jac (start_nonlinear_system 1 (fun _ => 0) 0 0))).output,
      [solveBody_analytic_jac 7 (constKernel 0) 0
        (solveEntry_analytic_jac (start_nonlinear_system 1 (fun _ => 0) 0 0))], ?_, rfl, ?_⟩
    · have hg : (solveBody_analytic_jac 7 (constKernel 0) 0
          (solveEntry_analytic_jac (start_nonlinear_system 1 (fun _ => 0) 0 0))).output.giveUp =
          true := by rw [hb]; rfl
      exact (solveLoop_analytic_jac_pass 7 (constKernel 0) 1 _ [] rfl).trans
        (solveLoop_analytic_jac_giveUp 7 (constKernel 0) 0 _ _ hg)
    · rw [hb]
      exact ⟨rfl, rfl, rfl⟩
  · have hb := solveBody_improper 7 (constKernel 0) 0
      (solveEntry (start_nonlinear_system 1 (fun _ => 0) 0 0)) rfl
    have hg : (solveBody 7 (constKernel 0) 0
        (solveEntry (start_nonlinear_system 1 (fun _ => 0) 0 0))).output.giveUp = true := by
      rw [hb]; rfl
    refine ⟨(solveBody 7 (constKernel 0) 0
        (solveEntry (start_nonlinear_system 1 (fun _ => 0) 0 0))).output,
      [solveBody 7 (constKernel 0) 0 (solveEntry (start_nonlinear_system 1 (fun _ => 0) 0 0))],
      solveLoop_last 7 (constKernel 0) 0 _ [] rfl hg, rfl, ?_⟩
    rw [hb]
    exact ⟨rfl, rfl⟩

/-! ## Mixed systems: acceptance, exhaustion, termination -/

/-- The three ways a pass can end: accepted with the index kept, advanced to a
further row, or failed with the rows used up. -/
theorem mixedBody_cases {σ α β : Type} (body : Body σ β) (cast : α → β) (values : Nat → α)
    (size numValues : Nat) (s : MixedState σ β) :
    ((body s.env s.vars).found_solution ≠ -1 ∧ selfConsistent body size s.env s.vars ∧
        (mixedBody body cast values size numValues s).found_solution = 1 ∧
        (mixedBody body cast values size numValues s).cur_value_indx = s.cur_value_indx) ∨
      (((body s.env s.vars).found_solution = -1 ∨ ¬ selfConsistent body size s.env s.vars) ∧
        s.cur_value_indx + 1 < numValues / size ∧
        (mixedBody body cast values size numValues s).found_solution = 0 ∧
        (mixedBody body cast values size numValues s).cur_value_indx = s.cur_value_indx + 1 ∧
        isRow cast values size (s.cur_value_indx + 1)
          (mixedBody body cast values size numValues s).vars) ∨
      (((body s.env s.vars).found_solution = -1 ∨ ¬ selfConsistent body size s.env s.vars) ∧
        numValues / size ≤ s.cur_value_indx + 1 ∧
        (mixedBody body cast values size numValues s).found_solution = -1 ∧
        (mixedBody body cast values size numValues s).cur_value_indx = s.cur_value_indx + 1) := by
  by_cases hacc : (body s.env s.vars).found_solution ≠ -1 ∧ selfConsistent body size s.env s.vars
  · have hb := mixedBody_accept body cast values size numValues s hacc.1 hacc.2
    exact Or.inl ⟨hacc.1, hacc.2, by rw [hb], by rw [hb]⟩
  · have hn : (body s.env s.vars).found_solution = -1 ∨ ¬ selfConsistent body size s.env s.vars := by
      by_cases hf : (body s.env s.vars).found_solution = -1
      · exact Or.inl hf
      · exact Or.inr (fun hc => hacc ⟨hf, hc⟩)
    by_cases hlt : s.cur_value_indx + 1 < numValues / size
    · have hb := mixedBody_advance body cast values size numValues s hn hlt
      refine Or.inr (Or.inl ⟨hn, hlt, by rw [hb], by rw [hb], ?_⟩)
      intro i hi
      rw [hb]
      show (if i < size then _ else _) = _
      rw [if_pos hi]
    · have hb := mixedBody_exhaust body cast values size numValues s hn (by omega)
      exact Or.inr (Or.inr ⟨hn, by omega, by rw [hb], by rw [hb]⟩)

/-- The loop of the mixed-system resolver ends for every generated code: from
index `j` at most `max 1 (count - j)` passes are made, the passes run at
consecutive indices, and the loop leaves with the flag 1 or `-1`. -/
theorem mixedLoop_terminates {σ α β : Type} (body : Body σ β) (cast : α → β)
    (values : Nat → α) (size numValues : Nat) :
    ∀ (d : Nat) (s : MixedState σ β) (tr : List (Nat × (Nat → β))) (fuel : Nat),
      numValues / size - (s.cur_value_indx + 1) ≤ d →
      ∃ st tr2, mixedLoop body cast values size numValues (fuel + d + 1) s tr =
          some (st, tr ++ tr2) ∧
        tr2.length ≤ d + 1 ∧ tr2.map Prod.fst = List.range' s.cur_value_indx tr2.length ∧
        (st.found_solution = 1 ∨ st.found_solution = -1) := by
  intro d
  induction d with
  | zero =>
    intro s tr fuel hd
    rcases mixedBody_cases body cast values size numValues s with
      ⟨_, _, h1, _⟩ | ⟨_, hlt, _⟩ | ⟨_, _, h1, _⟩
    · exact ⟨_, [(s.cur_value_indx, s.vars)],
        mixedLoop_exit body cast values size numValues fuel s tr (by rw [h1]; exact one_ne_zero),
        by simp, rfl, Or.inl h1⟩
    · omega
    · exact ⟨_, [(s.cur_value_indx, s.vars)],
        mixedLoop_exit body cast values size numValues fuel s tr
          (by rw [h1]; exact (by decide : (-1 : ℤ) ≠ 0)),
        by simp, rfl, Or.inr h1⟩
  | succ d ih =>
    intro s tr fuel hd
    rcases mixedBody_cases body cast values size numValues s with
      ⟨_, _, h1, _⟩ | ⟨_, hlt, h0, hc, _⟩ | ⟨_, _, h1, _⟩
    · exact ⟨_, [(s.cur_value_indx, s.vars)],
        mixedLoop_exit body cast values size numValues _ s tr (by rw [h1]; exact one_ne_zero),
        by simp, rfl, Or.inl h1⟩
    · obtain ⟨st, tr2, e1, e2, e3, e4⟩ :=
        ih (mixedBody body cast values size numValues s) (tr ++ [(s.cur_value_indx, s.vars)]) fuel
          (by rw [hc]; omega)
      refine ⟨st, (s.cur_value_indx, s.vars) :: tr2, ?_, by simp; omega, ?_, e4⟩
      · rw [show fuel + (d + 1) + 1 = (fuel + d + 1) + 1 by omega,
          mixedLoop_continue body cast values size numValues _ s tr h0, e1]
        simp
      · rw [List.map_cons, e3, hc]
        rfl
    · exact ⟨_, [(s.cur_value_indx, s.vars)],
        mixedLoop_exit body cast values size numValues _ s tr
          (by rw [h1]; exact (by decide : (-1 : ℤ) ≠ 0)),
        by simp, rfl, Or.inr h1⟩

/-- When neither the pass at the current index nor a pass on any later row is
accepted, the loop walks through all rows and fails. -/
theorem mixedLoop_exhausts {σ α β : Type} (body : Body σ β) (cast : α → β)
    (values : Nat → α) (size numValues : Nat)
    (hrows : ∀ e v j, 1 ≤ j → j < numValues / size → isRow cast values size j v →
      (body e v).found_solution = -1 ∨ ¬ selfConsistent body size e v) :
    ∀ (d : Nat) (s : MixedState σ β) (tr : List (Nat × (Nat → β))) (fuel : Nat),
      numValues / size - (s.cur_value_indx + 1) = d →
      ((body s.env s.vars).found_solution = -1 ∨ ¬ selfConsistent body size s.env s.vars) →
      ∃ st tr2, mixedLoop body cast values size numValues (fuel + d + 1) s tr =
          some (st, tr ++ tr2) ∧
        st.found_solution = -1 ∧ st.cur_value_indx = s.cur_value_indx + d + 1 ∧
        tr2.length = d + 1 := by
  intro d
  induction d with
  | zero =>
    intro s tr fuel hd hn
    have hb := mixedBody_exhaust body cast values size numValues s hn (by omega)
    exact ⟨_, [(s.cur_value_indx, s.vars)],
      mixedLoop_exit body cast values size numValues fuel s tr
        (by rw [hb]; exact (by decide : (-1 : ℤ) ≠ 0)),
      by rw [hb], by rw [hb], rfl⟩
  | succ d ih =>
    intro s tr fuel hd hn
    have hlt : s.cur_value_indx + 1 < numValues / size := by omega
    have hb := mixedBody_advance body cast values size numValues s hn hlt
    have hc : (mixedBody body cast values size numValues s).cur_value_indx =
        s.cur_value_indx + 1 := by rw [hb]
    have hrow : isRow cast values size (s.cur_value_indx + 1)
        (mixedBody body cast values size numValues s).vars := by
      intro i hi
      rw [hb]
      show (if i < size then _ else _) = _
      rw [if_pos hi]
    obtain ⟨st, tr2, e1, e2, e3, e4⟩ :=
      ih (mixedBody body cast values size numValues s) (tr ++ [(s.cur_value_indx, s.vars)]) fuel
        (by rw [hc]; omega) (hrows _ _ (s.cur_value_indx + 1) (by omega) hlt hrow)
    refine ⟨st, (s.cur_value_indx, s.vars) :: tr2, ?_, e2, by rw [e3, hc]; omega, by simp [e4]⟩
    rw [show fuel + (d + 1) + 1 = (fuel + d + 1) + 1 by omega,
      mixedLoop_continue body cast values size numValues _ s tr (by rw [hb]), e1]
    simp

/-- C12: when neither the discrete values on entry nor any row the resolver
substitutes (rows `1..count-1`) gives an accepted pass, the resolution ends
with `found_solution = -1` once the candidate index has reached
`count = numValues/size` (it ends at `max 1 count`), after one pass per index;
it does not report success. -/
theorem mixed_exhaustion_fails {σ α β : Type} (body : Body σ β) (cast : α → β)
    (values : Nat → α) (size numValues fuel : Nat) (env : σ) (vars : Nat → β)
    (hinit : (body env vars).found_solution = -1 ∨ ¬ selfConsistent body size env vars)
    (hrows : ∀ e v j, 1 ≤ j → j < numValues / size → isRow cast values size j v →
      (body e v).found_solution = -1 ∨ ¬ selfConsistent body size e v) :
    ∃ st tr, mixed_equation_system body cast values size numValues
        (fuel + max 1 (numValues / size)) env vars = some (st, tr) ∧
      st.found_solution = -1 ∧ st.found_solution ≠ 1 ∧
      numValues / size ≤ st.cur_value_indx ∧
      st.cur_value_indx = max 1 (numValues / size) ∧
      tr.length = max 1 (numValues / size) := by
  obtain ⟨st, tr, h1, h2, h3, h4⟩ :=
    mixedLoop_exhausts body cast values size numValues hrows (numValues / size - 1)
      { env := env, found_solution := 0, cur_value_indx := 0, vars := vars
        discrete_loc := fun _ => 0, discrete_loc2 := fun _ => 0, reads := [] } [] fuel
      rfl hinit
  have hm : max 1 (numValues / size) = numValues / size - 1 + 1 := by omega
  have h3' : st.cur_value_indx = numValues / size - 1 + 1 := by
    rw [h3]; show 0 + (numValues / size - 1) + 1 = _; omega
  refine ⟨st, tr, ?_, h2, by rw [h2]; decide, by omega, by omega, by omega⟩
  rw [hm]
  simpa [mixed_equation_system, Nat.add_assoc] using h1

theorem mixed_exhaustion_fails_witness :
    ∃ st tr, mixed_equation_system (stubBody (fun _ => false) (fun _ _ => true)) id
        (tableOf [false, false, false]) 1 3 (0 + max 1 (3 / 1)) () (fun _ => false) =
        some (st, tr) ∧
      st.found_solution = -1 ∧ st.found_solution ≠ 1 ∧ 3 / 1 ≤ st.cur_value_indx ∧
      st.cur_value_indx = max 1 (3 / 1) ∧ tr.length = max 1 (3 / 1) :=
  mixed_exhaustion_fails (stubBody (fun _ => false) (fun _ _ => true)) id
    (tableOf [false, false, false]) 1 3 0 () (fun _ => false)
    (Or.inr (stubBody_inconsistent _ _ rfl))
    (fun e v j _ hj h => Or.inr (stubBody_inconsistent e v (by
      have hj3 : j < 3 := hj
      have h0 := h 0 (by decide)
      interval_cases j
      · exact h0
      · exact h0)))

/-- C13: for every candidate table and every behaviour of the generated code
(continuous solve failing or not, any discrete outputs) the resolver loop
ends: a budget of `max 1 (numValues/size)` passes is enough, at most that many
passes are made, they run at the consecutive indices `0, 1, 2, ...`, and the
loop leaves with the flag 1 or `-1`; a pass that does not accept raises the
candidate index by exactly one. -/
theorem mixed_terminates {σ α β : Type} (body : Body σ β) (cast : α → β)
    (values : Nat → α) (size numValues fuel : Nat) (env : σ) (vars : Nat → β) :
    (∃ st tr, mixed_equation_system body cast values size numValues
        (fuel + max 1 (numValues / size)) env vars = some (st, tr) ∧
      tr.length ≤ max 1 (numValues / size) ∧
      tr.map Prod.fst = List.range tr.length ∧
      (st.found_solution = 1 ∨ st.found_solution = -1)) ∧
    ∀ s : MixedState σ β,
      (mixedBody body cast values size numValues s).found_solution ≠ 1 →
      (mixedBody body cast values size numValues s).cur_value_indx = s.cur_value_indx + 1 := by
  constructor
  · obtain ⟨st, tr, h1, h2, h3, h4⟩ :=
      mixedLoop_terminates body cast values size numValues (numValues / size - 1)
        { env := env, found_solution := 0, cur_value_indx := 0, vars := vars
          discrete_loc := fun _ => 0, discrete_loc2 := fun _ => 0, reads := [] } [] fuel
        (le_refl _)
    have hm : max 1 (numValues / size) = numValues / size - 1 + 1 := by omega
    refine ⟨st, tr, ?_, by omega, ?_, h4⟩
    · rw [hm]
      simpa [mixed_equation_system, Nat.add_assoc] using h1
    · rw [h3]
      exact (List.range_eq_range' tr.length).symm
  · intro s hs
    rcases mixedBody_cases body cast values size numValues s with
      ⟨_, _, h1, _⟩ | ⟨_, _, _, hc, _⟩ | ⟨_, _, _, hc⟩
    · exact absurd h1 hs
    · exact hc
    · exact hc

/-- C14: after a continuous solve that did not fail, `check_discrete_values`
accepts the candidate (`found_solution = 1`) exactly when every component
`i < size` has `|discrete_loc[i] - discrete_loc2[i]| <= 1e-12`; a single
component differing by more than `1e-12` makes the pass a mismatch (flag 0 or
`-1`, candidate index advanced). -/
theorem acceptance_criterion {σ α β : Type} (cast : α → β) (values : Nat → α)
    (size numValues : Nat) (s : MixedState σ β) (hf : s.found_solution ≠ -1) :
    ((check_discrete_values cast values size numValues s).found_solution = 1 ↔
        ∀ i < size, |s.discrete_loc i - s.discrete_loc2 i| ≤ 1 / 1000000000000) ∧
      ((∃ i < size, |s.discrete_loc i - s.discrete_loc2 i| > 1 / 1000000000000) →
        ((check_discrete_values cast values size numValues s).found_solution = 0 ∨
          (check_discrete_values cast values size numValues s).found_solution = -1) ∧
        (check_discrete_values cast values size numValues s).cur_value_indx =
          s.cur_value_indx + 1) := by
  have hmis : (¬ ∀ i < size, |s.discrete_loc i - s.discrete_loc2 i| ≤ 1 / 1000000000000) →
      ((check_discrete_values cast values size numValues s).found_solution = 0 ∨
          (check_discrete_values cast values size numValues s).found_solution = -1) ∧
        (check_discrete_values cast values size numValues s).cur_value_indx =
          s.cur_value_indx + 1 := by
    intro hn
    by_cases hlt : s.cur_value_indx + 1 < numValues / size
    · rw [check_advance cast values size numValues s (Or.inr hn) hlt]
      exact ⟨Or.inl rfl, rfl⟩
    · rw [check_exhaust cast values size numValues s (Or.inr hn) (by omega)]
      exact ⟨Or.inr rfl, rfl⟩
  constructor
  · constructor
    · intro h1
      by_contra hn
      rcases (hmis hn).1 with h | h
      · rw [h] at h1; exact absurd h1 (by decide)
      · rw [h] at h1; exact absurd h1 (by decide)
    · intro hall
      rw [check_accept cast values size numValues s hf hall]
  · rintro ⟨i, hi, hgt⟩
    exact hmis (fun hall => absurd (hall i hi) (not_le.mpr hgt))

theorem acceptance_criterion_witness :
    ((check_discrete_values id (tableOf [false, true]) 1 2
          (⟨(), 0, 0, fun _ => false, fun _ => 0, fun _ => 1, []⟩ :
            MixedState Unit Bool)).found_solution = 0 ∨
        (check_discrete_values id (tableOf [false, true]) 1 2
          (⟨(), 0, 0, fun _ => false, fun _ => 0, fun _ => 1, []⟩ :
            MixedState Unit Bool)).found_solution = -1) ∧
      (check_discrete_values id (tableOf [false, true]) 1 2
          (⟨(), 0, 0, fun _ => false, fun _ => 0, fun _ => 1, []⟩ :
            MixedState Unit Bool)).cur_value_indx = 0 + 1 :=
  (acceptance_criterion id (tableOf [false, true]) 1 2
    (⟨(), 0, 0, fun _ => false, fun _ => 0, fun _ => 1, []⟩ : MixedState Unit Bool)
    (by decide)).2 ⟨0, by decide, by norm_num⟩

/-! ## Linear solve wrapper: status -/

/-- C15: when the LU kernel is reached, `solve_linear_equation_system` calls it
exactly once and returns; it sets `found_solution = -1` when the reported
`info` is negative and likewise when it is positive, and leaves
`found_solution` as it was when `info = 0`; the matrix and the right-hand side
are as the kernel left them in all three cases. -/
theorem linear_status (dgesv : Dgesv) (size : Nat) (s : LinState) :
    ∃ r, solve_linear_equation_system dgesv true size s = some r ∧
      r.calls = 1 ∧
      r.info = (dgesv size 1 s.A size (fun _ => 0) s.b size).info ∧
      r.state.A = (dgesv size 1 s.A size (fun _ => 0) s.b size).a ∧
      r.state.b = (dgesv size 1 s.A size (fun _ => 0) s.b size).b ∧
      (r.info < 0 → r.state.found_solution = -1) ∧
      (r.info > 0 → r.state.found_solution = -1) ∧
      (r.info = 0 → r.state.found_solution = s.found_solution) ∧
      (r.state.found_solution ≠ s.found_solution → r.info ≠ 0) := by
  unfold solve_linear_equation_system
  simp only [if_true]
  generalize dgesv size 1 s.A size (fun _ => 0) s.b size = o
  by_cases hneg : o.info < 0
  · rw [if_pos hneg]
    refine ⟨_, rfl, rfl, rfl, rfl, rfl, fun _ => rfl, fun _ => rfl, ?_, ?_⟩
    · intro h
      have h0 : o.info = 0 := h
      omega
    · intro _ h
      have h0 : o.info = 0 := h
      omega
  · rw [if_neg hneg]
    by_cases hpos : o.info > 0
    · rw [if_pos hpos]
      refine ⟨_, rfl, rfl, rfl, rfl, rfl, fun _ => rfl, fun _ => rfl, ?_, ?_⟩
      · intro h
        have h0 : o.info = 0 := h
        omega
      · intro _ h
        have h0 : o.info = 0 := h
        omega
    · rw [if_neg hpos]
      exact ⟨_, rfl, rfl, rfl, rfl, rfl, fun h => absurd h hneg, fun h => absurd h hpos,
        fun _ => rfl, fun h => absurd rfl h⟩

/-! ## Nonlinear driver: the tiers -/

/-- The ladder applies the state change of the branch it reports. -/
theorem ladder_fst (E : Int) (s : NlsState) :
    (ladder E s).1 = applyAction E (ladder E s).2 s := by
  refine ladder_elim E s (fun r => r.1 = applyAction E r.2 s) ?_ ?_ ?_ ?_ ?_ ?_ ?_ ?_ ?_ ?_
  all_goals intros; rfl

/-- The branch the ladder reports, by the outcome code and the counters. -/
theorem ladder_snd (E : Int) (s : NlsState) :
    ((s.info = 4 ∨ s.info = 5) →
      (s.retries < 3 → (ladder E s).2 = Action.tier1) ∧
      (3 ≤ s.retries → s.retries < 5 → (ladder E s).2 = Action.tier2) ∧
      (5 ≤ s.retries → s.retries < 7 → (ladder E s).2 = Action.tier3) ∧
      (7 ≤ s.retries → s.retries < 9 → (ladder E s).2 = Action.tier4) ∧
      (9 ≤ s.retries → s.retries2 < 1 → (ladder E s).2 = Action.tier5) ∧
      (9 ≤ s.retries → 1 ≤ s.retries2 → s.retries3 < 1 → (ladder E s).2 = Action.tier6) ∧
      (9 ≤ s.retries → 1 ≤ s.retries2 → s.retries3 = 1 → (ladder E s).2 = Action.tier7) ∧
      (9 ≤ s.retries → 1 ≤ s.retries2 → s.retries3 = 2 → (ladder E s).2 = Action.tier8) ∧
      (9 ≤ s.retries → 1 ≤ s.retries2 → 3 ≤ s.retries3 → (ladder E s).2 = Action.failed)) ∧
    ((s.info = 2 ∨ s.info = 3) → (ladder E s).2 = Action.failed) ∧
    ((s.info < 2 ∨ 5 < s.info) → (ladder E s).2 = Action.stop) := by
  refine ladder_elim E s (fun r =>
    ((s.info = 4 ∨ s.info = 5) →
      (s.retries < 3 → r.2 = Action.tier1) ∧
      (3 ≤ s.retries → s.retries < 5 → r.2 = Action.tier2) ∧
      (5 ≤ s.retries → s.retries < 7 → r.2 = Action.tier3) ∧
      (7 ≤ s.retries → s.retries < 9 → r.2 = Action.tier4) ∧
      (9 ≤ s.retries → s.retries2 < 1 → r.2 = Action.tier5) ∧
      (9 ≤ s.retries → 1 ≤ s.retries2 → s.retries3 < 1 → r.2 = Action.tier6) ∧
      (9 ≤ s.retries → 1 ≤ s.retries2 → s.retries3 = 1 → r.2 = Action.tier7) ∧
      (9 ≤ s.retries → 1 ≤ s.retries2 → s.retries3 = 2 → r.2 = Action.tier8) ∧
      (9 ≤ s.retries → 1 ≤ s.retries2 → 3 ≤ s.retries3 → r.2 = Action.failed)) ∧
    ((s.info = 2 ∨ s.info = 3) → r.2 = Action.failed) ∧
    ((s.info < 2 ∨ 5 < s.info) → r.2 = Action.stop)) ?_ ?_ ?_ ?_ ?_ ?_ ?_ ?_ ?_ ?_
  all_goals
    intros
    refine ⟨fun _ => ⟨fun _ => ?_, fun _ _ => ?_, fun _ _ => ?_, fun _ _ => ?_, fun _ _ => ?_,
      fun _ _ _ => ?_, fun _ _ _ => ?_, fun _ _ _ => ?_, fun _ _ _ => ?_⟩, fun _ => ?_, fun _ => ?_⟩
    all_goals first
      | rfl
      | omega

/-- A pass after which the kernel did not answer `ImproperInput`: its output
and branch are those of the ladder on the state the kernel left. -/
theorem solveBody_of_ne_zero (E : Int) (kernel : Kernel) (c : Nat) (s : NlsState)
    (hi : (kernel c { s with giveUp := true }).info ≠ 0) :
    solveBody E kernel c s =
      { call := c
        input := { s with giveUp := true }
        output := applyAction E (ladder E (callKernel kernel c { s with giveUp := true })).2
          (callKernel kernel c { s with giveUp := true })
        action := (ladder E (callKernel kernel c { s with giveUp := true })).2 } := by
  have h0 : ¬ (callKernel kernel c { s with giveUp := true }).info = 0 := hi
  simp only [solveBody, kernelPass, improperInput, if_neg h0]
  rw [ladder_fst]

/-- C18: a `NoProgress` pass (`info` 4 or 5) entered with `retries = r < 9`
takes tier 1 for `r < 3` (`factor / 10`, `x` as the kernel left it), tier 2 for
`3 <= r < 5` (`x[i] + 0.1` for `i < n`), tier 3 for `5 <= r < 7`
(`x[i] = xEx[i] * 1.01`), tier 4 for `7 <= r < 9` (`x[i] = xEx[i] * 0.99`); in
every case `retries` grows by one, `factor` is kept in tiers 2-4, `diag` is as
the kernel left it, `diagSave`, `mode`, `retries2`, `retries3` are unchanged,
and the loop goes on to a further kernel call. -/
theorem tiers_one_to_four (E : Int) (kernel : Kernel) (c fuel : Nat) (s : NlsState)
    (tr : List Pass) (hg : s.giveUp = false) (hc : tr.length = c)
    (hi : (kernel c { s with giveUp := true }).info = 4 ∨
      (kernel c { s with giveUp := true }).info = 5)
    (hr : s.retries < 9) :
    (s.retries < 3 →
        (solveBody E kernel c s).action = Action.tier1 ∧
        (solveBody E kernel c s).output.factor = s.factor / 10 ∧
        (solveBody E kernel c s).output.nls_x = (kernel c { s with giveUp := true }).nls_x) ∧
      (3 ≤ s.retries → s.retries < 5 →
        (solveBody E kernel c s).action = Action.tier2 ∧
        (solveBody E kernel c s).output.factor = s.factor ∧
        ∀ i < s.n, (solveBody E kernel c s).output.nls_x i =
          (kernel c { s with giveUp := true }).nls_x i + 1 / 10) ∧
      (5 ≤ s.retries → s.retries < 7 →
        (solveBody E kernel c s).action = Action.tier3 ∧
        (solveBody E kernel c s).output.factor = s.factor ∧
        ∀ i < s.n, (solveBody E kernel c s).output.nls_x i = s.nls_xEx i * (101 / 100)) ∧
      (7 ≤ s.retries → s.retries < 9 →
        (solveBody E kernel c s).action = Action.tier4 ∧
        (solveBody E kernel c s).output.factor = s.factor ∧
        ∀ i < s.n, (solveBody E kernel c s).output.nls_x i = s.nls_xEx i * (99 / 100)) ∧
      (solveBody E kernel c s).output.retries = s.retries + 1 ∧
      (solveBody E kernel c s).output.giveUp = false ∧
      (solveBody E kernel c s).output.nls_diag = (kernel c { s with giveUp := true }).nls_diag ∧
      (solveBody E kernel c s).output.nls_diagSave = s.nls_diagSave ∧
      (solveBody E kernel c s).output.mode = s.mode ∧
      (solveBody E kernel c s).output.retries2 = s.retries2 ∧
      (solveBody E kernel c s).output.retries3 = s.retries3 ∧
      solveLoop E kernel (fuel + 2) s tr =
        solveLoop E kernel fuel
          (solveBody E kernel (c + 1) (solveBody E kernel c s).output).output
          (tr ++ [solveBody E kernel c s,
            solveBody E kernel (c + 1) (solveBody E kernel c s).output]) := by
  have hb := solveBody_of_ne_zero E kernel c s (by omega)
  have hi2 : (callKernel kernel c { s with giveUp := true }).info = 4 ∨
      (callKernel kernel c { s with giveUp := true }).info = 5 := hi
  have hr2 : (callKernel kernel c { s with giveUp := true }).retries = s.retries := rfl
  obtain ⟨h1, h2, h3, h4, -⟩ := (ladder_snd E (callKernel kernel c { s with giveUp := true })).1 hi2
  rw [hr2] at h1 h2 h3 h4
  have hloop : (solveBody E kernel c s).output.giveUp = false →
      solveLoop E kernel (fuel + 2) s tr =
        solveLoop E kernel fuel
          (solveBody E kernel (c + 1) (solveBody E kernel c s).output).output
          (tr ++ [solveBody E kernel c s,
            solveBody E kernel (c + 1) (solveBody E kernel c s).output]) := by
    intro hgo
    subst hc
    rw [solveLoop_pass E kernel (fuel + 1) s tr hg, solveLoop_pass E kernel fuel _ _ hgo]
    simp
  have hcases : s.retries < 3 ∨ (3 ≤ s.retries ∧ s.retries < 5) ∨
      (5 ≤ s.retries ∧ s.retries < 7) ∨ (7 ≤ s.retries ∧ s.retries < 9) := by omega
  rcases hcases with ha | ⟨ha, ha'⟩ | ⟨ha, ha'⟩ | ⟨ha, ha'⟩
  · rw [h1 ha] at hb
    refine ⟨fun _ => ?_, fun _ _ => by omega, fun _ _ => by omega, fun _ _ => by omega,
      ?_, ?_, ?_, ?_, ?_, ?_, ?_, hloop (by rw [hb]; rfl)⟩
    all_goals rw [hb]
    all_goals first
      | rfl
      | exact ⟨rfl, rfl, rfl⟩
  · rw [h2 ha ha'] at hb
    refine ⟨fun _ => by omega, fun _ _ => ?_, fun _ _ => by omega, fun _ _ => by omega,
      ?_, ?_, ?_, ?_, ?_, ?_, ?_, hloop (by rw [hb]; rfl)⟩
    all_goals rw [hb]
    all_goals first
      | rfl
      | skip
    refine ⟨rfl, rfl, fun i hi => ?_⟩
    show (if i < s.n then _ else _) = _
    rw [if_pos hi]
    rfl
  · rw [h3 ha ha'] at hb
    refine ⟨fun _ => by omega, fun _ _ => by omega, fun _ _ => ?_, fun _ _ => by omega,
      ?_, ?_, ?_, ?_, ?_, ?_, ?_, hloop (by rw [hb]; rfl)⟩
    all_goals rw [hb]
    all_goals first
      | rfl
      | skip
    refine ⟨rfl, rfl, fun i hi => ?_⟩
    show (if i < s.n then _ else _) = _
    rw [if_pos hi]
    rfl
  · rw [h4 ha ha'] at hb
    refine ⟨fun _ => by omega, fun _ _ => by omega, fun _ _ => by omega, fun _ _ => ?_,
      ?_, ?_, ?_, ?_, ?_, ?_, ?_, hloop (by rw [hb]; rfl)⟩
    all_goals rw [hb]
    all_goals first
      | rfl
      | skip
    refine ⟨rfl, rfl, fun i hi => ?_⟩
    show (if i < s.n then _ else _) = _
    rw [if_pos hi]
    rfl

theorem tiers_one_to_four_witness :
    (solveBody 7 (constKernel 4) 0
        (solveEntry (start_nonlinear_system 2 (fun _ => 0) 0 0))).output.retries =
      (solveEntry (start_nonlinear_system 2 (fun _ => 0) 0 0)).retries + 1 :=
  (tiers_one_to_four 7 (constKernel 4) 0 0 (solveEntry (start_nonlinear_system 2 (fun _ => 0) 0 0))
    [] rfl rfl (Or.inl rfl) (by show (0 : ℕ) < 9; decide)).2.2.2.2.1

/-- The kernel call and the `info == 0` test leave the saved scaling alone. -/
theorem kernelPass_diagSave (kernel : Kernel) (c : Nat) (s : NlsState) :
    (kernelPass kernel c s).nls_diagSave = s.nls_diagSave ∧
      (kernelPass kernel c s).nls_xEx = s.nls_xEx ∧
      (kernelPass kernel c s).nls_xold = s.nls_xold := by
  unfold kernelPass improperInput
  split <;> exact ⟨rfl, rfl, rfl⟩

/-- In a run of `solve_nonlinear_system` the saved scaling stays the scale
vector supplied on entry, so a tier-6 pass restores that vector. -/
theorem tier6_restores_entry_diag (E : Int) (kernel : Kernel) (s0 : NlsState) (fuel : Nat)
    (r : NlsState) (tr : List Pass)
    (h : solve_nonlinear_system E kernel fuel s0 = some (r, tr)) :
    ∀ p ∈ tr, p.action = Action.tier6 → ∀ i < s0.n, p.output.nls_diag i = s0.nls_diag i := by
  have key : ∀ (c : Nat) (u : NlsState),
      (u.n = s0.n ∧ ∀ i < s0.n, u.nls_diagSave i = s0.nls_diag i) →
      (solveBody E kernel c u).action = Action.tier6 →
      ∀ i < s0.n, (solveBody E kernel c u).output.nls_diag i = s0.nls_diag i := by
    intro c u hu ha i hi
    have ha' : (ladder E (kernelPass kernel c u)).2 = Action.tier6 := ha
    have ho : (solveBody E kernel c u).output = tier6 (kernelPass kernel c u) := by
      show (ladder E (kernelPass kernel c u)).1 = _
      rw [ladder_fst, ha']
      rfl
    rw [ho]
    show (if i < (kernelPass kernel c u).n then (kernelPass kernel c u).nls_diagSave i
      else (kernelPass kernel c u).nls_diag i) = _
    rw [(kernelPass_frame kernel c u).2.2.2.2.2.2.2.1, hu.1, if_pos hi,
      (kernelPass_diagSave kernel c u).1, hu.2 i hi]
  obtain ⟨tr2, t, e1, e2, _, _, _, e6⟩ :=
    solveLoop_trace E kernel (fun u => u.n = s0.n ∧ ∀ i < s0.n, u.nls_diagSave i = s0.nls_diag i)
      (by
        intro c u hu _ _
        constructor
        · show (ladder E (kernelPass kernel c u)).1.n = s0.n
          rw [(ladder_frame E _).1, (kernelPass_frame kernel c u).2.2.2.2.2.2.2.1, hu.1]
        · intro i hi
          show (ladder E (kernelPass kernel c u)).1.nls_diagSave i = _
          rw [(ladder_frame E _).2.2.2.2.2.1, (kernelPass_diagSave kernel c u).1, hu.2 i hi])
      fuel (solveEntry s0) [] r tr h
      ⟨rfl, fun i hi => by
        show (if i < s0.n then s0.nls_diag i else s0.nls_diagSave i) = _
        rw [if_pos hi]⟩ rfl
  intro p hp ha
  rw [e1] at hp
  simp only [List.nil_append, List.mem_append, List.mem_singleton] at hp
  rcases hp with hp | rfl
  · obtain ⟨u, hu, _, hpu, _⟩ := e6 p hp
    rw [hpu] at ha ⊢
    exact key _ u hu ha
  · exact key _ t e2 ha

/-- C19: a `NoProgress` pass entered with `retries >= 9` takes tier 5 when
`retries2 < 1` (`x := xold`, `factor := initial_factor`, `retries := 0`,
`retries2 + 1`, `diag` and `mode` kept), else tier 6 when `retries3 < 1`
(`diag := diagSave`, `mode := 2`, `x` kept), else tier 7 when `retries3 < 2`
(`x := xEx`, `diag[i] := max(1e-2, |xEx[i]|)`, `mode := 1`), else tier 8 when
`retries3 < 3` (`x := xEx`, `diag[i] := 1.0`, `mode := 2`); tiers 6-8 reset
`factor`, `retries`, `retries2` and raise `retries3` by one; in all four the
loop goes on to a further kernel call; in a run of the driver `diagSave` is the
scale vector supplied on entry. -/
theorem tiers_five_to_eight (E : Int) (kernel : Kernel) (c fuel : Nat) (s : NlsState)
    (tr : List Pass) (hg : s.giveUp = false) (hc : tr.length = c)
    (hi : (kernel c { s with giveUp := true }).info = 4 ∨
      (kernel c { s with giveUp := true }).info = 5)
    (h9 : 9 ≤ s.retries) :
    (s.retries2 < 1 →
        (solveBody E kernel c s).action = Action.tier5 ∧
        (∀ i < s.n, (solveBody E kernel c s).output.nls_x i = s.nls_xold i) ∧
        (solveBody E kernel c s).output.factor = s.initial_factor ∧
        (solveBody E kernel c s).output.retries = 0 ∧
        (solveBody E kernel c s).output.retries2 = s.retries2 + 1 ∧
        (solveBody E kernel c s).output.retries3 = s.retries3 ∧
        (solveBody E kernel c s).output.nls_diag =
          (kernel c { s with giveUp := true }).nls_diag ∧
        (solveBody E kernel c s).output.mode = s.mode) ∧
      (1 ≤ s.retries2 → s.retries3 < 1 →
        (solveBody E kernel c s).action = Action.tier6 ∧
        (∀ i < s.n, (solveBody E kernel c s).output.nls_diag i = s.nls_diagSave i) ∧
        (solveBody E kernel c s).output.nls_x = (kernel c { s with giveUp := true }).nls_x ∧
        (solveBody E kernel c s).output.factor = s.initial_factor ∧
        (solveBody E kernel c s).output.retries = 0 ∧
        (solveBody E kernel c s).output.retries2 = 0 ∧
        (solveBody E kernel c s).output.retries3 = s.retries3 + 1 ∧
        (solveBody E kernel c s).output.mode = 2) ∧
      (1 ≤ s.retries2 → 1 ≤ s.retries3 → s.retries3 < 2 →
        (solveBody E kernel c s).action = Action.tier7 ∧
        (∀ i < s.n, (solveBody E kernel c s).output.nls_x i = s.nls_xEx i ∧
          (solveBody E kernel c s).output.nls_diag i = max (1 / 100) |s.nls_xEx i|) ∧
        (solveBody E kernel c s).output.factor = s.initial_factor ∧
        (solveBody E kernel c s).output.retries = 0 ∧
        (solveBody E kernel c s).output.retries2 = 0 ∧
        (solveBody E kernel c s).output.retries3 = s.retries3 + 1 ∧
        (solveBody E kernel c s).output.mode = 1) ∧
      (1 ≤ s.retries2 → 2 ≤ s.retries3 → s.retries3 < 3 →
        (solveBody E kernel c s).action = Action.tier8 ∧
        (∀ i < s.n, (solveBody E kernel c s).output.nls_x i = s.nls_xEx i ∧
          (solveBody E kernel c s).output.nls_diag i = 1) ∧
        (solveBody E kernel c s).output.factor = s.initial_factor ∧
        (solveBody E kernel c s).output.retries = 0 ∧
        (solveBody E kernel c s).output.retries2 = 0 ∧
        (solveBody E kernel c s).output.retries3 = s.retries3 + 1 ∧
        (solveBody E kernel c s).output.mode = 2) ∧
      ((s.retries2 < 1 ∨ s.retries3 < 3) →
        (solveBody E kernel c s).output.giveUp = false ∧
        solveLoop E kernel (fuel + 2) s tr =
          solveLoop E kernel fuel
            (solveBody E kernel (c + 1) (solveBody E kernel c s).output).output
            (tr ++ [solveBody E kernel c s,
              solveBody E kernel (c + 1) (solveBody E kernel c s).output])) ∧
      ∀ (s0 : NlsState) (fuel2 : Nat) (r : NlsState) (tr2 : List Pass),
        solve_nonlinear_system E kernel fuel2 s0 = some (r, tr2) →
        ∀ p ∈ tr2, p.action = Action.tier6 → ∀ i < s0.n, p.output.nls_diag i = s0.nls_diag i := by
  have hb := solveBody_of_ne_zero E kernel c s (by omega)
  have hi2 : (callKernel kernel c { s with giveUp := true }).info = 4 ∨
      (callKernel kernel c { s with giveUp := true }).info = 5 := hi
  obtain ⟨-, -, -, -, h5, h6, h7, h8, -⟩ :=
    (ladder_snd E (callKernel kernel c { s with giveUp := true })).1 hi2
  have h5' : s.retries2 < 1 →
      (ladder E (callKernel kernel c { s with giveUp := true })).2 = Action.tier5 :=
    fun h => h5 h9 h
  have h6' : 1 ≤ s.retries2 → s.retries3 < 1 →
      (ladder E (callKernel kernel c { s with giveUp := true })).2 = Action.tier6 :=
    fun a b => h6 h9 a b
  have h7' : 1 ≤ s.retries2 → s.retries3 = 1 →
      (ladder E (callKernel kernel c { s with giveUp := true })).2 = Action.tier7 :=
    fun a b => h7 h9 a b
  have h8' : 1 ≤ s.retries2 → s.retries3 = 2 →
      (ladder E (callKernel kernel c { s with giveUp := true })).2 = Action.tier8 :=
    fun a b => h8 h9 a b
  have hloop : (solveBody E kernel c s).output.giveUp = false →
      solveLoop E kernel (fuel + 2) s tr =
        solveLoop E kernel fuel
          (solveBody E kernel (c + 1) (solveBody E kernel c s).output).output
          (tr ++ [solveBody E kernel c s,
            solveBody E kernel (c + 1) (solveBody E kernel c s).output]) := by
    intro hgo
    subst hc
    rw [solveLoop_pass E kernel (fuel + 1) s tr hg, solveLoop_pass E kernel fuel _ _ hgo]
    simp
  refine ⟨fun a => ?_, fun a b => ?_, fun a b b' => ?_, fun a b b' => ?_, fun hx => ?_,
    fun s0 fuel2 r tr2 h => tier6_restores_entry_diag E kernel s0 fuel2 r tr2 h⟩
  · rw [h5' a] at hb
    rw [hb]
    refine ⟨rfl, fun i hi => ?_, rfl, rfl, rfl, rfl, rfl, rfl⟩
    show (if i < s.n then _ else _) = _
    rw [if_pos hi]
    rfl
  · rw [h6' a b] at hb
    rw [hb]
    refine ⟨rfl, fun i hi => ?_, rfl, rfl, rfl, rfl, rfl, rfl⟩
    show (if i < s.n then _ else _) = _
    rw [if_pos hi]
    rfl
  · rw [h7' a (by omega)] at hb
    rw [hb]
    refine ⟨rfl, fun i hi => ⟨?_, ?_⟩, rfl, rfl, rfl, rfl, rfl⟩
    · show (if i < s.n then _ else _) = _
      rw [if_pos hi]
      rfl
    · show (if i < s.n then _ else _) = _
      rw [if_pos hi]
      rfl
  · rw [h8' a (by omega)] at hb
    rw [hb]
    refine ⟨rfl, fun i hi => ⟨?_, ?_⟩, rfl, rfl, rfl, rfl, rfl⟩
    · show (if i < s.n then _ else _) = _
      rw [if_pos hi]
      rfl
    · show (if i < s.n then _ else _) = _
      rw [if_pos hi]
  · have hgo : (solveBody E kernel c s).output.giveUp = false := by
      have hcases : s.retries2 < 1 ∨ (1 ≤ s.retries2 ∧ s.retries3 < 1) ∨
          (1 ≤ s.retries2 ∧ s.retries3 = 1) ∨ (1 ≤ s.retries2 ∧ s.retries3 = 2) := by omega
      rcases hcases with a | ⟨a, b⟩ | ⟨a, b⟩ | ⟨a, b⟩
      · rw [h5' a] at hb; rw [hb]; rfl
      · rw [h6' a b] at hb; rw [hb]; rfl
      · rw [h7' a b] at hb; rw [hb]; rfl
      · rw [h8' a b] at hb; rw [hb]; rfl
    exact ⟨hgo, hloop hgo⟩

theorem tiers_five_to_eight_witness :
    (solveBody 7 (constKernel 4) 0
        { start_nonlinear_system 2 (fun _ => 0) 0 0 with retries := 9 }).action =
      Action.tier5 :=
  ((tiers_five_to_eight 7 (constKernel 4) 0 0
    { start_nonlinear_system 2 (fun _ => 0) 0 0 with retries := 9 }
    [] rfl rfl (Or.inl rfl) (by show (9 : ℕ) ≤ 9; decide)).1 (by show (0 : ℕ) < 1; decide)).1

/-! ## Mixed systems: the first pass -/

/-- C20: the code at the failing input.  With the rows `[true]`, `[false]`,
`[false]`, the discrete variable `false` on entry and a stub whose implied
value is always `true`, the first continuous solve runs with `false`, not with
row 0; only the table entries 1 and 2 are ever read; the resolution fails
although a pass on row 0 would have been accepted. -/
theorem first_pass_skips_row_zero :
    (∃ st tr, mixed_equation_system (stubBody (fun _ => false) (fun _ _ => true)) id
        (tableOf [true, false, false]) 1 3 3 () (fun _ => false) = some (st, tr) ∧
      tr.map (fun e => (e.1, e.2 0)) = [(0, false), (1, false), (2, false)] ∧
      st.reads = [1, 2] ∧ st.found_solution = -1) ∧
    tableOf [true, false, false] 0 = true ∧
    selfConsistent (stubBody (fun _ => false) (fun _ _ => true)) 1 ()
      (fun i => tableOf [true, false, false] (0 * 1 + i)) := by
  refine ⟨?_, rfl, stubBody_consistent _ _ rfl⟩
  obtain ⟨s1, hs1, hv1, hc1, hf1, hr1⟩ : ∃ s1 : MixedState Unit Bool,
      mixedBody (stubBody (fun _ => false) (fun _ _ => true)) id
        (tableOf [true, false, false]) 1 3
        ⟨(), 0, 0, fun _ => false, fun _ => 0, fun _ => 0, []⟩ = s1 ∧
      s1.vars 0 = false ∧ s1.cur_value_indx = 1 ∧ s1.found_solution = 0 ∧ s1.reads = [1] :=
    ⟨_, mixedBody_advance (stubBody (fun _ => false) (fun _ _ => true)) id
      (tableOf [true, false, false]) 1 3 ⟨(), 0, 0, fun _ => false, fun _ => 0, fun _ => 0, []⟩
      (Or.inr (stubBody_inconsistent _ _ rfl)) (by decide), rfl, rfl, rfl, rfl⟩
  have b2 := mixedBody_advance (stubBody (fun _ => false) (fun _ _ => true)) id
    (tableOf [true, false, false]) 1 3 s1
    (Or.inr (stubBody_inconsistent s1.env s1.vars hv1)) (by rw [hc1]; decide)
  obtain ⟨s2, hs2⟩ : ∃ s2 : MixedState Unit Bool,
      mixedBody (stubBody (fun _ => false) (fun _ _ => true)) id
        (tableOf [true, false, false]) 1 3 s1 = s2 := ⟨_, rfl⟩
  rw [hs2] at b2
  have hv2 : s2.vars 0 = false := by
    rw [b2]
    show id (tableOf [true, false, false] ((s1.cur_value_indx + 1) * 1 + 0)) = false
    rw [hc1]
    rfl
  have hc2 : s2.cur_value_indx = 2 := by
    rw [b2]
    show s1.cur_value_indx + 1 = 2
    rw [hc1]
  have hf2 : s2.found_solution = 0 := by rw [b2]
  have hr2 : s2.reads = [1, 2] := by
    rw [b2]
    show s1.reads ++ (List.range 1).map (fun i => (s1.cur_value_indx + 1) * 1 + i) = [1, 2]
    rw [hr1, hc1]
    rfl
  have b3 := mixedBody_exhaust (stubBody (fun _ => false) (fun _ _ => true)) id
    (tableOf [true, false, false]) 1 3 s2 (Or.inr (stubBody_inconsistent s2.env s2.vars hv2))
    (by rw [hc2])
  refine ⟨mixedBody (stubBody (fun _ => false) (fun _ _ => true)) id
      (tableOf [true, false, false]) 1 3 s2,
    [(0, fun _ => false), (s1.cur_value_indx, s1.vars), (s2.cur_value_indx, s2.vars)],
    ?_, ?_, ?_, ?_⟩
  · show mixedLoop _ id (tableOf [true, false, false]) 1 3 (2 + 1)
      ⟨(), 0, 0, fun _ => false, fun _ => 0, fun _ => 0, []⟩ [] = _
    rw [mixedLoop_continue _ id (tableOf [true, false, false]) 1 3 2 _ []
        (by rw [hs1]; exact hf1), hs1,
      mixedLoop_continue _ id (tableOf [true, false, false]) 1 3 1 s1 _
        (by rw [hs2]; exact hf2), hs2,
      mixedLoop_exit _ id (tableOf [true, false, false]) 1 3 0 s2 _
        (by rw [b3]; exact (by decide : (-1 : ℤ) ≠ 0))]
    rfl
  · simp only [List.map_cons, List.map_nil]
    rw [hv1, hc1, hv2, hc2]
  · rw [b3]
    exact hr2
  · rw [b3]

/-! ## Diagnostics do not interfere -/

/-- Dropping the third component of a branch commutes with one `if` of a
chain. -/
theorem ite_drop_log {α β γ : Type} (c : Prop) [Decidable c] (a : α) (b : β) (l : γ)
    (X : α × β × γ) (Y : α × β) (h : (X.1, X.2.1) = Y) :
    ((if c then (a, b, l) else X).1, (if c then (a, b, l) else X).2.1) =
      if c then (a, b) else Y := by
  by_cases hc : c
  · rw [if_pos hc, if_pos hc]
  · rw [if_neg hc, if_neg hc]; exact h

/-- The logged ladder makes the state change and reports the branch of the
ladder, whatever the flags are. -/
theorem ladder_logged_eq (fl : Flags) (E : Int) (s : NlsState) :
    ((ladder_logged fl E s).1, (ladder_logged fl E s).2.1) = ladder E s := by
  unfold ladder_logged ladder
  refine ite_drop_log _ _ _ _ _ _ ?_
  refine ite_drop_log _ _ _ _ _ _ ?_
  refine ite_drop_log _ _ _ _ _ _ ?_
  refine ite_drop_log _ _ _ _ _ _ ?_
  refine ite_drop_log _ _ _ _ _ _ ?_
  refine ite_drop_log _ _ _ _ _ _ ?_
  refine ite_drop_log _ _ _ _ _ _ ?_
  refine ite_drop_log _ _ _ _ _ _ ?_
  refine ite_drop_log _ _ _ _ _ _ ?_
  rfl

/-- The same for the ladder of the analytic-Jacobian driver. -/
theorem ladder_analytic_jac_logged_eq (fl : Flags) (E : Int) (s : NlsState) :
    ((ladder_analytic_jac_logged fl E s).1, (ladder_analytic_jac_logged fl E s).2.1) =
      ladder_analytic_jac E s := by
  unfold ladder_analytic_jac_logged ladder_analytic_jac
  refine ite_drop_log _ _ _ _ _ _ ?_
  refine ite_drop_log _ _ _ _ _ _ ?_
  refine ite_drop_log _ _ _ _ _ _ ?_
  rfl

theorem improperInput_logged_eq (s : NlsState) :
    (improperInput_logged s).1 = improperInput s := by
  unfold improperInput_logged improperInput
  split_ifs <;> rfl

theorem solveBody_logged_eq (fl : Flags) (E : Int) (kernel : Kernel) (c : Nat) (s : NlsState) :
    (solveBody_logged fl E kernel c s).1 = solveBody E kernel c s := by
  have h := ladder_logged_eq fl E (improperInput_logged (callKernel kernel c { s with giveUp := true })).1
  rw [improperInput_logged_eq] at h
  have h1 := congrArg Prod.fst h
  have h2 := congrArg Prod.snd h
  simp only at h1 h2
  simp only [solveBody_logged, solveBody, kernelPass, improperInput_logged_eq, h1, h2]

theorem solveBody_analytic_jac_logged_eq (fl : Flags) (E : Int) (kernel : Kernel) (c : Nat)
    (s : NlsState) :
    (solveBody_analytic_jac_logged fl E kernel c s).1 = solveBody_analytic_jac E kernel c s := by
  have h := ladder_analytic_jac_logged_eq fl E (callKernel kernel c { s with giveUp := true })
  have h1 := congrArg Prod.fst h
  have h2 := congrArg Prod.snd h
  simp only at h1 h2
  simp only [solveBody_analytic_jac_logged, solveBody_analytic_jac, h1, h2]

theorem solveLoop_logged_eq (fl : Flags) (E : Int) (kernel : Kernel) :
    ∀ (fuel : Nat) (s : NlsState) (tr : List Pass) (log : List LogLine),
      (solveLoop_logged fl E kernel fuel s tr log).map (fun r => (r.1, r.2.1)) =
        solveLoop E kernel fuel s tr := by
  intro fuel
  induction fuel with
  | zero => intro s tr log; rfl
  | succ fuel ih =>
    intro s tr log
    unfold solveLoop_logged solveLoop
    by_cases hg : s.giveUp = true
    · rw [if_pos hg, if_pos hg]; rfl
    · rw [if_neg hg, if_neg hg, ih, solveBody_logged_eq]

theorem solveLoop_analytic_jac_logged_eq (fl : Flags) (E : Int) (kernel : Kernel) :
    ∀ (fuel : Nat) (s : NlsState) (tr : List Pass) (log : List LogLine),
      (solveLoop_analytic_jac_logged fl E kernel fuel s tr log).map (fun r => (r.1, r.2.1)) =
        solveLoop_analytic_jac E kernel fuel s tr := by
  intro fuel
  induction fuel with
  | zero => intro s tr log; rfl
  | succ fuel ih =>
    intro s tr log
    unfold solveLoop_analytic_jac_logged solveLoop_analytic_jac
    by_cases hg : s.giveUp = true
    · rw [if_pos hg, if_pos hg]; rfl
    · rw [if_neg hg, if_neg hg, ih, solveBody_analytic_jac_logged_eq]

theorem check_discrete_values_logged_eq {σ α β : Type} (fl : Flags) (cast : α → β)
    (values : Nat → α) (size numValues : Nat) (s : MixedState σ β) :
    (check_discrete_values_logged fl cast values size numValues s).1 =
      check_discrete_values cast values size numValues s := by
  unfold check_discrete_values_logged check_discrete_values
  dsimp only
  split_ifs <;> rfl

/-- C17: two runs on the same input and the same kernel that differ only in
the verbosity flags end in the same state with the same history of kernel
calls, for `solve_nonlinear_system`, for `solve_nonlinear_system_analytic_jac`
and for `check_discrete_values`; the outcome is the one of the drivers without
diagnostics. -/
theorem diagnostics_do_not_interfere {σ α β : Type} (fl1 fl2 : Flags) (E : Int)
    (kernel : Kernel) (fuel : Nat) (s : NlsState) (cast : α → β) (values : Nat → α)
    (size numValues : Nat) (m : MixedState σ β) :
    ((solve_nonlinear_system_logged fl1 E kernel fuel s).map (fun r => (r.1, r.2.1)) =
        (solve_nonlinear_system_logged fl2 E kernel fuel s).map (fun r => (r.1, r.2.1)) ∧
      (solve_nonlinear_system_logged fl1 E kernel fuel s).map (fun r => (r.1, r.2.1)) =
        solve_nonlinear_system E kernel fuel s) ∧
    ((solve_nonlinear_system_analytic_jac_logged fl1 E kernel fuel s).map
          (fun r => (r.1, r.2.1)) =
        (solve_nonlinear_system_analytic_jac_logged fl2 E kernel fuel s).map
          (fun r => (r.1, r.2.1)) ∧
      (solve_nonlinear_system_analytic_jac_logged fl1 E kernel fuel s).map
          (fun r => (r.1, r.2.1)) =
        solve_nonlinear_system_analytic_jac E kernel fuel s) ∧
    ((check_discrete_values_logged fl1 cast values size numValues m).1 =
        (check_discrete_values_logged fl2 cast values size numValues m).1 ∧
      (check_discrete_values_logged fl1 cast values size numValues m).1 =
        check_discrete_values cast values size numValues m) := by
  refine ⟨⟨?_, ?_⟩, ⟨?_, ?_⟩, ⟨?_, ?_⟩⟩
  · exact (solveLoop_logged_eq fl1 E kernel fuel _ _ _).trans
      (solveLoop_logged_eq fl2 E kernel fuel _ _ _).symm
  · exact solveLoop_logged_eq fl1 E kernel fuel _ _ _
  · exact (solveLoop_analytic_jac_logged_eq fl1 E kernel fuel _ _ _).trans
      (solveLoop_analytic_jac_logged_eq fl2 E kernel fuel _ _ _).symm
  · exact solveLoop_analytic_jac_logged_eq fl1 E kernel fuel _ _ _
  · rw [check_discrete_values_logged_eq, check_discrete_values_logged_eq]
  · exact check_discrete_values_logged_eq fl1 cast values size numValues m

/-! ## Dense linear solver: correctness -/

theorem pivotRow_bounds (col : Nat → ℚ) (k : Nat) :
    ∀ d, k ≤ pivotRow col k d ∧ pivotRow col k d ≤ k + d := by
  intro d
  induction d with
  | zero => exact ⟨le_refl _, le_refl _⟩
  | succ d ih =>
    unfold pivotRow
    split_ifs
    · omega
    · omega

theorem pivotRow_max (col : Nat → ℚ) (k : Nat) :
    ∀ d i, k ≤ i → i ≤ k + d → |col i| ≤ |col (pivotRow col k d)| := by
  intro d
  induction d with
  | zero =>
    intro i h1 h2
    have : i = k := by omega
    subst this
    exact le_refl _
  | succ d ih =>
    intro i h1 h2
    unfold pivotRow
    by_cases hi : i = k + d + 1
    · subst hi
      split_ifs with h
      · exact le_refl _
      · exact not_lt.mp h
    · have h3 := ih i h1 (by omega)
      split_ifs with h
      · exact le_trans h3 (le_of_lt h)
      · exact h3

/-- A zero pivot after partial pivoting: the whole column is zero from row `k`
on. -/
theorem pivot_zero_column (n k : Nat) (m : Nat → Nat → ℚ) (hk : k < n)
    (h0 : swapRows m k (pivotRow (fun i => m i k) k (n - 1 - k)) k k = 0) :
    ∀ i, k ≤ i → i < n → m i k = 0 := by
  intro i h1 h2
  have hp : m (pivotRow (fun i => m i k) k (n - 1 - k)) k = 0 := by
    simpa [swapRows] using h0
  have h := pivotRow_max (fun i => m i k) k (n - 1 - k) i h1 (by omega)
  simp only [hp, abs_zero] at h
  exact abs_eq_zero.mp (le_antisymm h (abs_nonneg _))

theorem swap_solves (n k p : Nat) (m : Nat → Nat → ℚ) (c x : Nat → ℚ) (hk : k < n)
    (hp : p < n) :
    Solves n (swapRows m k p) (fun i => if i = k then c p else if i = p then c k else c i) x ↔
      Solves n m c x := by
  unfold Solves swapRows
  constructor
  · intro h i hi
    by_cases h1 : i = k
    · subst h1
      have := h p hp
      by_cases h2 : p = i
      · subst h2; simpa using this
      · simpa [h2] using this
    · by_cases h2 : i = p
      · subst h2
        have := h k hk
        simpa using this
      · have := h i hi
        simpa [h1, h2] using this
  · intro h i hi
    by_cases h1 : i = k
    · subst h1
      simpa using h p hp
    · by_cases h2 : i = p
      · subst h2
        simpa [h1] using h k hk
      · simpa [h1, h2] using h i hi

theorem elim_solves (n k : Nat) (m : Nat → Nat → ℚ) (c x : Nat → ℚ) (hk : k < n) :
    Solves n (elimRows n k m m)
        (fun i => if k < i ∧ i < n then c i - m i k / m k k * c k else c i) x ↔
      Solves n m c x := by
  unfold Solves elimRows
  have key : ∀ i, k < i ∧ i < n →
      Finset.sum (Finset.range n) (fun j => (m i j - m i k / m k k * m k j) * x j) =
        Finset.sum (Finset.range n) (fun j => m i j * x j) -
          m i k / m k k * Finset.sum (Finset.range n) (fun j => m k j * x j) := by
    intro i _
    rw [Finset.mul_sum, ← Finset.sum_sub_distrib]
    refine Finset.sum_congr rfl (fun j _ => ?_)
    ring
  constructor
  · intro h
    have hkrow : Finset.sum (Finset.range n) (fun j => m k j * x j) = c k := by
      have := h k hk
      simpa using this
    intro i hi
    by_cases h1 : k < i ∧ i < n
    · have := h i hi
      simp only [h1, and_self, if_true] at this
      rw [key i h1, hkrow] at this
      linarith
    · have := h i hi
      simpa [h1] using this
  · intro h i hi
    by_cases h1 : k < i ∧ i < n
    · simp only [h1, and_self, if_true]
      rw [key i h1, h i hi, h k hk]
    · simp only [h1, if_false]
      exact h i hi

theorem swap_upperTri (n k p : Nat) (m : Nat → Nat → ℚ) (hkp : k ≤ p)
    (h : UpperTri n k m) (hk : k < n) (hp : p < n) : UpperTri n k (swapRows m k p) := by
  intro i j hj hji hi
  unfold swapRows
  by_cases h1 : i = k
  · rw [if_pos h1]; exact h p j hj (by omega) hp
  · rw [if_neg h1]
    by_cases h2 : i = p
    · rw [if_pos h2]; exact h k j hj (by omega) hk
    · rw [if_neg h2]; exact h i j hj hji hi

theorem swap_diagNZ (k p : Nat) (m : Nat → Nat → ℚ) (hkp : k ≤ p) (h : DiagNZ k m) :
    DiagNZ k (swapRows m k p) := by
  intro i hi
  unfold swapRows
  rw [if_neg (by omega), if_neg (by omega)]
  exact h i hi

theorem elim_upperTri (n k : Nat) (m : Nat → Nat → ℚ) (h : UpperTri n k m) (hk : k < n)
    (hkk : m k k ≠ 0) : UpperTri n (k + 1) (elimRows n k m m) := by
  intro i j hj hji hi
  unfold elimRows
  by_cases h1 : k < i ∧ i < n
  · rw [if_pos h1]
    by_cases h2 : j = k
    · subst h2
      field_simp
    · have hjk : j < k := by omega
      rw [h i j hjk hji hi, h k j hjk hjk hk]
      ring
  · rw [if_neg h1]; exact h i j (by omega) hji hi

theorem elim_diagNZ (n k : Nat) (m : Nat → Nat → ℚ) (h : DiagNZ k m) (hkk : m k k ≠ 0) :
    DiagNZ (k + 1) (elimRows n k m m) := by
  intro i hi
  unfold elimRows
  rw [if_neg (by omega)]
  by_cases h1 : i = k
  · subst h1; exact hkk
  · exact h i (by omega)

/-- What the factorization establishes: the equations keep their solutions, and
either the matrix is upper triangular with nonzero diagonal, or it stopped at a
column that is zero from the diagonal on. -/
theorem forwardElim_spec (n : Nat) :
    ∀ (d k : Nat) (s : LUState), k + d = n → UpperTri n k s.u → DiagNZ k s.u → s.info = 0 →
      (∀ (r : Nat) (x : Nat → ℚ),
        Solves n (forwardElim n d k s).u (fun i => (forwardElim n d k s).c i r) x ↔
          Solves n s.u (fun i => s.c i r) x) ∧
      (((forwardElim n d k s).info = 0 ∧ UpperTri n n (forwardElim n d k s).u ∧
          DiagNZ n (forwardElim n d k s).u) ∨
        ∃ q, q < n ∧ (forwardElim n d k s).info = (q : Int) + 1 ∧
          UpperTri n q (forwardElim n d k s).u ∧ DiagNZ q (forwardElim n d k s).u ∧
          ∀ i, q ≤ i → i < n → (forwardElim n d k s).u i q = 0) := by
  intro d
  induction d with
  | zero =>
    intro k s hk hU hD hi
    have : k = n := by omega
    subst this
    exact ⟨fun r x => Iff.rfl, Or.inl ⟨hi, hU, hD⟩⟩
  | succ d ih =>
    intro k s hk hU hD hi
    have hkn : k < n := by omega
    obtain ⟨p, hp, hkp, hpn⟩ : ∃ p, pivotRow (fun i => s.u i k) k (n - 1 - k) = p ∧ k ≤ p ∧
        p < n := by
      have := pivotRow_bounds (fun i => s.u i k) k (n - 1 - k)
      exact ⟨_, rfl, this.1, by omega⟩
    have hcol := pivot_zero_column n k s.u hkn
    unfold forwardElim
    rw [hp] at hcol ⊢
    have hsw : ∀ (r : Nat) (x : Nat → ℚ),
        Solves n (swapRows s.u k p) (fun i => swapRows s.c k p i r) x ↔
          Solves n s.u (fun i => s.c i r) x :=
      fun r x => swap_solves n k p s.u (fun i => s.c i r) x hkn hpn
    by_cases h0 : swapRows s.u k p k k = 0
    · rw [if_pos h0]
      refine ⟨hsw, Or.inr ⟨k, hkn, rfl, swap_upperTri n k p s.u hkp hU hkn hpn,
        swap_diagNZ k p s.u hkp hD, ?_⟩⟩
      intro i h1 h2
      have hz := hcol h0
      show swapRows s.u k p i k = 0
      unfold swapRows
      by_cases e1 : i = k
      · rw [if_pos e1]; exact hz p hkp hpn
      · rw [if_neg e1]
        by_cases e2 : i = p
        · rw [if_pos e2]; exact hz k (le_refl _) hkn
        · rw [if_neg e2]; exact hz i h1 h2
    · rw [if_neg h0]
      have hU1 := swap_upperTri n k p s.u hkp hU hkn hpn
      have hD1 := swap_diagNZ k p s.u hkp hD
      obtain ⟨hS, hR⟩ := ih (k + 1)
        { u := elimRows n k (swapRows s.u k p) (swapRows s.u k p)
          l := fun i j =>
            if k < i ∧ i < n ∧ j = k then swapRows s.u k p i k / swapRows s.u k p k k
            else swapRows s.l k p i j
          c := elimRows n k (swapRows s.u k p) (swapRows s.c k p)
          ipiv := fun i => if i = k then (p : Int) + 1 else s.ipiv i
          info := s.info }
        (by omega) (elim_upperTri n k _ hU1 hkn h0) (elim_diagNZ n k _ hD1 h0) hi
      refine ⟨fun r x => (hS r x).trans (Iff.trans ?_ (hsw r x)), hR⟩
      exact elim_solves n k (swapRows s.u k p) (fun i => swapRows s.c k p i r) x hkn

theorem sum_range_ite_lt (n q : Nat) (h : q ≤ n) (g : Nat → ℚ) :
    Finset.sum (Finset.range n) (fun j => if j < q then g j else 0) =
      Finset.sum (Finset.range q) g := by
  rw [← Finset.sum_filter]
  congr 1
  ext j
  simp only [Finset.mem_filter, Finset.mem_range]
  omega

/-- Back substitution solves an upper triangular system with nonzero
diagonal. -/
theorem backSubst_spec (n : Nat) (u : Nat → Nat → ℚ) (c : Nat → ℚ) (hU : UpperTri n n u)
    (hD : DiagNZ n u) :
    ∀ (i : Nat) (x : Nat → ℚ), i ≤ n →
      (∀ r, i ≤ r → r < n → Finset.sum (Finset.range n) (fun j => u r j * x j) = c r) →
      (∀ r, r < i → x r = c r) → Solves n u c (backSubst n u i x) := by
  intro i
  induction i with
  | zero =>
    intro x _ h _ r hr
    exact h r (Nat.zero_le _) hr
  | succ i ih =>
    intro x hi h hx
    unfold backSubst
    have hin : i < n := by omega
    refine ih _ (by omega) ?_ ?_
    · intro r hir hr
      by_cases e : r = i
      · subst e
        have hpt : ∀ j ∈ Finset.range n,
            u r j * (if j = r then
                (x r - Finset.sum (Finset.range n)
                  (fun j => if r < j then u r j * x j else 0)) / u r r
              else x j) =
            (if j = r then x r - Finset.sum (Finset.range n)
                  (fun j => if r < j then u r j * x j else 0) else 0) +
              (if r < j then u r j * x j else 0) := by
          intro j hj
          have hjn : j < n := Finset.mem_range.mp hj
          by_cases e1 : j = r
          · subst e1
            rw [if_pos rfl, if_pos rfl, if_neg (lt_irrefl _), add_zero]
            field_simp [hD j hjn]
          · rw [if_neg e1, if_neg e1, zero_add]
            by_cases e2 : r < j
            · rw [if_pos e2]
            · rw [if_neg e2, hU r j hjn (by omega) hr, zero_mul]
        rw [Finset.sum_congr rfl hpt, Finset.sum_add_distrib, Finset.sum_ite_eq',
          if_pos (Finset.mem_range.mpr hr), sub_add_cancel]
        exact hx r (by omega)
      · have hpt : ∀ j ∈ Finset.range n,
            u r j * (if j = i then
                (x i - Finset.sum (Finset.range n)
                  (fun j => if i < j then u i j * x j else 0)) / u i i
              else x j) = u r j * x j := by
          intro j _
          by_cases e1 : j = i
          · subst e1
            rw [hU r j hin (by omega) hr, zero_mul, zero_mul]
          · rw [if_neg e1]
        rw [Finset.sum_congr rfl hpt]
        exact h r (by omega) hr
    · intro r hr
      show (if r = i then _ else x r) = c r
      rw [if_neg (by omega)]
      exact hx r (by omega)

/-- An upper triangular system with nonzero diagonal and right-hand side zero
has the zero solution only. -/
theorem tri_unique (n : Nat) (u : Nat → Nat → ℚ) (z : Nat → ℚ) (hU : UpperTri n n u)
    (hD : DiagNZ n u) (hz : Solves n u (fun _ => 0) z) : ∀ i, i < n → z i = 0 := by
  have key : ∀ d i, i < n → n - i ≤ d → z i = 0 := by
    intro d
    induction d with
    | zero => intro i hi hd; omega
    | succ d ih =>
      intro i hi hd
      have hrow := hz i hi
      rw [Finset.sum_eq_single i] at hrow
      · exact (mul_eq_zero.mp hrow).resolve_left (hD i hi)
      · intro j hj hji
        have hjn : j < n := Finset.mem_range.mp hj
        by_cases e : j < i
        · rw [hU i j hjn e hi, zero_mul]
        · rw [ih j hjn (by omega), mul_zero]
      · intro h
        exact absurd (Finset.mem_range.mpr hi) h
  intro i hi
  exact key (n - i) i hi (le_refl _)

/-- A matrix whose column `q` is zero from the diagonal on, triangular with
nonzero diagonal before it, sends a vector with entry 1 at `q` to zero. -/
theorem kernel_vector (n q : Nat) (m : Nat → Nat → ℚ) (hq : q < n) (hU : UpperTri n q m)
    (hD : DiagNZ q m) (hcol : ∀ i, q ≤ i → i < n → m i q = 0) :
    ∃ w : Nat → ℚ, w q = 1 ∧ Solves n m (fun _ => 0) w := by
  have hU' : UpperTri q q m := fun i j hj hji hi => hU i j hj hji (by omega)
  have hs := backSubst_spec q m (fun i => - m i q) hU' hD q (fun i => - m i q) (le_refl _)
    (fun r h1 h2 => by omega) (fun r _ => rfl)
  obtain ⟨w0, hw0⟩ : ∃ w0, Solves q m (fun i => - m i q) w0 := ⟨_, hs⟩
  refine ⟨fun j => if j < q then w0 j else if j = q then 1 else 0, ?_, ?_⟩
  · show (if q < q then w0 q else if q = q then (1 : ℚ) else 0) = 1
    rw [if_neg (lt_irrefl _), if_pos rfl]
  · intro i hi
    have hpt : ∀ j ∈ Finset.range n,
        m i j * (if j < q then w0 j else if j = q then 1 else 0) =
          (if j < q then m i j * w0 j else 0) + (if j = q then m i q else 0) := by
      intro j _
      by_cases e1 : j < q
      · rw [if_pos e1, if_pos e1, if_neg (by omega), add_zero]
      · rw [if_neg e1, if_neg e1, zero_add]
        by_cases e2 : j = q
        · subst e2; rw [if_pos rfl, if_pos rfl, mul_one]
        · rw [if_neg e2, if_neg e2, mul_zero]
    show Finset.sum (Finset.range n)
      (fun j => m i j * (if j < q then w0 j else if j = q then 1 else 0)) = 0
    rw [Finset.sum_congr rfl hpt, Finset.sum_add_distrib, Finset.sum_ite_eq',
      if_pos (Finset.mem_range.mpr hq), sum_range_ite_lt n q (le_of_lt hq)]
    by_cases e : i < q
    · rw [hw0 i e]; ring
    · rw [hcol i (by omega) hi, add_zero]
      refine Finset.sum_eq_zero (fun j hj => ?_)
      have hjq : j < q := Finset.mem_range.mp hj
      rw [hU i j hjq (by omega) hi, zero_mul]

theorem solves_add (n : Nat) (m : Nat → Nat → ℚ) (c x w : Nat → ℚ) (hx : Solves n m c x)
    (hw : Solves n m (fun _ => 0) w) : Solves n m c (fun j => x j + w j) := by
  intro i hi
  have h1 := hx i hi
  have h2 := hw i hi
  simp only [mul_add, Finset.sum_add_distrib, h1, h2, add_zero]

theorem solves_sub (n : Nat) (m : Nat → Nat → ℚ) (c x y : Nat → ℚ) (hx : Solves n m c x)
    (hy : Solves n m c y) : Solves n m (fun _ => 0) (fun j => y j - x j) := by
  intro i hi
  have h1 := hx i hi
  have h2 := hy i hi
  simp only [mul_sub, Finset.sum_sub_distrib, h1, h2, sub_self]

/-- The matrix of `matOf` applied to a vector, as a sum over `range n`. -/
theorem matOf_mulVec (n : Nat) (A : Nat → ℚ) (x : Nat → ℚ) (i : Fin n) :
    Matrix.mulVec (matOf n A) (fun j => x j.val) i =
      Finset.sum (Finset.range n) (fun j => A (i.val + n * j) * x j) := by
  rw [Finset.sum_range]
  rfl

/-- An invertible matrix has a solution for every right-hand side. -/
theorem det_ne_zero_solves (n : Nat) (A b : Nat → ℚ) (h : (matOf n A).det ≠ 0) :
    ∃ x : Nat → ℚ, Solves n (fun i j => A (i + n * j)) b x := by
  have hu : IsUnit (matOf n A).det := isUnit_iff_ne_zero.mpr h
  refine ⟨fun j => if hj : j < n then
    Matrix.mulVec (matOf n A)⁻¹ (fun i : Fin n => b i.val) ⟨j, hj⟩ else 0, ?_⟩
  intro i hi
  have := matOf_mulVec n A (fun j => if hj : j < n then
    Matrix.mulVec (matOf n A)⁻¹ (fun i : Fin n => b i.val) ⟨j, hj⟩ else 0) ⟨i, hi⟩
  simp only [Fin.is_lt, dite_true, Fin.eta] at this
  rw [← this, Matrix.mulVec_mulVec, Matrix.mul_nonsing_inv _ hu, Matrix.one_mulVec]

/-- A vector that is not zero and is sent to zero shows the determinant is
zero. -/
theorem kernel_det_zero (n q : Nat) (A w : Nat → ℚ) (hq : q < n) (hwq : w q ≠ 0)
    (hw : Solves n (fun i j => A (i + n * j)) (fun _ => 0) w) : (matOf n A).det = 0 := by
  refine Matrix.exists_mulVec_eq_zero_iff.mp ⟨fun j => w j.val, ?_, ?_⟩
  · intro h0
    exact hwq (congrFun h0 ⟨q, hq⟩)
  · funext i
    rw [matOf_mulVec]
    exact hw i.val i.isLt

/-- Determinant zero gives a vector that is not zero and is sent to zero. -/
theorem det_zero_kernel (n : Nat) (A : Nat → ℚ) (h : (matOf n A).det = 0) :
    ∃ (w : Nat → ℚ) (q : Nat), q < n ∧ w q ≠ 0 ∧
      Solves n (fun i j => A (i + n * j)) (fun _ => 0) w := by
  obtain ⟨v, hv, hz⟩ := Matrix.exists_mulVec_eq_zero_iff.mpr h
  obtain ⟨q, hq⟩ : ∃ q, v q ≠ 0 := by
    by_contra hcon
    push_neg at hcon
    exact hv (funext hcon)
  refine ⟨fun j => if hj : j < n then v ⟨j, hj⟩ else 0, q.val, q.isLt, ?_, ?_⟩
  · simpa using hq
  · intro i hi
    have := matOf_mulVec n A (fun j => if hj : j < n then v ⟨j, hj⟩ else 0) ⟨i, hi⟩
    simp only [Fin.is_lt, dite_true, Fin.eta] at this
    rw [← this, hz]
    rfl

/-- The factorization of an `n`-by-`n` column-major matrix: the status is 0
exactly when the determinant is not zero, it is positive otherwise, and with
status 0 back substitution gives a solution for every right-hand side. -/
theorem lu_run (n : Nat) (A b : Nat → ℚ) (ipiv : Nat → Int) :
    (((matOf n A).det ≠ 0 ↔
        (forwardElim n n 0 (luInit A n ipiv b n)).info = 0) ∧
      ((forwardElim n n 0 (luInit A n ipiv b n)).info ≠ 0 →
        0 < (forwardElim n n 0 (luInit A n ipiv b n)).info)) ∧
    ((forwardElim n n 0 (luInit A n ipiv b n)).info = 0 →
      ∀ r, Solves n (fun i j => A (i + n * j)) (fun i => b (i + n * r))
        (backSubst n
          (forwardElim n n 0 (luInit A n ipiv b n)).u n
          (fun i => (forwardElim n n 0 (luInit A n ipiv b n)).c i r))) := by
  obtain ⟨hS, hR⟩ := forwardElim_spec n n 0 (luInit A n ipiv b n)
    (by omega) (fun i j hj _ _ => absurd hj (Nat.not_lt_zero _))
    (fun i hi => absurd hi (Nat.not_lt_zero _)) rfl
  obtain ⟨o, ho⟩ : ∃ o, forwardElim n n 0 (luInit A n ipiv b n) = o := ⟨_, rfl⟩
  rw [ho] at hS hR ⊢
  have hS' : ∀ (r : Nat) (x : Nat → ℚ), Solves n o.u (fun i => o.c i r) x ↔
      Solves n (fun i j => A (i + n * j)) (fun i => b (i + n * r)) x := hS
  rcases hR with ⟨h0, hU, hD⟩ | ⟨q, hq, hinfo, hU, hD, hcol⟩
  · have hsol : ∀ r, Solves n (fun i j => A (i + n * j)) (fun i => b (i + n * r))
        (backSubst n o.u n (fun i => o.c i r)) := fun r =>
      (hS' r _).mp (backSubst_spec n o.u (fun i => o.c i r) hU hD n _ (le_refl _)
        (fun t h1 h2 => by omega) (fun t _ => rfl))
    refine ⟨⟨⟨fun _ => h0, fun _ => ?_⟩, fun h => absurd h0 h⟩, fun _ => hsol⟩
    intro hdet
    obtain ⟨w, t, ht, hwt, hw⟩ := det_zero_kernel n A hdet
    have h1 := (hS' 0 _).mpr (hsol 0)
    have h2 := (hS' 0 _).mpr (solves_add n _ _ _ w (hsol 0) hw)
    have h3 := solves_sub n _ _ _ _ h1 h2
    have h4 := tri_unique n o.u _ hU hD h3 t ht
    simp only [add_sub_cancel_left] at h4
    exact hwt h4
  · have hne : o.info ≠ 0 := by rw [hinfo]; omega
    refine ⟨⟨⟨fun hdet => ?_, fun h => absurd h hne⟩, fun _ => by rw [hinfo]; omega⟩,
      fun h => absurd h hne⟩
    exfalso
    obtain ⟨w, hwq, hw⟩ := kernel_vector n q o.u hq hU hD hcol
    obtain ⟨x, hx⟩ := det_ne_zero_solves n A (fun i => b (i + n * 0)) hdet
    have h1 := (hS' 0 x).mpr hx
    have h2 := (hS' 0 _).mp (solves_add n _ _ _ w h1 hw)
    have h3 := solves_sub n _ _ _ _ hx h2
    refine hdet (kernel_det_zero n q A _ hq ?_ h3)
    simp only [add_sub_cancel_left]
    rw [hwq]
    exact one_ne_zero

/-- The wrapper in one equation: with the pivot array allocated, the kernel's
`a`, `b` and status are stored, and `found_solution` is -1 unless the status is
0. -/
theorem solve_linear_eq (dgesv : Dgesv) (n : Nat) (s : LinState) :
    solve_linear_equation_system dgesv true n s =
      some ⟨⟨(dgesv n 1 s.A n (fun _ => 0) s.b n).a, (dgesv n 1 s.A n (fun _ => 0) s.b n).b,
        if (dgesv n 1 s.A n (fun _ => 0) s.b n).info < 0 then -1
        else if (dgesv n 1 s.A n (fun _ => 0) s.b n).info > 0 then -1 else s.found_solution⟩,
        (dgesv n 1 s.A n (fun _ => 0) s.b n).info, 1⟩ := by
  unfold solve_linear_equation_system
  simp only [if_true]
  split_ifs <;> rfl

/-- C16: the linear solve on the dense solver (LU factorization with partial
pivoting, exact arithmetic) always returns; for an invertible column-major
matrix it reports status 0, leaves `found_solution` alone and overwrites `b`
with `x` such that every component of `A x - b` is zero, so the residual norm
is below every positive epsilon; for a singular matrix, one with a zero row
among them, it reports a positive status and `found_solution = -1`. -/
theorem linear_solve_correct (n : Nat) (s : LinState) :
    ∃ res, solve_linear_equation_system omc_dgesv true n s = some res ∧
      ((matOf n s.A).det ≠ 0 →
        res.info = 0 ∧ res.state.found_solution = s.found_solution ∧
        (∀ i, i < n →
          Finset.sum (Finset.range n) (fun j => s.A (i + n * j) * res.state.b j) = s.b i) ∧
        ∀ ε : ℚ, 0 < ε →
          Finset.sum (Finset.range n) (fun i =>
            (Finset.sum (Finset.range n) (fun j => s.A (i + n * j) * res.state.b j) -
              s.b i) ^ 2) < ε ^ 2) ∧
      ((matOf n s.A).det = 0 → 0 < res.info ∧ res.state.found_solution = -1) ∧
      ((∃ i, i < n ∧ ∀ j, j < n → s.A (i + n * j) = 0) →
        0 < res.info ∧ res.state.found_solution = -1) := by
  obtain ⟨⟨hiff, hpos⟩, hsol⟩ := lu_run n s.A s.b (fun _ => 0)
  have hb : ∀ j, j < n → (omc_dgesv n 1 s.A n (fun _ => 0) s.b n).b j =
      if (forwardElim n n 0 (luInit s.A n (fun _ => 0) s.b n)).info = 0 then
        backSubst n (forwardElim n n 0 (luInit s.A n (fun _ => 0) s.b n)).u n
          (fun i => (forwardElim n n 0 (luInit s.A n (fun _ => 0) s.b n)).c i 0) j
      else (forwardElim n n 0 (luInit s.A n (fun _ => 0) s.b n)).c j 0 := by
    intro j hj
    simp only [omc_dgesv, lt_irrefl, if_false, Nat.mod_eq_of_lt hj, Nat.div_eq_of_lt hj, hj,
      Nat.lt_one_iff, and_self, if_true]
  have hinfo : (omc_dgesv n 1 s.A n (fun _ => 0) s.b n).info =
      (forwardElim n n 0 (luInit s.A n (fun _ => 0) s.b n)).info := by
    simp only [omc_dgesv, lt_irrefl, if_false]
  obtain ⟨o, ho⟩ : ∃ o, forwardElim n n 0 (luInit s.A n (fun _ => 0) s.b n) = o := ⟨_, rfl⟩
  rw [ho] at hiff hpos hsol hb hinfo
  obtain ⟨d, hd⟩ : ∃ d, omc_dgesv n 1 s.A n (fun _ => 0) s.b n = d := ⟨_, rfl⟩
  rw [hd] at hb hinfo
  have hsing : (matOf n s.A).det = 0 →
      ∃ res, solve_linear_equation_system omc_dgesv true n s = some res ∧ res.info = d.info ∧
        res.state.found_solution = -1 := by
    intro hdet
    have h1 : o.info ≠ 0 := fun h => hiff.mpr h hdet
    have h2 : 0 < d.info := by rw [hinfo]; exact hpos h1
    refine ⟨⟨⟨d.a, d.b, -1⟩, d.info, 1⟩, ?_, rfl, rfl⟩
    rw [solve_linear_eq, hd, if_neg (by omega), if_pos h2]
  by_cases hdet : (matOf n s.A).det = 0
  · obtain ⟨res, hres, hri, hrf⟩ := hsing hdet
    have h1 : o.info ≠ 0 := fun h => hiff.mpr h hdet
    have h2 : 0 < d.info := by rw [hinfo]; exact hpos h1
    exact ⟨res, hres, fun h => absurd hdet h, fun _ => ⟨by rw [hri]; exact h2, hrf⟩,
      fun _ => ⟨by rw [hri]; exact h2, hrf⟩⟩
  · have h0 : o.info = 0 := hiff.mp hdet
    have hd0 : d.info = 0 := by rw [hinfo]; exact h0
    have hrow : ∀ i, i < n →
        Finset.sum (Finset.range n) (fun j => s.A (i + n * j) * d.b j) = s.b i := by
      intro i hi
      have h := hsol h0 0 i hi
      simp only [Nat.mul_zero, Nat.add_zero] at h
      rw [← h]
      refine Finset.sum_congr rfl (fun j hj => ?_)
      rw [hb j (Finset.mem_range.mp hj), if_pos h0]
    refine ⟨⟨⟨d.a, d.b, s.found_solution⟩, d.info, 1⟩, ?_,
      fun _ => ⟨hd0, rfl, hrow, ?_⟩, fun h => absurd h hdet, ?_⟩
    · rw [solve_linear_eq, hd, if_neg (by omega), if_neg (by omega)]
    · intro ε hε
      have hz : Finset.sum (Finset.range n) (fun i =>
          (Finset.sum (Finset.range n) (fun j => s.A (i + n * j) * d.b j) - s.b i) ^ 2) = 0 := by
        refine Finset.sum_eq_zero (fun i hi => ?_)
        rw [hrow i (Finset.mem_range.mp hi), sub_self]
        ring
      show Finset.sum (Finset.range n) (fun i =>
          (Finset.sum (Finset.range n) (fun j => s.A (i + n * j) * d.b j) - s.b i) ^ 2) < ε ^ 2
      rw [hz]
      positivity
    · rintro ⟨i, hi, hzero⟩
      exfalso
      refine hdet (Matrix.det_eq_zero_of_row_eq_zero ⟨i, hi⟩ (fun j => ?_))
      exact hzero j.val j.isLt

theorem linear_solve_correct_witness :
    (matOf 2 (arrayOf [2, 1, 1, 3])).det ≠ 0 ∧
    (∃ i, i < 2 ∧ ∀ j, j < 2 → arrayOf [1, 0, 2, 0] (i + 2 * j) = 0) ∧
    (∃ res, solve_linear_equation_system omc_dgesv true 2
          ⟨arrayOf [2, 1, 1, 3], arrayOf [3, 5], 0⟩ = some res ∧
        res.info = 0 ∧ res.state.found_solution = 0 ∧
        ∀ i, i < 2 →
          Finset.sum (Finset.range 2)
            (fun j => arrayOf [2, 1, 1, 3] (i + 2 * j) * res.state.b j) = arrayOf [3, 5] i) ∧
    ∃ res, solve_linear_equation_system omc_dgesv true 2
          ⟨arrayOf [1, 0, 2, 0], arrayOf [3, 5], 0⟩ = some res ∧
        0 < res.info ∧ res.state.found_solution = -1 := by
  have hdet : (matOf 2 (arrayOf [2, 1, 1, 3])).det ≠ 0 := by
    simp [matOf, Matrix.det_fin_two, arrayOf]
    norm_num
  have hrow : ∃ i, i < 2 ∧ ∀ j, j < 2 → arrayOf [1, 0, 2, 0] (i + 2 * j) = 0 := by
    refine ⟨1, by decide, fun j hj => ?_⟩
    interval_cases j <;> rfl
  obtain ⟨r1, e1, h1, _, _⟩ :=
    linear_solve_correct 2 ⟨arrayOf [2, 1, 1, 3], arrayOf [3, 5], 0⟩
  obtain ⟨r2, e2, _, _, h2⟩ :=
    linear_solve_correct 2 ⟨arrayOf [1, 0, 2, 0], arrayOf [3, 5], 0⟩
  exact ⟨hdet, hrow, ⟨r1, e1, (h1 hdet).1, (h1 hdet).2.1, (h1 hdet).2.2.1⟩,
    ⟨r2, e2, h2 hrow⟩⟩

/-! ## Mixed systems: the mismatch step -/

/-- C21: after a continuous solve that did not fail, a mismatch in some
component with a further row left (`k + 1 < numValues/size`) moves the index to
exactly `k + 1`, sets every discrete variable `i < size` to the converted table
entry `values[(k+1)*size + i]`, leaves the other variables and the environment
alone and ends with `found_solution = 0`, on which the loop makes another
pass; an accepted candidate leaves the index and the discrete variables as
they are. -/
theorem mismatch_step {σ α β : Type} (cast : α → β) (values : Nat → α)
    (size numValues : Nat) (s : MixedState σ β) (hf : s.found_solution ≠ -1) :
    ((∃ i < size, |s.discrete_loc i - s.discrete_loc2 i| > 1 / 1000000000000) →
      s.cur_value_indx + 1 < numValues / size →
        (check_discrete_values cast values size numValues s).cur_value_indx =
            s.cur_value_indx + 1 ∧
          (∀ i < size, (check_discrete_values cast values size numValues s).vars i =
            cast (values ((s.cur_value_indx + 1) * size + i))) ∧
          (∀ i, size ≤ i →
            (check_discrete_values cast values size numValues s).vars i = s.vars i) ∧
          (check_discrete_values cast values size numValues s).env = s.env ∧
          (check_discrete_values cast values size numValues s).found_solution = 0) ∧
    ((∀ i < size, |s.discrete_loc i - s.discrete_loc2 i| ≤ 1 / 1000000000000) →
      (check_discrete_values cast values size numValues s).found_solution = 1 ∧
        (check_discrete_values cast values size numValues s).cur_value_indx =
          s.cur_value_indx ∧
        (check_discrete_values cast values size numValues s).vars = s.vars) ∧
    ∀ (body : Body σ β) (fuel : Nat) (st : MixedState σ β) (tr : List (Nat × (Nat → β))),
      (mixedBody body cast values size numValues st).found_solution = 0 →
        mixedLoop body cast values size numValues (fuel + 1) st tr =
          mixedLoop body cast values size numValues fuel
            (mixedBody body cast values size numValues st)
            (tr ++ [(st.cur_value_indx, st.vars)]) := by
  refine ⟨fun hm hlt => ?_, fun ha => ?_, fun body fuel st tr h => ?_⟩
  · have hn : ¬ ∀ i < size, |s.discrete_loc i - s.discrete_loc2 i| ≤ 1 / 1000000000000 := by
      obtain ⟨i, hi, hgt⟩ := hm
      intro hall
      exact absurd (hall i hi) (not_le.mpr hgt)
    rw [check_advance cast values size numValues s (Or.inr hn) hlt]
    refine ⟨rfl, fun i hi => ?_, fun i hi => ?_, rfl, rfl⟩
    · show (if i < size then _ else _) = _
      rw [if_pos hi]
    · show (if i < size then _ else _) = _
      rw [if_neg (by omega)]
  · rw [check_accept cast values size numValues s hf ha]
    exact ⟨rfl, rfl, rfl⟩
  · exact mixedLoop_continue body cast values size numValues fuel st tr h

theorem mismatch_step_witness :
    (check_discrete_values id (tableOf [false, true, true]) 1 3
        (⟨(), 0, 0, fun _ => false, fun _ => 0, fun _ => 1, []⟩ :
          MixedState Unit Bool)).cur_value_indx = 0 + 1 ∧
      (∀ i < 1, (check_discrete_values id (tableOf [false, true, true]) 1 3
        (⟨(), 0, 0, fun _ => false, fun _ => 0, fun _ => 1, []⟩ :
          MixedState Unit Bool)).vars i = id (tableOf [false, true, true] ((0 + 1) * 1 + i))) ∧
      (∀ i, 1 ≤ i → (check_discrete_values id (tableOf [false, true, true]) 1 3
        (⟨(), 0, 0, fun _ => false, fun _ => 0, fun _ => 1, []⟩ :
          MixedState Unit Bool)).vars i = false) ∧
      (check_discrete_values id (tableOf [false, true, true]) 1 3
        (⟨(), 0, 0, fun _ => false, fun _ => 0, fun _ => 1, []⟩ :
          MixedState Unit Bool)).env = () ∧
      (check_discrete_values id (tableOf [false, true, true]) 1 3
        (⟨(), 0, 0, fun _ => false, fun _ => 0, fun _ => 1, []⟩ :
          MixedState Unit Bool)).found_solution = 0 :=
  (mismatch_step id (tableOf [false, true, true]) 1 3
    (⟨(), 0, 0, fun _ => false, fun _ => 0, fun _ => 1, []⟩ : MixedState Unit Bool)
    (by decide)).1 ⟨0, by decide, by norm_num⟩ (by decide)

/-! ## Extrapolation: the samples -/

/-- C25: for sample times `t1 ≠ t2` the extrapolation evaluated at `t0 = t1`
is `old1` and evaluated at `t0 = t2` is `old2`; when both samples are equal it
is that common value at every `t0`. -/
theorem extraPolate_reproduces (t0 t1 t2 v old1 old2 : ℚ) (h : t1 ≠ t2) :
    extraPolate t1 t1 t2 v old1 old2 = some old1 ∧
      extraPolate t2 t1 t2 v old1 old2 = some old2 ∧
      (old1 = old2 → extraPolate t0 t1 t2 v old1 old2 = some old1) := by
  have hne : t1 - t2 ≠ 0 := sub_ne_zero.mpr h
  have hf : ∀ t : ℚ, extraPolate t t1 t2 v old1 old2 =
      some ((old1 - old2) / (t1 - t2) * t + (t1 * old2 - t2 * old1) / (t1 - t2)) := by
    intro t
    simp [extraPolate, fdiv, h, hne]
  refine ⟨?_, ?_, fun he => ?_⟩
  · rw [hf]; congr 1; field_simp; ring
  · rw [hf]; congr 1; field_simp; ring
  · rw [hf, he]; congr 1; field_simp; ring

theorem extraPolate_reproduces_witness :
    extraPolate 2 2 1 99 5 3 = some 5 ∧ extraPolate 1 2 1 99 5 3 = some 3 ∧
      ((5 : ℚ) = 3 → extraPolate 7 2 1 99 5 3 = some 5) :=
  extraPolate_reproduces 7 2 1 99 5 3 (by norm_num)

/-! ## Mixed systems: reads of the candidate table -/

/-- The indices of a row below the row count lie below `numValues`. -/
theorem row_index_lt (size numValues k i : Nat) (hk : k < numValues / size) (hi : i < size) :
    k * size + i < numValues := by
  have h1 : (k + 1) * size ≤ numValues / size * size := Nat.mul_le_mul_right size hk
  have h2 : numValues / size * size ≤ numValues := Nat.div_mul_le_self numValues size
  have h3 : (k + 1) * size = k * size + size := by ring
  omega

/-- One call of `check_discrete_values` reads the table at indices below
`numValues` only, and only in a row below the row count. -/
theorem check_reads {σ α β : Type} (cast : α → β) (values : Nat → α) (size numValues : Nat)
    (s : MixedState σ β) :
    ∃ new, (check_discrete_values cast values size numValues s).reads = s.reads ++ new ∧
      (∀ idx ∈ new, idx < numValues) ∧
      (new ≠ [] →
        (check_discrete_values cast values size numValues s).cur_value_indx <
          numValues / size) := by
  by_cases hm : s.found_solution = -1 ∨
      ¬ ∀ i < size, |s.discrete_loc i - s.discrete_loc2 i| ≤ 1 / 1000000000000
  · by_cases hlt : s.cur_value_indx + 1 < numValues / size
    · rw [check_advance cast values size numValues s hm hlt]
      refine ⟨_, rfl, fun idx hidx => ?_, fun _ => hlt⟩
      obtain ⟨i, hi, rfl⟩ := List.mem_map.mp hidx
      exact row_index_lt size numValues _ i hlt (List.mem_range.mp hi)
    · rw [check_exhaust cast values size numValues s hm (by omega)]
      exact ⟨[], (List.append_nil _).symm, fun idx hidx => absurd hidx (List.not_mem_nil _),
        fun h => absurd rfl h⟩
  · push_neg at hm
    rw [check_accept cast values size numValues s hm.1 hm.2]
    exact ⟨[], (List.append_nil _).symm, fun idx hidx => absurd hidx (List.not_mem_nil _),
      fun h => absurd rfl h⟩

/-- The table entries from `numValues` on have no influence on
`check_discrete_values`. -/
theorem check_values_ext {σ α β : Type} (cast : α → β) (values values2 : Nat → α)
    (size numValues : Nat) (s : MixedState σ β)
    (hv : ∀ t, t < numValues → values2 t = values t) :
    check_discrete_values cast values2 size numValues s =
      check_discrete_values cast values size numValues s := by
  by_cases hm : s.found_solution = -1 ∨
      ¬ ∀ i < size, |s.discrete_loc i - s.discrete_loc2 i| ≤ 1 / 1000000000000
  · by_cases hlt : s.cur_value_indx + 1 < numValues / size
    · rw [check_advance cast values size numValues s hm hlt,
        check_advance cast values2 size numValues s hm hlt]
      have hvars : (fun i => if i < size then
            cast (values2 ((s.cur_value_indx + 1) * size + i)) else s.vars i) =
          fun i => if i < size then
            cast (values ((s.cur_value_indx + 1) * size + i)) else s.vars i := by
        funext i
        by_cases hi : i < size
        · rw [if_pos hi, if_pos hi, hv _ (row_index_lt size numValues _ i hlt hi)]
        · rw [if_neg hi, if_neg hi]
      rw [hvars]
    · rw [check_exhaust cast values size numValues s hm (by omega),
        check_exhaust cast values2 size numValues s hm (by omega)]
  · push_neg at hm
    rw [check_accept cast values size numValues s hm.1 hm.2,
      check_accept cast values2 size numValues s hm.1 hm.2]

/-- The generated code does not touch the list of reads. -/
theorem mixedBody_reads {σ α β : Type} (body : Body σ β) (cast : α → β) (values : Nat → α)
    (size numValues : Nat) (s : MixedState σ β) :
    ∃ new, (mixedBody body cast values size numValues s).reads = s.reads ++ new ∧
      ∀ idx ∈ new, idx < numValues := by
  obtain ⟨new, h1, h2, _⟩ := check_reads cast values size numValues
    { s with
      env := (body s.env s.vars).env
      found_solution := (body s.env s.vars).found_solution
      vars := (body s.env s.vars).vars
      discrete_loc := (body s.env s.vars).discrete_loc
      discrete_loc2 := (body s.env s.vars).discrete_loc2 }
  exact ⟨new, h1, h2⟩

theorem mixedLoop_reads {σ α β : Type} (body : Body σ β) (cast : α → β) (values : Nat → α)
    (size numValues : Nat) :
    ∀ (fuel : Nat) (s : MixedState σ β) (tr : List (Nat × (Nat → β)))
      (r : MixedState σ β × List (Nat × (Nat → β))),
      mixedLoop body cast values size numValues fuel s tr = some r →
      (∀ idx ∈ s.reads, idx < numValues) → ∀ idx ∈ r.1.reads, idx < numValues := by
  intro fuel
  induction fuel with
  | zero => intro s tr r h; exact absurd h (by simp [mixedLoop])
  | succ fuel ih =>
    intro s tr r h hs
    obtain ⟨new, h1, h2⟩ := mixedBody_reads body cast values size numValues s
    have hb : ∀ idx ∈ (mixedBody body cast values size numValues s).reads,
        idx < numValues := by
      intro idx hidx
      rw [h1] at hidx
      rcases List.mem_append.mp hidx with h3 | h3
      · exact hs idx h3
      · exact h2 idx h3
    by_cases h0 : (mixedBody body cast values size numValues s).found_solution = 0
    · rw [mixedLoop_continue body cast values size numValues fuel s tr h0] at h
      exact ih _ _ r h hb
    · rw [mixedLoop_exit body cast values size numValues fuel s tr h0] at h
      cases h
      exact hb

/-- C26: for `size ≥ 1` every index `cur_value_indx*size + i` that
`check_discrete_values` reads from the table lies below `numValues`, and a row
is read only when the index is below `numValues/size` (a trailing partial row
is never read): the call adds only such indices to the list of reads, the
table entries from `numValues` on have no influence on its result, and in a
whole run of the resolver every index read lies below `numValues`. -/
theorem table_reads_in_bounds {σ α β : Type} (cast : α → β) (values : Nat → α)
    (size numValues : Nat) (hsize : 1 ≤ size) :
    (∀ s : MixedState σ β,
      ∃ new, (check_discrete_values cast values size numValues s).reads = s.reads ++ new ∧
        (∀ idx ∈ new, idx < numValues) ∧
        (new ≠ [] →
          new = (List.range size).map
            (fun i => (check_discrete_values cast values size numValues s).cur_value_indx *
              size + i) ∧
          (check_discrete_values cast values size numValues s).cur_value_indx <
            numValues / size ∧
          ((check_discrete_values cast values size numValues s).cur_value_indx + 1) * size ≤
            numValues)) ∧
    (∀ (s : MixedState σ β) (values2 : Nat → α), (∀ t, t < numValues → values2 t = values t) →
      check_discrete_values cast values2 size numValues s =
        check_discrete_values cast values size numValues s) ∧
    ∀ (body : Body σ β) (fuel : Nat) (env : σ) (vars : Nat → β)
      (r : MixedState σ β × List (Nat × (Nat → β))),
      mixed_equation_system body cast values size numValues fuel env vars = some r →
        ∀ idx ∈ r.1.reads, idx < numValues := by
  refine ⟨fun s => ?_, fun s values2 hv => check_values_ext cast values values2 size numValues s hv,
    fun body fuel env vars r h => ?_⟩
  · by_cases hm : s.found_solution = -1 ∨
        ¬ ∀ i < size, |s.discrete_loc i - s.discrete_loc2 i| ≤ 1 / 1000000000000
    · by_cases hlt : s.cur_value_indx + 1 < numValues / size
      · rw [check_advance cast values size numValues s hm hlt]
        refine ⟨_, rfl, fun idx hidx => ?_, fun _ => ⟨rfl, hlt, ?_⟩⟩
        · obtain ⟨i, hi, rfl⟩ := List.mem_map.mp hidx
          exact row_index_lt size numValues _ i hlt (List.mem_range.mp hi)
        · have h1 := row_index_lt size numValues (s.cur_value_indx + 1) (size - 1) hlt
            (by omega)
          show (s.cur_value_indx + 1 + 1) * size ≤ numValues
          have h3 : (s.cur_value_indx + 1 + 1) * size =
              (s.cur_value_indx + 1) * size + size := by ring
          omega
      · rw [check_exhaust cast values size numValues s hm (by omega)]
        exact ⟨[], (List.append_nil _).symm,
          fun idx hidx => absurd hidx (List.not_mem_nil _), fun h => absurd rfl h⟩
    · push_neg at hm
      rw [check_accept cast values size numValues s hm.1 hm.2]
      exact ⟨[], (List.append_nil _).symm,
        fun idx hidx => absurd hidx (List.not_mem_nil _), fun h => absurd rfl h⟩
  · exact mixedLoop_reads body cast values size numValues fuel _ [] r h
      (fun idx hidx => absurd hidx (List.not_mem_nil _))

theorem table_reads_in_bounds_witness :
    (check_discrete_values id (tableOf [false, false, true, true, false]) 2 5
        (⟨(), -1, 0, fun _ => false, fun _ => 0, fun _ => 0, []⟩ :
          MixedState Unit Bool)).reads = [2, 3] ∧
      ∀ idx ∈ (check_discrete_values id (tableOf [false, false, true, true, false]) 2 5
        (⟨(), -1, 0, fun _ => false, fun _ => 0, fun _ => 0, []⟩ :
          MixedState Unit Bool)).reads, idx < 5 := by
  obtain ⟨new, h1, h2, _⟩ :=
    (@table_reads_in_bounds Unit Bool Bool id (tableOf [false, false, true, true, false]) 2 5
      (by decide)).1 ⟨(), -1, 0, fun _ => false, fun _ => 0, fun _ => 0, []⟩
  refine ⟨by decide, fun idx hidx => ?_⟩
  rw [h1] at hidx
  exact h2 idx (by simpa using hidx)

/-! ## Nonlinear driver: invariants of a run -/

/-- Every run of `solve_nonlinear_system` returns within 81 loop tests, makes
at most 80 passes, and each of its passes is the loop body run on a state that
satisfies any invariant `P` which holds on entry and which the loop body
preserves. -/
theorem solve_passes (E : Int) (kernel : Kernel) (P : NlsState → Prop)
    (hP : ∀ c s, P s → s.giveUp = false → (solveBody E kernel c s).output.giveUp = false →
      P (solveBody E kernel c s).output)
    (fuel : Nat) (s : NlsState) (hs : P (solveEntry s)) :
    ∃ r tr, solve_nonlinear_system E kernel (fuel + 81) s = some (r, tr) ∧ tr.length ≤ 80 ∧
      ∀ p ∈ tr, ∃ u, P u ∧ u.giveUp = false ∧ p = solveBody E kernel p.call u := by
  obtain ⟨r, tr, h1, _, h3⟩ :=
    solveLoop_terminates E kernel (fuel + 81) (solveEntry s) []
      (by show 79 + 2 ≤ fuel + 81; omega)
  obtain ⟨tr2, t, e1, e2, e3, _, _, e6⟩ :=
    solveLoop_trace E kernel P hP _ _ _ _ _ h1 hs rfl
  simp only [List.nil_append] at e1 h1
  refine ⟨r, tr, h1, ?_, ?_⟩
  · have : ladderRank (solveEntry s) = 79 := rfl
    omega
  · intro p hp
    rw [e1] at hp
    rcases List.mem_append.mp hp with h | h
    · obtain ⟨u, hu1, hu2, hu3, _⟩ := e6 p h
      exact ⟨u, hu1, hu2, hu3⟩
    · have hpe : p = solveBody E kernel ([] ++ tr2).length t := List.mem_singleton.mp h
      exact ⟨t, e2, e3, by rw [hpe]; rfl⟩

/-- The factor as a function of `retries`: the loop body keeps this relation. -/
theorem factor_step (E : Int) (kernel : Kernel) (c : Nat) (s : NlsState) (f0 : ℚ)
    (h : s.initial_factor = f0 ∧
      ((s.retries = 0 ∧ s.factor = f0) ∨ (s.retries = 1 ∧ s.factor = f0 / 10) ∨
        (s.retries = 2 ∧ s.factor = f0 / 100) ∨ (3 ≤ s.retries ∧ s.factor = f0 / 1000)))
    (hg : (solveBody E kernel c s).output.giveUp = false) :
    (solveBody E kernel c s).output.initial_factor = f0 ∧
      (((solveBody E kernel c s).output.retries = 0 ∧
          (solveBody E kernel c s).output.factor = f0) ∨
        ((solveBody E kernel c s).output.retries = 1 ∧
          (solveBody E kernel c s).output.factor = f0 / 10) ∨
        ((solveBody E kernel c s).output.retries = 2 ∧
          (solveBody E kernel c s).output.factor = f0 / 100) ∨
        (3 ≤ (solveBody E kernel c s).output.retries ∧
          (solveBody E kernel c s).output.factor = f0 / 1000)) := by
  have hk := kernelPass_frame kernel c s
  obtain ⟨k, hkdef⟩ : ∃ k, kernelPass kernel c s = k := ⟨_, rfl⟩
  rw [hkdef] at hk
  obtain ⟨hkg, hkr, _, _, hkf, hki, _⟩ := hk
  have hout : (solveBody E kernel c s).output = (ladder E k).1 := by
    show (ladder E (kernelPass kernel c s)).1 = _
    rw [hkdef]
  rw [hout] at hg ⊢
  obtain ⟨hi0, hcases⟩ := h
  rw [← hkr, ← hkf] at hcases
  rw [← hki] at hi0
  revert hg
  refine ladder_elim E k (fun r => r.1.giveUp = false → r.1.initial_factor = f0 ∧
      ((r.1.retries = 0 ∧ r.1.factor = f0) ∨ (r.1.retries = 1 ∧ r.1.factor = f0 / 10) ∨
        (r.1.retries = 2 ∧ r.1.factor = f0 / 100) ∨
        (3 ≤ r.1.retries ∧ r.1.factor = f0 / 1000))) ?_ ?_ ?_ ?_ ?_ ?_ ?_ ?_ ?_ ?_
  · intro _ hr _
    refine ⟨hi0, ?_⟩
    show (k.retries + 1 = 0 ∧ k.factor / 10 = f0) ∨ (k.retries + 1 = 1 ∧ k.factor / 10 = f0 / 10) ∨
      (k.retries + 1 = 2 ∧ k.factor / 10 = f0 / 100) ∨
      (3 ≤ k.retries + 1 ∧ k.factor / 10 = f0 / 1000)
    rcases hcases with ⟨h1, h2⟩ | ⟨h1, h2⟩ | ⟨h1, h2⟩ | ⟨h1, h2⟩
    · right; left; exact ⟨by omega, by rw [h2]⟩
    · right; right; left; exact ⟨by omega, by rw [h2]; ring⟩
    · right; right; right; exact ⟨by omega, by rw [h2]; ring⟩
    · omega
  · intro _ h3 _ _
    refine ⟨hi0, Or.inr (Or.inr (Or.inr ?_))⟩
    show 3 ≤ k.retries + 1 ∧ k.factor = f0 / 1000
    rcases hcases with ⟨h1, h2⟩ | ⟨h1, h2⟩ | ⟨h1, h2⟩ | ⟨h1, h2⟩
    · omega
    · omega
    · omega
    · exact ⟨by omega, h2⟩
  · intro _ h3 _ _
    refine ⟨hi0, Or.inr (Or.inr (Or.inr ?_))⟩
    show 3 ≤ k.retries + 1 ∧ k.factor = f0 / 1000
    rcases hcases with ⟨h1, h2⟩ | ⟨h1, h2⟩ | ⟨h1, h2⟩ | ⟨h1, h2⟩
    · omega
    · omega
    · omega
    · exact ⟨by omega, h2⟩
  · intro _ h3 _ _
    refine ⟨hi0, Or.inr (Or.inr (Or.inr ?_))⟩
    show 3 ≤ k.retries + 1 ∧ k.factor = f0 / 1000
    rcases hcases with ⟨h1, h2⟩ | ⟨h1, h2⟩ | ⟨h1, h2⟩ | ⟨h1, h2⟩
    · omega
    · omega
    · omega
    · exact ⟨by omega, h2⟩
  · intro _ _ _ _; exact ⟨hi0, Or.inl ⟨rfl, hi0⟩⟩
  · intro _ _ _ _ _; exact ⟨hi0, Or.inl ⟨rfl, hi0⟩⟩
  · intro _ _ _ _ _; exact ⟨hi0, Or.inl ⟨rfl, hi0⟩⟩
  · intro _ _ _ _ _; exact ⟨hi0, Or.inl ⟨rfl, hi0⟩⟩
  · intro _ _ _ h; exact absurd (show k.giveUp = false from h) (by simp [hkg])
  · intro _ h; exact absurd (show k.giveUp = false from h) (by simp [hkg])

/-- C22: in every run of `solve_nonlinear_system`, whatever the kernel
answers, entered with `factor = initial_factor` (as `start_nonlinear_system`
sets them), the run returns and the factor handed to each kernel call is one
of `initial_factor`, `initial_factor/10`, `initial_factor/100`,
`initial_factor/1000`; with a positive `initial_factor` it is positive and not
below `initial_factor/1000`. -/
theorem factor_invariant (E : Int) (kernel : Kernel) (s : NlsState) (fuel : Nat)
    (hf : s.factor = s.initial_factor) :
    ∃ r tr, solve_nonlinear_system E kernel (fuel + 81) s = some (r, tr) ∧
      ∀ p ∈ tr,
        (p.input.factor = s.initial_factor ∨ p.input.factor = s.initial_factor / 10 ∨
          p.input.factor = s.initial_factor / 100 ∨
          p.input.factor = s.initial_factor / 1000) ∧
        (0 < s.initial_factor →
          0 < p.input.factor ∧ s.initial_factor / 1000 ≤ p.input.factor) := by
  obtain ⟨r, tr, h1, _, h3⟩ := solve_passes E kernel
    (fun u => u.initial_factor = s.initial_factor ∧
      ((u.retries = 0 ∧ u.factor = s.initial_factor) ∨
        (u.retries = 1 ∧ u.factor = s.initial_factor / 10) ∨
        (u.retries = 2 ∧ u.factor = s.initial_factor / 100) ∨
        (3 ≤ u.retries ∧ u.factor = s.initial_factor / 1000)))
    (fun c u hu _ hg => factor_step E kernel c u s.initial_factor hu hg)
    fuel s ⟨rfl, Or.inl ⟨rfl, hf⟩⟩
  refine ⟨r, tr, h1, fun p hp => ?_⟩
  obtain ⟨u, ⟨_, hu⟩, _, hpe⟩ := h3 p hp
  have hin : p.input.factor = u.factor := by rw [hpe]; rfl
  rw [hin]
  have hmem : u.factor = s.initial_factor ∨ u.factor = s.initial_factor / 10 ∨
      u.factor = s.initial_factor / 100 ∨ u.factor = s.initial_factor / 1000 := by
    rcases hu with ⟨_, h⟩ | ⟨_, h⟩ | ⟨_, h⟩ | ⟨_, h⟩
    · exact Or.inl h
    · exact Or.inr (Or.inl h)
    · exact Or.inr (Or.inr (Or.inl h))
    · exact Or.inr (Or.inr (Or.inr h))
  refine ⟨hmem, fun hpos => ?_⟩
  rcases hmem with h | h | h | h <;> rw [h] <;> constructor <;> linarith

theorem factor_invariant_witness :
    ∃ r tr, solve_nonlinear_system 7 (constKernel 4) (0 + 81)
        (start_nonlinear_system 1 (fun _ => 0) 0 0) = some (r, tr) ∧
      ∀ p ∈ tr,
        (p.input.factor = 100 ∨ p.input.factor = 10 ∨ p.input.factor = 1 ∨
          p.input.factor = 1 / 10) ∧ 0 < p.input.factor := by
  obtain ⟨r, tr, h1, h2⟩ :=
    factor_invariant 7 (constKernel 4) (start_nonlinear_system 1 (fun _ => 0) 0 0) 0 rfl
  refine ⟨r, tr, h1, fun p hp => ?_⟩
  obtain ⟨h3, h4⟩ := h2 p hp
  have e : (start_nonlinear_system 1 (fun _ => 0) 0 0).initial_factor = 100 := rfl
  rw [e] at h3 h4
  norm_num at h3 h4
  exact ⟨h3, h4.1⟩

/-- One pass of the loop body on counters within their bounds: the counters
stay within the bounds and change as the branch taken says. -/
theorem pass_counters (E : Int) (kernel : Kernel) (c : Nat) (s : NlsState)
    (h : s.retries ≤ 9 ∧ s.retries2 ≤ 1 ∧ s.retries3 ≤ 3) :
    ((solveBody E kernel c s).output.retries ≤ 9 ∧
      (solveBody E kernel c s).output.retries2 ≤ 1 ∧
      (solveBody E kernel c s).output.retries3 ≤ 3) ∧
    (((solveBody E kernel c s).action = Action.tier1 ∨
        (solveBody E kernel c s).action = Action.tier2 ∨
        (solveBody E kernel c s).action = Action.tier3 ∨
        (solveBody E kernel c s).action = Action.tier4) →
      (solveBody E kernel c s).output.retries = s.retries + 1 ∧
      (solveBody E kernel c s).output.retries2 = s.retries2 ∧
      (solveBody E kernel c s).output.retries3 = s.retries3) ∧
    ((solveBody E kernel c s).action = Action.tier5 →
      (solveBody E kernel c s).output.retries = 0 ∧
      (solveBody E kernel c s).output.retries2 = s.retries2 + 1 ∧
      (solveBody E kernel c s).output.retries3 = s.retries3) ∧
    (((solveBody E kernel c s).action = Action.tier6 ∨
        (solveBody E kernel c s).action = Action.tier7 ∨
        (solveBody E kernel c s).action = Action.tier8) →
      (solveBody E kernel c s).output.retries = 0 ∧
      (solveBody E kernel c s).output.retries2 = 0 ∧
      (solveBody E kernel c s).output.retries3 = s.retries3 + 1) ∧
    (((solveBody E kernel c s).action = Action.failed ∨
        (solveBody E kernel c s).action = Action.stop) →
      (solveBody E kernel c s).output.retries = s.retries ∧
      (solveBody E kernel c s).output.retries2 = s.retries2 ∧
      (solveBody E kernel c s).output.retries3 = s.retries3) := by
  have hk := kernelPass_frame kernel c s
  obtain ⟨k, hkdef⟩ : ∃ k, kernelPass kernel c s = k := ⟨_, rfl⟩
  rw [hkdef] at hk
  obtain ⟨_, hk1, hk2, hk3, _⟩ := hk
  have hout : (solveBody E kernel c s).output = (ladder E k).1 := by
    show (ladder E (kernelPass kernel c s)).1 = _
    rw [hkdef]
  have hact : (solveBody E kernel c s).action = (ladder E k).2 := by
    show (ladder E (kernelPass kernel c s)).2 = _
    rw [hkdef]
  rw [hout, hact, ← hk1, ← hk2, ← hk3]
  rw [← hk1, ← hk2, ← hk3] at h
  obtain ⟨b1, b2, b3⟩ := h
  refine ladder_elim E k (fun r =>
    (r.1.retries ≤ 9 ∧ r.1.retries2 ≤ 1 ∧ r.1.retries3 ≤ 3) ∧
    ((r.2 = Action.tier1 ∨ r.2 = Action.tier2 ∨ r.2 = Action.tier3 ∨ r.2 = Action.tier4) →
      r.1.retries = k.retries + 1 ∧ r.1.retries2 = k.retries2 ∧ r.1.retries3 = k.retries3) ∧
    (r.2 = Action.tier5 →
      r.1.retries = 0 ∧ r.1.retries2 = k.retries2 + 1 ∧ r.1.retries3 = k.retries3) ∧
    ((r.2 = Action.tier6 ∨ r.2 = Action.tier7 ∨ r.2 = Action.tier8) →
      r.1.retries = 0 ∧ r.1.retries2 = 0 ∧ r.1.retries3 = k.retries3 + 1) ∧
    ((r.2 = Action.failed ∨ r.2 = Action.stop) →
      r.1.retries = k.retries ∧ r.1.retries2 = k.retries2 ∧ r.1.retries3 = k.retries3))
    ?_ ?_ ?_ ?_ ?_ ?_ ?_ ?_ ?_ ?_
  · intro _ hr
    exact ⟨⟨by show k.retries + 1 ≤ 9; omega, b2, b3⟩, fun _ => ⟨rfl, rfl, rfl⟩,
      fun h => (by cases h), fun h => (by rcases h with h | h | h <;> cases h),
      fun h => (by rcases h with h | h <;> cases h)⟩
  · intro _ _ hr
    exact ⟨⟨by show k.retries + 1 ≤ 9; omega, b2, b3⟩, fun _ => ⟨rfl, rfl, rfl⟩,
      fun h => (by cases h), fun h => (by rcases h with h | h | h <;> cases h),
      fun h => (by rcases h with h | h <;> cases h)⟩
  · intro _ _ hr
    exact ⟨⟨by show k.retries + 1 ≤ 9; omega, b2, b3⟩, fun _ => ⟨rfl, rfl, rfl⟩,
      fun h => (by cases h), fun h => (by rcases h with h | h | h <;> cases h),
      fun h => (by rcases h with h | h <;> cases h)⟩
  · intro _ _ hr
    exact ⟨⟨by show k.retries + 1 ≤ 9; omega, b2, b3⟩, fun _ => ⟨rfl, rfl, rfl⟩,
      fun h => (by cases h), fun h => (by rcases h with h | h | h <;> cases h),
      fun h => (by rcases h with h | h <;> cases h)⟩
  · intro _ _ hr
    exact ⟨⟨Nat.zero_le _, by show k.retries2 + 1 ≤ 1; omega, b3⟩,
      fun h => (by rcases h with h | h | h | h <;> cases h), fun _ => ⟨rfl, rfl, rfl⟩,
      fun h => (by rcases h with h | h | h <;> cases h),
      fun h => (by rcases h with h | h <;> cases h)⟩
  · intro _ _ _ hr
    exact ⟨⟨Nat.zero_le _, Nat.zero_le _, by show k.retries3 + 1 ≤ 3; omega⟩,
      fun h => (by rcases h with h | h | h | h <;> cases h), fun h => (by cases h),
      fun _ => ⟨rfl, rfl, rfl⟩, fun h => (by rcases h with h | h <;> cases h)⟩
  · intro _ _ _ hr
    exact ⟨⟨Nat.zero_le _, Nat.zero_le _, by show k.retries3 + 1 ≤ 3; omega⟩,
      fun h => (by rcases h with h | h | h | h <;> cases h), fun h => (by cases h),
      fun _ => ⟨rfl, rfl, rfl⟩, fun h => (by rcases h with h | h <;> cases h)⟩
  · intro _ _ _ hr
    exact ⟨⟨Nat.zero_le _, Nat.zero_le _, by show k.retries3 + 1 ≤ 3; omega⟩,
      fun h => (by rcases h with h | h | h | h <;> cases h), fun h => (by cases h),
      fun _ => ⟨rfl, rfl, rfl⟩, fun h => (by rcases h with h | h <;> cases h)⟩
  · intro _ _ _
    exact ⟨⟨b1, b2, b3⟩, fun h => (by rcases h with h | h | h | h <;> cases h),
      fun h => (by cases h), fun h => (by rcases h with h | h | h <;> cases h),
      fun _ => ⟨rfl, rfl, rfl⟩⟩
  · intro _
    exact ⟨⟨b1, b2, b3⟩, fun h => (by rcases h with h | h | h | h <;> cases h),
      fun h => (by cases h), fun h => (by rcases h with h | h | h <;> cases h),
      fun _ => ⟨rfl, rfl, rfl⟩⟩

/-- C23: every run of `solve_nonlinear_system` returns, and at every pass of
it the counters satisfy `retries ≤ 9`, `retries2 ≤ 1`, `retries3 ≤ 3` before
and after the pass; a pass changes the counters by its branch only: tiers 1-4
add one to `retries`, tier 5 resets `retries` and adds one to `retries2`,
tiers 6-8 reset `retries` and `retries2` and add one to `retries3`, the other
branches change none; so `retries3` never decreases. -/
theorem retry_counter_invariant (E : Int) (kernel : Kernel) (s : NlsState) (fuel : Nat) :
    ∃ r tr, solve_nonlinear_system E kernel (fuel + 81) s = some (r, tr) ∧
      ∀ p ∈ tr,
        (p.input.retries ≤ 9 ∧ p.input.retries2 ≤ 1 ∧ p.input.retries3 ≤ 3) ∧
        (p.output.retries ≤ 9 ∧ p.output.retries2 ≤ 1 ∧ p.output.retries3 ≤ 3) ∧
        ((p.action = Action.tier1 ∨ p.action = Action.tier2 ∨ p.action = Action.tier3 ∨
            p.action = Action.tier4) →
          p.output.retries = p.input.retries + 1 ∧ p.output.retries2 = p.input.retries2 ∧
          p.output.retries3 = p.input.retries3) ∧
        (p.action = Action.tier5 →
          p.output.retries = 0 ∧ p.output.retries2 = p.input.retries2 + 1 ∧
          p.output.retries3 = p.input.retries3) ∧
        ((p.action = Action.tier6 ∨ p.action = Action.tier7 ∨ p.action = Action.tier8) →
          p.output.retries = 0 ∧ p.output.retries2 = 0 ∧
          p.output.retries3 = p.input.retries3 + 1) ∧
        ((p.action = Action.failed ∨ p.action = Action.stop) →
          p.output.retries = p.input.retries ∧ p.output.retries2 = p.input.retries2 ∧
          p.output.retries3 = p.input.retries3) ∧
        p.input.retries3 ≤ p.output.retries3 := by
  obtain ⟨r, tr, h1, _, h3⟩ := solve_passes E kernel
    (fun u => u.retries ≤ 9 ∧ u.retries2 ≤ 1 ∧ u.retries3 ≤ 3)
    (fun c u hu _ _ => (pass_counters E kernel c u hu).1)
    fuel s ⟨Nat.zero_le _, Nat.zero_le _, Nat.zero_le _⟩
  refine ⟨r, tr, h1, fun p hp => ?_⟩
  obtain ⟨u, hu, _, hpe⟩ := h3 p hp
  obtain ⟨c1, c2, c3, c4, c5⟩ := pass_counters E kernel p.call u hu
  rw [← hpe] at c1 c2 c3 c4 c5
  have i1 : p.input.retries = u.retries := by rw [hpe]; rfl
  have i2 : p.input.retries2 = u.retries2 := by rw [hpe]; rfl
  have i3 : p.input.retries3 = u.retries3 := by rw [hpe]; rfl
  rw [i1, i2, i3]
  refine ⟨hu, c1, c2, c3, c4, c5, ?_⟩
  rcases hact : p.action with _ | _ | _ | _ | _ | _ | _ | _ | _ | _
  · rw [(c2 (Or.inl hact)).2.2]
  · rw [(c2 (Or.inr (Or.inl hact))).2.2]
  · rw [(c2 (Or.inr (Or.inr (Or.inl hact)))).2.2]
  · rw [(c2 (Or.inr (Or.inr (Or.inr hact)))).2.2]
  · rw [(c3 hact).2.2]
  · rw [(c4 (Or.inl hact)).2.2]; omega
  · rw [(c4 (Or.inr (Or.inl hact))).2.2]; omega
  · rw [(c4 (Or.inr (Or.inr hact))).2.2]; omega
  · rw [(c5 (Or.inl hact)).2.2]
  · rw [(c5 (Or.inr hact)).2.2]

/-! ## Nonlinear driver: the exhausted ladder -/

/-- More budget does not change the result of the loop. -/
theorem solveLoop_mono (E : Int) (kernel : Kernel) :
    ∀ (fuel : Nat) (s : NlsState) (tr : List Pass) (x : NlsState × List Pass) (k : Nat),
      solveLoop E kernel fuel s tr = some x → solveLoop E kernel (fuel + k) s tr = some x := by
  intro fuel
  induction fuel with
  | zero => intro s tr x k h; exact absurd h (by simp [solveLoop])
  | succ fuel ih =>
    intro s tr x k h
    have e : fuel + 1 + k = (fuel + k) + 1 := by omega
    rw [e]
    by_cases hg : s.giveUp = true
    · rw [solveLoop_giveUp E kernel fuel s tr hg] at h
      rw [solveLoop_giveUp E kernel (fuel + k) s tr hg]
      exact h
    · have hg2 : s.giveUp = false := by simpa using hg
      rw [solveLoop_pass E kernel fuel s tr hg2] at h
      rw [solveLoop_pass E kernel (fuel + k) s tr hg2]
      exact ih _ _ x k h

/-- With `retries` at 9 the branch is chosen by `retries2` and `retries3`. -/
theorem noProgressActions_late (m r r2 r3 : Nat) (h : 9 ≤ r) :
    noProgressActions (m + 1) r r2 r3 =
      if r2 < 1 then Action.tier5 :: noProgressActions m 0 (r2 + 1) r3
      else if r3 < 1 then Action.tier6 :: noProgressActions m 0 0 (r3 + 1)
      else if r3 < 2 then Action.tier7 :: noProgressActions m 0 0 (r3 + 1)
      else if r3 < 3 then Action.tier8 :: noProgressActions m 0 0 (r3 + 1)
      else [Action.failed] := by
  have n1 : ¬ r < 3 := by omega
  have n2 : ¬ r < 5 := by omega
  have n3 : ¬ r < 7 := by omega
  have n4 : ¬ r < 9 := by omega
  rw [noProgressActions, if_neg n1, if_neg n2, if_neg n3, if_neg n4]

/-- One pass after a `NoProgress` answer: the branch and the counters are
those of `noProgressActions`. -/
theorem pass_noProgress (E : Int) (kernel : Kernel) (c : Nat) (s : NlsState) (m : Nat)
    (hk : (kernel c { s with giveUp := true }).info = 4 ∨
      (kernel c { s with giveUp := true }).info = 5) :
    ((solveBody E kernel c s).output.giveUp = true ∧
      (solveBody E kernel c s).action = Action.failed ∧
      noProgressActions (m + 1) s.retries s.retries2 s.retries3 = [Action.failed]) ∨
    ((solveBody E kernel c s).output.giveUp = false ∧
      noProgressActions (m + 1) s.retries s.retries2 s.retries3 =
        (solveBody E kernel c s).action ::
          noProgressActions m (solveBody E kernel c s).output.retries
            (solveBody E kernel c s).output.retries2
            (solveBody E kernel c s).output.retries3) := by
  have hkf := kernelPass_frame kernel c s
  obtain ⟨k, hkdef⟩ : ∃ k, kernelPass kernel c s = k := ⟨_, rfl⟩
  rw [hkdef] at hkf
  obtain ⟨hkg, hk1, hk2, hk3, _, _, _, _, _, hki, _⟩ := hkf
  have hout : (solveBody E kernel c s).output = (ladder E k).1 := by
    show (ladder E (kernelPass kernel c s)).1 = _
    rw [hkdef]
  have hact : (solveBody E kernel c s).action = (ladder E k).2 := by
    show (ladder E (kernelPass kernel c s)).2 = _
    rw [hkdef]
  rw [← hki] at hk
  rw [hout, hact, ← hk1, ← hk2, ← hk3]
  refine ladder_elim E k (fun r =>
    (r.1.giveUp = true ∧ r.2 = Action.failed ∧
      noProgressActions (m + 1) k.retries k.retries2 k.retries3 = [Action.failed]) ∨
    (r.1.giveUp = false ∧
      noProgressActions (m + 1) k.retries k.retries2 k.retries3 =
        r.2 :: noProgressActions m r.1.retries r.1.retries2 r.1.retries3))
    ?_ ?_ ?_ ?_ ?_ ?_ ?_ ?_ ?_ ?_
  · intro _ h1
    refine Or.inr ⟨rfl, ?_⟩
    rw [noProgressActions, if_pos h1]; rfl
  · intro _ h1 h2
    have n1 : ¬ k.retries < 3 := by omega
    refine Or.inr ⟨rfl, ?_⟩
    rw [noProgressActions, if_neg n1, if_pos h2]; rfl
  · intro _ h1 h2
    have n1 : ¬ k.retries < 3 := by omega
    have n2 : ¬ k.retries < 5 := by omega
    refine Or.inr ⟨rfl, ?_⟩
    rw [noProgressActions, if_neg n1, if_neg n2, if_pos h2]; rfl
  · intro _ h1 h2
    have n1 : ¬ k.retries < 3 := by omega
    have n2 : ¬ k.retries < 5 := by omega
    have n3 : ¬ k.retries < 7 := by omega
    refine Or.inr ⟨rfl, ?_⟩
    rw [noProgressActions, if_neg n1, if_neg n2, if_neg n3, if_pos h2]; rfl
  · intro _ h1 h2
    refine Or.inr ⟨rfl, ?_⟩
    rw [noProgressActions_late m _ _ _ h1, if_pos h2]; rfl
  · intro _ h1 h2 h3
    have m1 : ¬ k.retries2 < 1 := by omega
    refine Or.inr ⟨rfl, ?_⟩
    rw [noProgressActions_late m _ _ _ h1, if_neg m1, if_pos h3]; rfl
  · intro _ h1 h2 h3
    have m1 : ¬ k.retries2 < 1 := by omega
    have m2 : ¬ k.retries3 < 1 := by omega
    have m3 : k.retries3 < 2 := by omega
    refine Or.inr ⟨rfl, ?_⟩
    rw [noProgressActions_late m _ _ _ h1, if_neg m1, if_neg m2, if_pos m3]; rfl
  · intro _ h1 h2 h3
    have m1 : ¬ k.retries2 < 1 := by omega
    have m2 : ¬ k.retries3 < 1 := by omega
    have m3 : ¬ k.retries3 < 2 := by omega
    have m4 : k.retries3 < 3 := by omega
    refine Or.inr ⟨rfl, ?_⟩
    rw [noProgressActions_late m _ _ _ h1, if_neg m1, if_neg m2, if_neg m3, if_pos m4]; rfl
  · intro _ _ h
    obtain ⟨h1, h2, h3⟩ := h hk
    have m1 : ¬ k.retries2 < 1 := by omega
    have m2 : ¬ k.retries3 < 1 := by omega
    have m3 : ¬ k.retries3 < 2 := by omega
    have m4 : ¬ k.retries3 < 3 := by omega
    refine Or.inl ⟨hkg, rfl, ?_⟩
    rw [noProgressActions_late m _ _ _ h1, if_neg m1, if_neg m2, if_neg m3, if_neg m4]
  · intro h
    exfalso
    omega

/-- The branches of a run with a kernel that always answers `NoProgress`. -/
theorem solveLoop_noProgress (E : Int) (kernel : Kernel)
    (hk : ∀ c w, (kernel c w).info = 4 ∨ (kernel c w).info = 5) :
    ∀ (fuel : Nat) (s : NlsState) (tr : List Pass) (r : NlsState) (tr1 : List Pass),
      s.giveUp = false → solveLoop E kernel fuel s tr = some (r, tr1) →
      tr1.map Pass.action =
          tr.map Pass.action ++ noProgressActions fuel s.retries s.retries2 s.retries3 ∧
        tr1.map Pass.call = tr.map Pass.call ++ List.range' tr.length (tr1.length - tr.length) := by
  intro fuel
  induction fuel with
  | zero => intro s tr r tr1 _ h; exact absurd h (by simp [solveLoop])
  | succ fuel ih =>
    intro s tr r tr1 hg h
    rw [solveLoop_pass E kernel fuel s tr hg] at h
    rcases pass_noProgress E kernel tr.length s fuel (hk _ _) with ⟨h1, h2, h3⟩ | ⟨h1, h2⟩
    · cases fuel with
      | zero => exact absurd h (by simp [solveLoop])
      | succ f =>
        rw [solveLoop_giveUp E kernel f _ _ h1] at h
        cases h
        rw [h3]
        refine ⟨by rw [List.map_append, List.map_singleton, h2], ?_⟩
        rw [List.map_append, List.map_singleton, List.length_append, List.length_singleton,
          Nat.add_sub_cancel_left]
        rfl
    · obtain ⟨a1, a2⟩ := ih _ _ r tr1 h1 h
      rw [h2]
      refine ⟨by rw [a1, List.map_append, List.map_singleton, List.append_assoc]; rfl, ?_⟩
      rw [a2, List.map_append, List.map_singleton, List.length_append, List.length_singleton,
        List.append_assoc]
      have hc : (solveBody E kernel tr.length s).call = tr.length := rfl
      rw [hc]
      have hlen : tr.length + 1 ≤ tr1.length := by
        have := congrArg List.length a2
        simp only [List.length_map, List.length_append, List.length_singleton] at this
        omega
      have e : tr1.length - tr.length = (tr1.length - (tr.length + 1)) + 1 := by omega
      rw [e, List.range'_succ]
      rfl
/-- The branches of the exhausted ladder, counted out. -/
theorem noProgressActions_exhausted :
    noProgressActions 81 0 0 0 =
      ladderBlock ++ [Action.tier5] ++ ladderBlock ++ [Action.tier6] ++
        ladderBlock ++ [Action.tier5] ++ ladderBlock ++ [Action.tier7] ++
        ladderBlock ++ [Action.tier5] ++ ladderBlock ++ [Action.tier8] ++
        ladderBlock ++ [Action.tier5] ++ ladderBlock ++ [Action.failed] := by
  decide

/-- C24: for a kernel that answers `NoProgress` on every call
`solve_nonlinear_system` makes exactly 80 passes, one kernel call each
(numbered 0 to 79): 79 retry actions in the order B,5,B,6,B,5,B,7,B,5,B,8,B,5,B
(B the block tier 1 three times, tiers 2, 3, 4 twice each; tier 1 is taken 24
times and tier 5 four times), then the failure branch; and for every kernel
the driver returns after at most 80 kernel calls. -/
theorem exhausted_ladder_length (E : Int) (kernel : Kernel) (s : NlsState) (fuel : Nat)
    (hk : ∀ c w, (kernel c w).info = 4 ∨ (kernel c w).info = 5) :
    (∃ r tr, solve_nonlinear_system E kernel (fuel + 81) s = some (r, tr) ∧
      tr.length = 80 ∧ tr.map Pass.call = List.range 80 ∧
      tr.map Pass.action =
        ladderBlock ++ [Action.tier5] ++ ladderBlock ++ [Action.tier6] ++
          ladderBlock ++ [Action.tier5] ++ ladderBlock ++ [Action.tier7] ++
          ladderBlock ++ [Action.tier5] ++ ladderBlock ++ [Action.tier8] ++
          ladderBlock ++ [Action.tier5] ++ ladderBlock ++ [Action.failed] ∧
      (tr.map Pass.action).count Action.tier1 = 24 ∧
      (tr.map Pass.action).count Action.tier5 = 4 ∧
      ((tr.map Pass.action).filter (fun a => decide (a ≠ Action.failed))).length = 79) ∧
    ∀ (kernel2 : Kernel) (s2 : NlsState) (fuel2 : Nat),
      ∃ r tr, solve_nonlinear_system E kernel2 (fuel2 + 81) s2 = some (r, tr) ∧
        tr.length ≤ 80 := by
  constructor
  · obtain ⟨r, tr, h1, _, _⟩ :=
      solveLoop_terminates E kernel 81 (solveEntry s) [] (by show 79 + 2 ≤ 81; omega)
    have h2 := solveLoop_mono E kernel 81 (solveEntry s) [] _ fuel h1
    rw [Nat.add_comm 81 fuel] at h2
    obtain ⟨a1, a2⟩ := solveLoop_noProgress E kernel hk 81 (solveEntry s) [] r _ rfl h1
    simp only [List.nil_append, List.map_nil, List.length_nil, Nat.sub_zero] at a1 a2 h2
    have a3 : tr.map Pass.action = noProgressActions 81 0 0 0 := a1
    rw [noProgressActions_exhausted] at a3
    have hlen : tr.length = 80 := by
      have := congrArg List.length a3
      rw [List.length_map] at this
      rw [this]
      rfl
    refine ⟨r, tr, h2, hlen, ?_, a3, ?_, ?_, ?_⟩
    · rw [a2, hlen, List.range_eq_range']
    · rw [a3]; decide
    · rw [a3]; decide
    · rw [a3]; decide
  · intro kernel2 s2 fuel2
    obtain ⟨r, tr, h1, _, h3⟩ :=
      solveLoop_terminates E kernel2 (fuel2 + 81) (solveEntry s2) []
        (by show 79 + 2 ≤ fuel2 + 81; omega)
    refine ⟨r, tr, by simpa [solve_nonlinear_system] using h1, ?_⟩
    have : ladderRank (solveEntry s2) = 79 := rfl
    omega

theorem exhausted_ladder_length_witness :
    ∃ r tr, solve_nonlinear_system 7 (constKernel 4) (0 + 81)
        (start_nonlinear_system 1 (fun _ => 0) 0 0) = some (r, tr) ∧
      tr.length = 80 ∧ (tr.map Pass.action).count Action.tier1 = 24 ∧
      (tr.map Pass.action).count Action.tier5 = 4 := by
  obtain ⟨r, tr, h1, h2, _, _, h5, h6, _⟩ :=
    (exhausted_ladder_length 7 (constKernel 4) (start_nonlinear_system 1 (fun _ => 0) 0 0) 0
      (fun _ _ => Or.inl rfl)).1
  exact ⟨r, tr, h1, h2, h5, h6⟩

/-! ## Objective of the optimizer: value -/

/-- An accumulation loop `for(j = 0; j < n; ++j) acc += f j` adds the sum of
the `f j`. -/
theorem foldl_add_range (f : Nat → ℚ) (a : ℚ) :
    ∀ n : Nat, (List.range n).foldl (fun (acc : ℚ) (j : Nat) => acc + f j) a =
      a + Finset.sum (Finset.range n) f := by
  intro n
  induction n with
  | zero => simp
  | succ n ih =>
    rw [List.range_succ, List.foldl_append, ih, Finset.sum_range_succ]
    simp only [List.foldl_cons, List.foldl_nil]
    ring

/-- The loop nest of lines 72-76 adds to `erg0[j]`, `j < np`, the values of
the rows `s, ..., s + m - 1`. -/
theorem foldl_rows (g : Nat → Nat → ℚ) (np : Nat) :
    ∀ (m s : Nat) (e : Nat → ℚ) (j : Nat),
      (List.range' s m).foldl
          (fun (e : Nat → ℚ) (i : Nat) => fun j => if j < np then e j + g i j else e j) e j =
        if j < np then e j + Finset.sum (Finset.range m) (fun t => g (s + t) j) else e j := by
  intro m
  induction m with
  | zero => intro s e j; simp
  | succ m ih =>
    intro s e j
    rw [List.range'_succ, List.foldl_cons, ih (s + 1)]
    by_cases hj : j < np
    · simp only [hj, if_true]
      rw [Finset.sum_range_succ']
      simp only [Nat.add_zero]
      have : ∀ t, g (s + 1 + t) j = g (s + (t + 1)) j := fun t => by
        rw [Nat.add_assoc, Nat.add_comm 1 t]
      simp only [this]
      ring
    · simp only [hj, if_false]

/-- C27: `evalfF` returns `TRUE` and writes `lagrange + mayer`: the Mayer term
is `v[nsi-1][np-1][index_mayer]` when enabled and 0 otherwise; the Lagrange
term is 0 when disabled and, when enabled with `nsi ≥ 2`, it is `dt[0]` times
the sum of `b[j]*v[i][j][index_lagrange]` over `i ≤ nsi-2`, `j < np`, plus
`dt[1]` times the sum of `b[j]*v[nsi-1][j][index_lagrange]` over `j < np`.
The switches are those on entry, the other data those left by
`optData2ModelData` when `new_x` is set. -/
theorem evalfF_value (U : ModelUpdate) (n : Int) (vopt : Int → ℚ) (new_x : Bool)
    (optData d : OptData) (hd : d = if new_x then U optData vopt 1 else optData)
    (hn : optData.lagrange = true → 2 ≤ d.nsi) :
    (evalfF U n vopt new_x optData).1 = true ∧
    (evalfF U n vopt new_x optData).2.2 = d ∧
    (evalfF U n vopt new_x optData).2.1 =
      (if optData.lagrange then
          d.dt 0 * Finset.sum (Finset.range (d.nsi - 1)) (fun i =>
              Finset.sum (Finset.range d.np) (fun j =>
                d.b j * d.v i j d.index_lagrange)) +
            d.dt 1 * Finset.sum (Finset.range d.np) (fun j =>
              d.b j * d.v ((d.nsi : Int) - 1) j d.index_lagrange)
        else 0) +
      (if optData.mayer then d.v ((d.nsi : Int) - 1) ((d.np : Int) - 1) d.index_mayer
        else 0) ∧
    (optData.lagrange = false → optData.mayer = false →
      (evalfF U n vopt new_x optData).2.1 = 0) := by
  have hval : (evalfF U n vopt new_x optData).2.1 =
      (if optData.lagrange then
          d.dt 0 * Finset.sum (Finset.range (d.nsi - 1)) (fun i =>
              Finset.sum (Finset.range d.np) (fun j =>
                d.b j * d.v i j d.index_lagrange)) +
            d.dt 1 * Finset.sum (Finset.range d.np) (fun j =>
              d.b j * d.v ((d.nsi : Int) - 1) j d.index_lagrange)
        else 0) +
      (if optData.mayer then d.v ((d.nsi : Int) - 1) ((d.np : Int) - 1) d.index_mayer
        else 0) := by
    unfold evalfF
    simp only [← hd]
    congr 1
    by_cases hla : optData.lagrange = true
    · rw [if_pos hla, if_pos hla]
      have h2 := hn hla
      rw [foldl_add_range, foldl_add_range, zero_add, zero_add]
      have herg0 : ∀ j ∈ Finset.range d.np,
          d.b j * (List.range' 1 (d.nsi - 2)).foldl
              (fun (e : Nat → ℚ) (i : Nat) => fun j =>
                if j < d.np then e j + d.v i j d.index_lagrange else e j)
              (fun j => if j < d.np then d.v 0 j d.index_lagrange else 0) j =
            Finset.sum (Finset.range (d.nsi - 1)) (fun i =>
              d.b j * d.v i j d.index_lagrange) := by
        intro j hj
        have hjn : j < d.np := Finset.mem_range.mp hj
        rw [foldl_rows (fun i j => d.v i j d.index_lagrange) d.np, if_pos hjn, if_pos hjn]
        have e : d.nsi - 1 = (d.nsi - 2) + 1 := by omega
        rw [e, Finset.sum_range_succ', mul_add, Finset.mul_sum]
        simp only [Nat.cast_zero, Nat.add_comm 1]
        ring
      rw [Finset.sum_congr rfl herg0, Finset.sum_comm]
      ring
    · rw [if_neg hla, if_neg hla]
  refine ⟨rfl, ?_, hval, fun h1 h2 => ?_⟩
  · rw [hd]; rfl
  · rw [hval, h1, h2]
    simp
theorem evalfF_value_witness :
    (evalfF (fun d _ _ => d) 12 (fun _ => 0) false sampleOptData).1 = true ∧
      (evalfF (fun d _ _ => d) 12 (fun _ => 0) false sampleOptData).2.1 = 2861 := by
  obtain ⟨h1, _, h3, _⟩ := evalfF_value (fun d _ _ => d) 12 (fun _ => 0) false sampleOptData
    sampleOptData rfl (fun _ => by decide)
  refine ⟨h1, ?_⟩
  rw [h3]
  simp [sampleOptData, Finset.sum_range_succ]
  norm_num

/-! ## Objective of the optimizer: gradient -/

/-- The entries of block `(i, j)` lie before the end of the first `m` rows of
blocks. -/
theorem block_lt (m np nv i j q : Nat) (hi : i < m) (hj : j < np) (hq : q < nv) :
    (i * np + j) * nv + q < m * np * nv := by
  have h1 : i * np + j + 1 ≤ m * np := by
    have : (i + 1) * np ≤ m * np := Nat.mul_le_mul_right np hi
    have e : (i + 1) * np = i * np + np := by ring
    omega
  have h2 : (i * np + j + 1) * nv ≤ m * np * nv := Nat.mul_le_mul_right nv h1
  have e : (i * np + j + 1) * nv = (i * np + j) * nv + nv := by ring
  omega

theorem copyRows_succ (nv : Nat) (row : Nat → Int → ℚ) (m : Nat) (st : (Int → ℚ) × Int) :
    copyRows nv row (m + 1) st =
      (copyRow nv (copyRows nv row m st).1 (copyRows nv row m st).2 (row m),
        (copyRows nv row m st).2 + nv) := by
  unfold copyRows
  rw [List.range_succ, List.foldl_append]
  rfl

/-- The copy loop writes `m` consecutive blocks of `nv` entries from `ii` on
and nothing else. -/
theorem copyRows_spec (nv : Nat) (row : Nat → Int → ℚ) :
    ∀ (m : Nat) (st : (Int → ℚ) × Int),
      (copyRows nv row m st).2 = st.2 + (m : Int) * nv ∧
      (∀ t : Int, (t < st.2 ∨ st.2 + (m : Int) * nv ≤ t) → (copyRows nv row m st).1 t = st.1 t) ∧
      ∀ j q : Nat, j < m → q < nv →
        (copyRows nv row m st).1 (st.2 + (j : Int) * nv + q) = row j q := by
  intro m
  induction m with
  | zero =>
    intro st
    refine ⟨by simp [copyRows], fun t _ => rfl, fun j q hj _ => absurd hj (Nat.not_lt_zero _)⟩
  | succ m ih =>
    intro st
    obtain ⟨h1, h2, h3⟩ := ih st
    rw [copyRows_succ]
    have hnv : (0 : Int) ≤ nv := Int.ofNat_nonneg _
    refine ⟨?_, fun t ht => ?_, fun j q hj hq => ?_⟩
    · show (copyRows nv row m st).2 + (nv : Int) = _
      rw [h1]; push_cast; ring
    · show (if (copyRows nv row m st).2 ≤ t ∧ t < (copyRows nv row m st).2 + nv then _
        else (copyRows nv row m st).1 t) = _
      have e : ((m + 1 : Nat) : Int) * nv = (m : Int) * nv + nv := by push_cast; ring
      rw [e] at ht
      rw [h1, if_neg (by
        rintro ⟨a, b⟩
        rcases ht with ht | ht
        · have : (0 : Int) ≤ (m : Int) * nv := mul_nonneg (Int.ofNat_nonneg _) hnv
          linarith
        · linarith)]
      refine h2 t ?_
      rcases ht with ht | ht
      · exact Or.inl ht
      · exact Or.inr (by linarith)
    · show (if (copyRows nv row m st).2 ≤ st.2 + (j : Int) * nv + q ∧
          st.2 + (j : Int) * nv + q < (copyRows nv row m st).2 + nv then
            row m (st.2 + (j : Int) * nv + q - (copyRows nv row m st).2)
        else (copyRows nv row m st).1 (st.2 + (j : Int) * nv + q)) = _
      have hq0 : (0 : Int) ≤ q := Int.ofNat_nonneg _
      have hqn : (q : Int) < nv := by exact_mod_cast hq
      by_cases hjm : j = m
      · subst hjm
        rw [h1, if_pos ⟨by linarith, by linarith⟩]
        congr 1
        ring
      · have hjlt : j < m := by omega
        have hb : ((j : Int) + 1) * nv ≤ (m : Int) * nv := by
          have : (j + 1) * nv ≤ m * nv := Nat.mul_le_mul_right nv hjlt
          exact_mod_cast this
        have hb2 : ((j : Int) + 1) * nv = (j : Int) * nv + nv := by ring
        rw [h1, if_neg (by rintro ⟨a, _⟩; linarith)]
        exact h3 j q hjlt hq

/-- The loop nest of lines 126-131 writes the blocks `(i, j)`, `i < m`,
`j < np`, at the offsets `(i*np + j)*nv` and leaves `ii` at `m*np*nv`. -/
theorem copyBlocks_spec (nv np : Nat) (rowOf : Nat → Nat → Int → ℚ) (g : Int → ℚ) :
    ∀ m : Nat,
      ((List.range m).foldl (fun st (i : Nat) => copyRows nv (rowOf i) np st) (g, 0)).2 =
          ((m * np * nv : Nat) : Int) ∧
      ∀ i j q : Nat, i < m → j < np → q < nv →
        ((List.range m).foldl (fun st (i : Nat) => copyRows nv (rowOf i) np st) (g, 0)).1
            ((((i * np + j) * nv + q : Nat)) : Int) = rowOf i j q := by
  intro m
  induction m with
  | zero =>
    refine ⟨by simp, fun i j q hi _ _ => absurd hi (Nat.not_lt_zero _)⟩
  | succ m ih =>
    obtain ⟨h1, h2⟩ := ih
    rw [List.range_succ, List.foldl_append]
    obtain ⟨st, hst⟩ : ∃ st,
      (List.range m).foldl (fun st (i : Nat) => copyRows nv (rowOf i) np st) (g, 0) = st :=
      ⟨_, rfl⟩
    rw [hst] at h1 h2 ⊢
    show (copyRows nv (rowOf m) np st).2 = _ ∧ ∀ i j q : Nat, i < m + 1 → j < np → q < nv →
      (copyRows nv (rowOf m) np st).1 _ = _
    obtain ⟨c1, c2, c3⟩ := copyRows_spec nv (rowOf m) np st
    refine ⟨by rw [c1, h1]; push_cast; ring, fun i j q hi hj hq => ?_⟩
    by_cases him : i = m
    · subst him
      have := c3 j q hj hq
      rw [h1] at this
      have e : ((((i * np + j) * nv + q : Nat)) : Int) =
          ((i * np * nv : Nat) : Int) + (j : Int) * nv + q := by
        push_cast
        ring
      rw [e]
      exact this
    · have hlt : i < m := by omega
      rw [c2 _ (Or.inl (by rw [h1]; exact_mod_cast block_lt m np nv i j q hlt hj hq))]
      exact h2 i j q hlt hj hq
/-- The position of block `(i, j)` among the `nsi*np` blocks: the last one
exactly for `i + 1 = nsi` and `j + 1 = np`. -/
theorem block_pos (nsi np i j : Nat) (hi : i < nsi) (hj : j < np) :
    (i + 1 = nsi ∧ j + 1 = np → i * np + j + 1 = nsi * np) ∧
      (¬ (i + 1 = nsi ∧ j + 1 = np) → i * np + j + 1 < nsi * np) := by
  constructor
  · rintro ⟨h1, h2⟩
    subst h1
    have e : (i + 1) * np = i * np + np := by ring
    omega
  · intro h
    by_cases h1 : i + 1 = nsi
    · subst h1
      have e : (i + 1) * np = i * np + np := by ring
      omega
    · have h2 : (i + 2) * np ≤ nsi * np := Nat.mul_le_mul_right np (by omega)
      have e : (i + 2) * np = i * np + np + np := by ring
      omega

/-- The array `gradF` after the Lagrange part of `evalfDiffF` (lines 120-137):
block `(i, j)` holds the row `J[i][j][derIndex[1]]`, the last block the row
`J[nsi-1][np-1][derIndex[2]]`. -/
theorem lagrange_blocks (nv np nsi : Nat) (J : Int → Int → Int → Int → ℚ) (k k2 : Int)
    (g : Int → ℚ) (i j q : Nat) (hi : i < nsi) (hj : j < np) (hq : q < nv) :
    (copyRows nv
        (fun j => if j + 1 = np then J (nsi - 1 : Nat) j k2 else J (nsi - 1 : Nat) j k) np
        ((List.range (nsi - 1)).foldl
          (fun st (i : Nat) => copyRows nv (fun j => J i j k) np st) (g, 0))).1
        ((((i * np + j) * nv + q : Nat)) : Int) =
      if i + 1 = nsi ∧ j + 1 = np then J i j k2 q else J i j k q := by
  obtain ⟨h1, h2⟩ := copyBlocks_spec nv np (fun i j => J i j k) g (nsi - 1)
  obtain ⟨st, hst⟩ : ∃ st, (List.range (nsi - 1)).foldl
      (fun st (i : Nat) => copyRows nv (fun j => J i j k) np st) (g, 0) = st := ⟨_, rfl⟩
  have h1a : ((List.range (nsi - 1)).foldl
      (fun st (i : Nat) => copyRows nv (fun j => J (i : Int) (j : Int) k) np st) (g, 0)).2 =
        (((nsi - 1) * np * nv : Nat) : Int) := h1
  have h2a : ∀ i j q : Nat, i < nsi - 1 → j < np → q < nv →
      ((List.range (nsi - 1)).foldl
        (fun st (i : Nat) => copyRows nv (fun j => J (i : Int) (j : Int) k) np st) (g, 0)).1
          ((((i * np + j) * nv + q : Nat)) : Int) = J i j k q := h2
  rw [hst] at h1a h2a ⊢
  obtain ⟨_, c2, c3⟩ := copyRows_spec nv
    (fun j => if j + 1 = np then J (nsi - 1 : Nat) j k2 else J (nsi - 1 : Nat) j k) np st
  by_cases hlast : i + 1 = nsi
  · have hi1 : i = nsi - 1 := by omega
    have := c3 j q hj hq
    rw [h1a] at this
    have e : ((((i * np + j) * nv + q : Nat)) : Int) =
        (((nsi - 1) * np * nv : Nat) : Int) + (j : Int) * nv + q := by
      rw [hi1]
      push_cast
      ring
    rw [e, this, ← hi1]
    by_cases hj1 : j + 1 = np
    · rw [if_pos hj1, if_pos ⟨hlast, hj1⟩]
    · rw [if_neg hj1, if_neg (fun h => hj1 h.2)]
  · have hlt : i < nsi - 1 := by omega
    rw [c2 _ (Or.inl (by rw [h1a]; exact_mod_cast block_lt (nsi - 1) np nv i j q hlt hj hq)),
      h2a i j q hlt hj hq, if_neg (fun h => hlast h.1)]
/-- C28: for `n = nsi*np*nv`, `evalfDiffF` returns `TRUE`; with
the Lagrange term disabled `gradF` is zero in its first `n - nv` entries and
its last `nv` entries hold the Mayer row `J[nsi-1][np-1][derIndex[0]]` when
the Mayer term is enabled and zero otherwise; with the Lagrange term enabled
the block `(i, j)` of `nv` entries at offset `(i*np + j)*nv` holds
`J[i][j][derIndex[1]]`, except the last block `(nsi-1, np-1)`, which holds
`J[nsi-1][np-1][derIndex[2]]`, plus the Mayer row entry by entry when the
Mayer term is enabled as well (a block `(i, j)` has `i < nsi`, so there is one
only for `nsi ≥ 1`).  The dimensions and switches are those on
entry, `J` and `derIndex` those left by `optData2ModelData` when `new_x` is
set. -/
theorem evalfDiffF_layout (U : ModelUpdate) (n : Int) (vopt : Int → ℚ) (new_x : Bool)
    (gradF : Int → ℚ) (optData d : OptData)
    (hd : d = if new_x then U optData vopt 1 else optData)
    (hn : n = ((optData.nsi * optData.np * optData.nv : Nat) : Int)) :
    (evalfDiffF U n vopt new_x gradF optData).1 = true ∧
    (evalfDiffF U n vopt new_x gradF optData).2.2 = d ∧
    (optData.lagrange = false →
      (∀ t : Int, 0 ≤ t → t < n - optData.nv →
        (evalfDiffF U n vopt new_x gradF optData).2.1 t = 0) ∧
      ∀ q : Nat, q < optData.nv → 0 ≤ n - optData.nv + q →
        (evalfDiffF U n vopt new_x gradF optData).2.1 (n - optData.nv + q) =
          if optData.mayer then
            d.J ((optData.nsi : Int) - 1) ((optData.np : Int) - 1) (d.derIndex 0) q
          else 0) ∧
    (optData.lagrange = true →
      ∀ i j q : Nat, i < optData.nsi → j < optData.np → q < optData.nv →
        (evalfDiffF U n vopt new_x gradF optData).2.1
            ((((i * optData.np + j) * optData.nv + q : Nat)) : Int) =
          if i + 1 = optData.nsi ∧ j + 1 = optData.np then
            d.J i j (d.derIndex 2) q +
              (if optData.mayer then
                d.J ((optData.nsi : Int) - 1) ((optData.np : Int) - 1) (d.derIndex 0) q
              else 0)
          else d.J i j (d.derIndex 1) q) := by
  refine ⟨rfl, by rw [hd]; rfl, fun hla => ?_, fun hla i j q hi hj hq => ?_⟩
  · have hg : (evalfDiffF U n vopt new_x gradF optData).2.1 =
        if optData.mayer then
          copyRow optData.nv (fun t => if 0 ≤ t ∧ t < n then 0 else gradF t)
            (n - optData.nv)
            (d.J ((optData.nsi : Int) - 1) ((optData.np : Int) - 1) (d.derIndex 0))
        else fun t => if 0 ≤ t ∧ t < n then 0 else gradF t := by
      unfold evalfDiffF
      simp only [← hd, hla, Bool.false_eq_true, if_false]
    rw [hg]
    have hnv : (0 : Int) ≤ optData.nv := Int.ofNat_nonneg _
    constructor
    · intro t h0 ht
      by_cases hma : optData.mayer = true
      · rw [if_pos hma]
        show (if n - (optData.nv : Int) ≤ t ∧ t < n - optData.nv + optData.nv then _
          else if 0 ≤ t ∧ t < n then (0 : ℚ) else gradF t) = 0
        rw [if_neg (by rintro ⟨a, _⟩; linarith), if_pos ⟨h0, by linarith⟩]
      · rw [if_neg hma]
        show (if 0 ≤ t ∧ t < n then (0 : ℚ) else gradF t) = 0
        rw [if_pos ⟨h0, by linarith⟩]
    · intro q hq h0
      have hq0 : (0 : Int) ≤ q := Int.ofNat_nonneg _
      have hqn : (q : Int) < optData.nv := by exact_mod_cast hq
      by_cases hma : optData.mayer = true
      · rw [if_pos hma, if_pos hma]
        show (if n - (optData.nv : Int) ≤ n - optData.nv + q ∧
            n - optData.nv + q < n - optData.nv + optData.nv then
              d.J ((optData.nsi : Int) - 1) ((optData.np : Int) - 1) (d.derIndex 0)
                (n - optData.nv + q - (n - optData.nv))
            else _) = _
        rw [if_pos ⟨by linarith, by linarith⟩]
        congr 1
        ring
      · rw [if_neg hma, if_neg hma]
        show (if 0 ≤ n - (optData.nv : Int) + q ∧ n - (optData.nv : Int) + q < n then (0 : ℚ)
          else gradF _) = 0
        rw [if_pos ⟨h0, by linarith⟩]
  · obtain ⟨g1, hg1def⟩ : ∃ g1 : Int → ℚ, (copyRows optData.nv
        (fun j => if j + 1 = optData.np then d.J (optData.nsi - 1 : Nat) j (d.derIndex 2)
          else d.J (optData.nsi - 1 : Nat) j (d.derIndex 1)) optData.np
        ((List.range (optData.nsi - 1)).foldl
          (fun st (i : Nat) => copyRows optData.nv (fun j => d.J i j (d.derIndex 1))
            optData.np st) (gradF, 0))).1 = g1 := ⟨_, rfl⟩
    have hblk := lagrange_blocks optData.nv optData.np optData.nsi d.J (d.derIndex 1)
      (d.derIndex 2) gradF i j q hi hj hq
    rw [hg1def] at hblk
    have hg : (evalfDiffF U n vopt new_x gradF optData).2.1 =
        if optData.mayer then
          fun t => if n - (optData.nv : Int) ≤ t ∧ t < n - optData.nv + optData.nv then
            g1 t + d.J ((optData.nsi : Int) - 1) ((optData.np : Int) - 1) (d.derIndex 0)
              (t - (n - optData.nv))
          else g1 t
        else g1 := by
      unfold evalfDiffF
      simp only [← hd, hla, if_true]
      rw [hg1def]
    rw [hg]
    obtain ⟨p1, p2⟩ := block_pos optData.nsi optData.np i j hi hj
    have hqn : (q : Int) < optData.nv := by exact_mod_cast hq
    have hq0 : (0 : Int) ≤ q := Int.ofNat_nonneg _
    have hidx : ((((i * optData.np + j) * optData.nv + q : Nat)) : Int) =
        ((i * optData.np + j : Nat) : Int) * optData.nv + q := by push_cast; ring
    have hnn : n = ((optData.nsi * optData.np : Nat) : Int) * optData.nv := by
      rw [hn]; push_cast; ring
    by_cases hma : optData.mayer = true
    · rw [if_pos hma, if_pos hma]
      show (if n - (optData.nv : Int) ≤ _ ∧ _ < n - optData.nv + optData.nv then
          g1 _ + d.J ((optData.nsi : Int) - 1) ((optData.np : Int) - 1) (d.derIndex 0) (_ - (n - optData.nv))
        else g1 _) = _
      by_cases hlast : i + 1 = optData.nsi ∧ j + 1 = optData.np
      · have hB := p1 hlast
        have hBi : ((i * optData.np + j : Nat) : Int) + 1 =
            ((optData.nsi * optData.np : Nat) : Int) := by exact_mod_cast hB
        have hoff : n - (optData.nv : Int) =
            ((i * optData.np + j : Nat) : Int) * optData.nv := by
          rw [hnn, ← hBi]; ring
        rw [if_pos ⟨by rw [hidx, hoff]; linarith, by rw [hidx, hoff]; linarith⟩, hblk,
          if_pos hlast, if_pos hlast]
        congr 1
        congr 1
        rw [hidx, hoff]
        ring
      · have hB := p2 hlast
        have hle : ((i * optData.np + j + 1 + 1) * optData.nv : Nat) ≤
            optData.nsi * optData.np * optData.nv := Nat.mul_le_mul_right _ hB
        have hle2 : (((i * optData.np + j : Nat) : Int) + 1 + 1) * optData.nv ≤ n := by
          rw [hn]; exact_mod_cast hle
        rw [if_neg (by rintro ⟨a, _⟩; rw [hidx] at a; nlinarith), hblk, if_neg hlast,
          if_neg hlast]
    · rw [if_neg hma, hblk]
      by_cases hlast : i + 1 = optData.nsi ∧ j + 1 = optData.np
      · rw [if_pos hlast, if_pos hlast, if_neg hma, add_zero]
      · rw [if_neg hlast, if_neg hlast]
theorem evalfDiffF_layout_witness :
    (evalfDiffF (fun d _ _ => d) 12 (fun _ => 0) false (fun _ => 0) sampleOptData).1 = true ∧
      (evalfDiffF (fun d _ _ => d) 12 (fun _ => 0) false (fun _ => 0) sampleOptData).2.1 11 =
        21111 / 5 ∧
      (evalfDiffF (fun d _ _ => d) 12 (fun _ => 0) false (fun _ => 0) sampleOptData).2.1 2 =
        111 := by
  obtain ⟨h1, _, _, h4⟩ := evalfDiffF_layout (fun d _ _ => d) 12 (fun _ => 0) false
    (fun _ => 0) sampleOptData sampleOptData rfl rfl
  have a := h4 rfl 2 1 1 (by decide) (by decide) (by decide)
  have b := h4 rfl 0 1 0 (by decide) (by decide) (by decide)
  refine ⟨h1, ?_, ?_⟩
  · have e : ((((2 * sampleOptData.np + 1) * sampleOptData.nv + 1 : Nat)) : Int) = 11 := rfl
    rw [e] at a
    rw [a]
    simp [sampleOptData]
    norm_num
  · have e : ((((0 * sampleOptData.np + 1) * sampleOptData.nv + 0 : Nat)) : Int) = 2 := rfl
    rw [e] at b
    rw [b]
    simp [sampleOptData]
    norm_num

end OMC
